import Mathlib

/-!
Verification of `server/validation.js`

A shallow embedding of the error-translation layer of the middle-layer API
(`src/server/validation.js`) and theorems about it.

Conventions of the embedding

* A JavaScript string is a Lean `String`; the string primitives of the runtime
  (`indexOf`, `substring`, `split`, `replace`, `trim`) are written on the list of
  characters `String.data`.  The class `[A-Z]` is the ASCII one; `toUpperCase` follows the case
  mappings of the Unicode Character Database.
* A JavaScript value is a `JsVal`.  A property that is absent and a property whose
  value is `undefined` both read as `JsVal.undefined`.
* A JavaScript number is an integer (`JsVal.num`) or any other number (`JsVal.numOther`:
  a number with a fractional part, `NaN`, an infinity), given by its text and its value.  The
  size of a file is a whole number of bytes, and `size / 1000000.0` is the division of doubles
  as IEEE 754 rounds it, computed in integer arithmetic (`divideDoubles`).
* A function that can throw (a `TypeError` on reading a property of `undefined`, ...)
  returns an `Option`; `none` is the thrown exception.
* Mutable arrays (`errorArray`, `messages`, `requiredFields`, `toCheck`) are passed in
  and returned.
-/

namespace Validation

/-! ## JavaScript values -/

/-- The value of a JavaScript number: `NaN`, an infinity, or the fraction
`numerator / denominator` (with a positive denominator). -/
inductive NumberValue where
  | nan
  | negInfinity
  | posInfinity
  | finite (numerator : Int) (denominator : Nat)

/-- A number that `Number::toString` does not write as an integer in plain decimal: a number
with a fractional part (`12.5`), a number of magnitude `1e21` or more (`1e+21`), `NaN`,
`Infinity` and `-Infinity`.  It is given by its text and its value; the text holds a character
that is not a decimal digit (`.`, `e`, `N`, `I`). -/
structure OtherNumber where
  text : String
  value : NumberValue
  notDigits : text.data.all Char.isDigit = false

/-- JavaScript values as they occur in schemas, failures and error records.  A number is
either `num n`, the integer `n`, whose text is its plain decimal form, or `numOther x`, any
other number; `typeof` is `'number'` for both. -/
inductive JsVal where
  | undefined
  | null
  | bool (b : Bool)
  | num (n : Int)
  | numOther (x : OtherNumber)
  | str (s : String)
  | arr (xs : List JsVal)
  | obj (kvs : List (String × JsVal))
  deriving Inhabited

/-- A JavaScript number, where a number is required (`maxSize`). -/
inductive JsNumber where
  | int (n : Int)
  | other (x : OtherNumber)

/-- The number as a value. -/
def JsNumber.toVal : JsNumber → JsVal
  | .int n => .num n
  | .other x => .numOther x

/-- The value of the number. -/
def JsNumber.value : JsNumber → NumberValue
  | .int n => .finite n 1
  | .other x => x.value

/-- Truthiness of a value (`if (v)`, `v && ...`). -/
def JsVal.truthy : JsVal → Bool
  | .undefined => false
  | .null => false
  | .bool b => b
  | .num n => n != 0
  | .numOther x =>
    match x.value with
    | .nan => false
    | .finite numerator _ => numerator != 0
    | _ => true
  | .str s => s.data != []
  | .arr _ => true
  | .obj _ => true

/-- The test `v === 'text'` against a string literal, as made by a `case` of a `switch`. -/
def JsVal.is (v : JsVal) (text : String) : Bool :=
  match v with
  | .str s => decide (s = text)
  | _ => false

/-- The test `typeof v === 'string'`. -/
def JsVal.isString : JsVal → Bool
  | .str _ => true
  | _ => false

mutual
/-- The conversion `ToString` used by template literals and by `+` on strings. -/
def JsVal.toStr : JsVal → String
  | .undefined => "undefined"
  | .null => "null"
  | .bool true => "true"
  | .bool false => "false"
  | .num n => toString n
  | .numOther x => x.text
  | .str s => s
  | .arr xs => joinWith "," xs
  | .obj _ => "[object Object]"
/-- The method `Array.prototype.join(sep)`: `null` and `undefined` elements give the empty string. -/
def joinWith (sep : String) : List JsVal → String
  | [] => ""
  | [x] => elemStr x
  | x :: y :: rest => elemStr x ++ sep ++ joinWith sep (y :: rest)
/-- The text of one array element inside `join`. -/
def elemStr : JsVal → String
  | .undefined => ""
  | .null => ""
  | .bool true => "true"
  | .bool false => "false"
  | .num n => toString n
  | .numOther x => x.text
  | .str s => s
  | .arr xs => joinWith "," xs
  | .obj _ => "[object Object]"
end

/-! ## String primitives -/

/-- The method `String.prototype.indexOf(c)` for a one-character `c`; `none` stands for `-1`. -/
def indexOfChar (c : Char) : List Char → Option Nat
  | [] => none
  | x :: xs => if x = c then some 0 else (indexOfChar c xs).map (· + 1)

/-- The method `String.prototype.split(c)` for a one-character separator `c`. -/
def splitOnChar (c : Char) : List Char → List (List Char)
  | [] => [[]]
  | x :: xs =>
    if x = c then [] :: splitOnChar c xs
    else
      match splitOnChar c xs with
      | [] => [[x]]
      | seg :: rest => (x :: seg) :: rest

/-- The method `split('.')` on a string. -/
def splitDot (s : String) : List String :=
  (splitOnChar '.' s.data).map String.mk

/-! ## Field paths -/

/-- Source: `removeInstance(prop)`.
`fixedProp` is `''` unless `prop.indexOf('.') !== -1`, in which case it is
`prop.substring(prop.indexOf('.') + 1, prop.length)`. -/
def removeInstance (prop : String) : String :=
  match indexOfChar '.' prop.data with
  | none => ""
  | some i => String.mk (prop.data.drop (i + 1))

/-- Source: `combinePropArgument(property, argument)`.
The template literal turns `argument` into text; the `else` branch returns it as it is. -/
def combinePropArgument (property : String) (argument : JsVal) : JsVal :=
  if property.data.length > 0 then .str (property ++ "." ++ argument.toStr)
  else argument

/-! ## Property reads -/

/-- The value stored under `k` in the key list of an object; `undefined` when `k` is not a key. -/
def lookupKey (k : String) : List (String × JsVal) → JsVal
  | [] => .undefined
  | (k', v) :: rest => if k' = k then v else lookupKey k rest

/-- The read `v.k` for a key `k` that is neither `length` nor an index (`anyOf`, `required`, ...).
Reading a property of `undefined` or `null` throws; arrays, strings, numbers and booleans have
no such own property. -/
def JsVal.getNamed (v : JsVal) (k : String) : Option JsVal :=
  match v with
  | .undefined => none
  | .null => none
  | .obj kvs => some (lookupKey k kvs)
  | _ => some .undefined

/-- The read `v[i]` for a number `i`. -/
def JsVal.getIndex (v : JsVal) (i : Nat) : Option JsVal :=
  match v with
  | .undefined => none
  | .null => none
  | .arr xs => some (xs.getD i .undefined)
  | .str s => some (match s.data.get? i with
      | some c => .str (String.mk [c])
      | none => .undefined)
  | .obj kvs => some (lookupKey (toString i) kvs)
  | _ => some .undefined

/-- The method `Array.prototype.concat(v)`: an array argument is spread, any other value is
appended as one element. -/
def arrayConcat (xs : List JsVal) (v : JsVal) : List JsVal :=
  match v with
  | .arr ys => xs ++ ys
  | _ => xs ++ [v]

/-! ## Required-field collection -/

mutual
/-- Source: `getAllRequired(schema)`, with the module variable `requiredFields` passed in and
returned.  `Object.keys` throws on `undefined` and `null`; on an array, a string, a number or a
boolean it yields no key named `allOf`, `properties` or `required`. -/
def getAllRequired : JsVal → List JsVal → Option (List JsVal)
  | .obj kvs, requiredFields => getAllRequiredKeys kvs requiredFields
  | .undefined, _ => none
  | .null, _ => none
  | .bool _, requiredFields => some requiredFields
  | .num _, requiredFields => some requiredFields
  | .numOther _, requiredFields => some requiredFields
  | .str _, requiredFields => some requiredFields
  | .arr _, requiredFields => some requiredFields
/-- The loop `keys.forEach((key) => switch (key) ...)` of `getAllRequired`; each entry is a key
of the schema with the value stored under it. -/
def getAllRequiredKeys : List (String × JsVal) → List JsVal → Option (List JsVal)
  | [], requiredFields => some requiredFields
  | (key, value) :: rest, requiredFields =>
    if key = "allOf" then
      match value with
      | .arr schs =>
        match getAllRequiredEach schs requiredFields with
        | some requiredFields' => getAllRequiredKeys rest requiredFields'
        | none => none
      | _ => none
    else if key = "properties" then
      match getAllRequired value requiredFields with
      | some requiredFields' => getAllRequiredKeys rest requiredFields'
      | none => none
    else if key = "required" then
      getAllRequiredKeys rest (arrayConcat requiredFields value)
    else getAllRequiredKeys rest requiredFields
/-- The loop `schema.allOf.forEach((sch) => getAllRequired(sch))`. -/
def getAllRequiredEach : List JsVal → List JsVal → Option (List JsVal)
  | [], requiredFields => some requiredFields
  | sch :: rest, requiredFields =>
    match getAllRequired sch requiredFields with
    | some requiredFields' => getAllRequiredEach rest requiredFields'
    | none => none
end

/-! ## Error records -/

/-- The error object built by `makeErrorObj` and later given a `message`.
A key that is absent reads as `undefined`, so each key holds the value it reads as.
`anyOfFields` is either absent (`none`) or an array. -/
structure ErrorObj where
  field : JsVal
  errorType : JsVal
  expectedFieldType : JsVal
  enumMessage : JsVal
  dependency : JsVal
  anyOfFields : Option (List JsVal)
  message : JsVal

/-- The loop of `makeErrorObj` on one key: `if (output[key] === null) delete output[key]`. -/
def deleteIfNull : JsVal → JsVal
  | .null => .undefined
  | v => v

/-- Source: `makeErrorObj(field, errorType, expectedFieldType, enumMessage, dependency, anyOfFields)`.
An argument that the caller leaves out is `undefined`. -/
def makeErrorObj (field errorType : JsVal) (expectedFieldType : JsVal := .undefined)
    (enumMessage : JsVal := .undefined) (dependency : JsVal := .undefined)
    (anyOfFields : Option (List JsVal) := none) : ErrorObj :=
  { field := deleteIfNull field
    errorType := deleteIfNull errorType
    expectedFieldType := deleteIfNull expectedFieldType
    enumMessage := deleteIfNull enumMessage
    dependency := deleteIfNull dependency
    anyOfFields := anyOfFields
    message := .undefined }

/-! ## Field locator -/

/-- The call `findField(c, field, func)` on a one-character string `c`: its only key is `'0'`
and the value under it is `c` again. -/
def findFieldChar {σ : Type} (func : JsVal → σ → Option σ) (c : Char) :
    List String → σ → Option σ
  | [], st => some st
  | [k], st => if k = "0" then func (.str (String.mk [c])) st else some st
  | k :: k2 :: rest, st => if k = "0" then findFieldChar func c (k2 :: rest) st else some st

/-- The loop of `findField` over the keys `'i'`, `'i+1'`, ... of a string schema, whose values
are its characters.  The state is `fieldCopy` and the state of `func`. -/
def findFieldChars {σ : Type} (func : JsVal → σ → Option σ) :
    Nat → List Char → List String → σ → Option (List String × σ)
  | _, [], fieldCopy, st => some (fieldCopy, st)
  | i, c :: rest, fieldCopy, st =>
    if fieldCopy.head? = some (toString i) then
      if fieldCopy.length = 1 then
        match func (.str (String.mk [c])) st with
        | some st' => findFieldChars func (i + 1) rest fieldCopy st'
        | none => none
      else
        match findFieldChar func c fieldCopy.tail st with
        | some st' => findFieldChars func (i + 1) rest fieldCopy.tail st'
        | none => none
    else findFieldChars func (i + 1) rest fieldCopy st

mutual
/-- Source: `findField(schema, field, func)`; `st` is the state that `func` works on.
`fieldCopy` starts as a copy of `field`; `Object.keys` throws on `undefined` and `null` and is
empty on numbers and booleans. -/
def findField {σ : Type} (func : JsVal → σ → Option σ) : JsVal → List String → σ → Option σ
  | .obj kvs, field, st =>
    match findFieldKeys func kvs field st with
    | some (_, st') => some st'
    | none => none
  | .arr xs, field, st =>
    match findFieldItems func 0 xs field st with
    | some (_, st') => some st'
    | none => none
  | .str s, field, st =>
    match findFieldChars func 0 s.data field st with
    | some (_, st') => some st'
    | none => none
  | .bool _, _, st => some st
  | .num _, _, st => some st
  | .numOther _, _, st => some st
  | .undefined, _, _ => none
  | .null, _, _ => none
/-- The loop `schemaKeys.forEach((key) => ...)` of `findField` on an object; `fieldCopy.shift()`
changes `fieldCopy` for the keys that follow. -/
def findFieldKeys {σ : Type} (func : JsVal → σ → Option σ) :
    List (String × JsVal) → List String → σ → Option (List String × σ)
  | [], fieldCopy, st => some (fieldCopy, st)
  | (key, value) :: rest, fieldCopy, st =>
    if fieldCopy.head? = some key then
      if fieldCopy.length = 1 then
        match func value st with
        | some st' => findFieldKeys func rest fieldCopy st'
        | none => none
      else
        match findField func value fieldCopy.tail st with
        | some st' => findFieldKeys func rest fieldCopy.tail st'
        | none => none
    else if key = "allOf" ∨ key = "oneOf" then
      match value with
      | .arr schs =>
        match findFieldEach func schs fieldCopy st with
        | some st' => findFieldKeys func rest fieldCopy st'
        | none => none
      | _ => none
    else if key = "properties" then
      match findField func value fieldCopy st with
      | some st' => findFieldKeys func rest fieldCopy st'
      | none => none
    else findFieldKeys func rest fieldCopy st
/-- The loop of `findField` over the keys `'i'`, `'i+1'`, ... of an array schema. -/
def findFieldItems {σ : Type} (func : JsVal → σ → Option σ) :
    Nat → List JsVal → List String → σ → Option (List String × σ)
  | _, [], fieldCopy, st => some (fieldCopy, st)
  | i, value :: rest, fieldCopy, st =>
    if fieldCopy.head? = some (toString i) then
      if fieldCopy.length = 1 then
        match func value st with
        | some st' => findFieldItems func (i + 1) rest fieldCopy st'
        | none => none
      else
        match findField func value fieldCopy.tail st with
        | some st' => findFieldItems func (i + 1) rest fieldCopy.tail st'
        | none => none
    else findFieldItems func (i + 1) rest fieldCopy st
/-- The loop `schema[key].forEach((sch) => findField(sch, fieldCopy, func))`. -/
def findFieldEach {σ : Type} (func : JsVal → σ → Option σ) :
    List JsVal → List String → σ → Option σ
  | [], _, st => some st
  | sch :: rest, fieldCopy, st =>
    match findField func sch fieldCopy st with
    | some st' => findFieldEach func rest fieldCopy st'
    | none => none
end

/-! ## Failure handlers -/

/-- A failure reported by the schema validator (`ValidationError` of `jsonschema`). -/
structure ValidationError where
  property : String
  name : String
  argument : JsVal
  message : JsVal
  schema : JsVal
  stack : String

/-- The loop `for (const i in requiredFields) requiredFields[i] = field.requiredFields[i]`. -/
def qualifyRequired (field : String) (requiredFields : List JsVal) : List JsVal :=
  requiredFields.map (fun r => .str (field ++ "." ++ r.toStr))

/-- Source: `handleMissingError(output, result, counter, schema)`.
The state is `output.errorArray` and the module variable `requiredFields`, whose value on
entry is overwritten by `requiredFields = []`.  `field.split` throws unless `field` is a
string. -/
def handleMissingError (errorArray : List ErrorObj) (_requiredFields : List JsVal)
    (result : List ValidationError) (counter : Nat) (schema : JsVal) :
    Option (List ErrorObj × List JsVal) :=
  let requiredFields0 : List JsVal := []
  match result.get? counter with
  | none => none
  | some error =>
    let property := removeInstance error.property
    let field := combinePropArgument property error.argument
    let errorArray1 := errorArray ++ [makeErrorObj field (.str "missing")]
    match field with
    | .str fieldText =>
      match findField getAllRequired schema (splitDot fieldText) requiredFields0 with
      | none => none
      | some requiredFields1 =>
        let requiredFields2 := qualifyRequired fieldText requiredFields1
        some (errorArray1 ++ requiredFields2.map (fun requiredField =>
          makeErrorObj requiredField (.str "missing")), requiredFields2)
    | _ => none

/-- The loop `error.schema.anyOf.forEach((fieldObj) => requiredOptions.push(...))`. -/
def anyOfOptions (property : String) : List JsVal → List JsVal → Option (List JsVal)
  | [], requiredOptions => some requiredOptions
  | fieldObj :: rest, requiredOptions =>
    match fieldObj.getNamed "required" with
    | none => none
    | some required =>
      match required.getIndex 0 with
      | none => none
      | some first => anyOfOptions property rest (requiredOptions ++ [combinePropArgument property first])

/-- Source: `handleAnyOfError(errorTracking, result, counter)`; the state is
`errorTracking.errorArray`.  `forEach` exists only on an array. -/
def handleAnyOfError (errorArray : List ErrorObj) (result : List ValidationError)
    (counter : Nat) : Option (List ErrorObj) :=
  match result.get? counter with
  | none => none
  | some error =>
    let property := removeInstance error.property
    match error.schema.getNamed "anyOf" with
    | some (.arr branches) =>
      match anyOfOptions property branches [] with
      | none => none
      | some requiredOptions =>
        some (errorArray ++ [makeErrorObj .null (.str "anyOf") .null .null .null (some requiredOptions)])
    | _ => none

/-! ## Readable field names -/

/-- The step `.replace(/([A-Z])/g, ' $1')`: a space before every ASCII capital. -/
def spaceBeforeCapitals : List Char → List Char
  | [] => []
  | c :: cs => if c.isUpper then ' ' :: c :: spaceBeforeCapitals cs else c :: spaceBeforeCapitals cs

/-- Line terminators, the characters that `.` of a regular expression does not match. -/
def isLineTerminator (c : Char) : Bool :=
  c = '\n' || c = '\r' || c = Char.ofNat 0x2028 || c = Char.ofNat 0x2029

/-- A run of letters whose uppercase form is one character: the letters `first`, `first + step`,
..., up to `last`, are mapped to `upper`, `upper + step`, ... (code points). -/
structure CaseRun where
  first : Nat
  last : Nat
  step : Nat
  upper : Nat

/-- Uppercase forms of one character: Latin-1 Supplement and Latin Extended-A. -/
def upperCaseRunsLatinA : List CaseRun :=
  [⟨181, 181, 1, 924⟩, ⟨224, 246, 1, 192⟩, ⟨248, 254, 1, 216⟩, ⟨255, 255, 1, 376⟩,
    ⟨257, 303, 2, 256⟩, ⟨305, 305, 1, 73⟩, ⟨307, 311, 2, 306⟩, ⟨314, 328, 2, 313⟩,
    ⟨331, 375, 2, 330⟩, ⟨378, 382, 2, 377⟩, ⟨383, 383, 1, 83⟩]

/-- Uppercase forms of one character: Latin Extended-B. -/
def upperCaseRunsLatinB : List CaseRun :=
  [⟨384, 384, 1, 579⟩, ⟨387, 389, 2, 386⟩, ⟨392, 392, 1, 391⟩, ⟨396, 396, 1, 395⟩,
    ⟨402, 402, 1, 401⟩, ⟨405, 405, 1, 502⟩, ⟨409, 409, 1, 408⟩, ⟨410, 410, 1, 573⟩,
    ⟨414, 414, 1, 544⟩, ⟨417, 421, 2, 416⟩, ⟨424, 424, 1, 423⟩, ⟨429, 429, 1, 428⟩,
    ⟨432, 432, 1, 431⟩, ⟨436, 438, 2, 435⟩, ⟨441, 441, 1, 440⟩, ⟨445, 445, 1, 444⟩,
    ⟨447, 447, 1, 503⟩, ⟨453, 453, 1, 452⟩, ⟨454, 454, 1, 452⟩, ⟨456, 456, 1, 455⟩,
    ⟨457, 457, 1, 455⟩, ⟨459, 459, 1, 458⟩, ⟨460, 460, 1, 458⟩, ⟨462, 476, 2, 461⟩,
    ⟨477, 477, 1, 398⟩, ⟨479, 495, 2, 478⟩, ⟨498, 498, 1, 497⟩, ⟨499, 499, 1, 497⟩,
    ⟨501, 501, 1, 500⟩, ⟨505, 543, 2, 504⟩, ⟨547, 563, 2, 546⟩, ⟨572, 572, 1, 571⟩,
    ⟨575, 576, 1, 11390⟩, ⟨578, 578, 1, 577⟩, ⟨583, 591, 2, 582⟩]

/-- Uppercase forms of one character: IPA Extensions and combining marks. -/
def upperCaseRunsPhonetic : List CaseRun :=
  [⟨592, 592, 1, 11375⟩, ⟨593, 593, 1, 11373⟩, ⟨594, 594, 1, 11376⟩, ⟨595, 595, 1, 385⟩,
    ⟨596, 596, 1, 390⟩, ⟨598, 599, 1, 393⟩, ⟨601, 601, 1, 399⟩, ⟨603, 603, 1, 400⟩,
    ⟨604, 604, 1, 42923⟩, ⟨608, 608, 1, 403⟩, ⟨609, 609, 1, 42924⟩, ⟨611, 611, 1, 404⟩,
    ⟨613, 613, 1, 42893⟩, ⟨614, 614, 1, 42922⟩, ⟨616, 616, 1, 407⟩, ⟨617, 617, 1, 406⟩,
    ⟨618, 618, 1, 42926⟩, ⟨619, 619, 1, 11362⟩, ⟨620, 620, 1, 42925⟩, ⟨623, 623, 1, 412⟩,
    ⟨625, 625, 1, 11374⟩, ⟨626, 626, 1, 413⟩, ⟨629, 629, 1, 415⟩, ⟨637, 637, 1, 11364⟩,
    ⟨640, 640, 1, 422⟩, ⟨642, 642, 1, 42949⟩, ⟨643, 643, 1, 425⟩, ⟨647, 647, 1, 42929⟩,
    ⟨648, 648, 1, 430⟩, ⟨649, 649, 1, 580⟩, ⟨650, 651, 1, 433⟩, ⟨652, 652, 1, 581⟩,
    ⟨658, 658, 1, 439⟩, ⟨669, 669, 1, 42930⟩, ⟨670, 670, 1, 42928⟩, ⟨837, 837, 1, 921⟩]

/-- Uppercase forms of one character: Greek, Coptic and Cyrillic. -/
def upperCaseRunsGreek : List CaseRun :=
  [⟨881, 883, 2, 880⟩, ⟨887, 887, 1, 886⟩, ⟨891, 893, 1, 1021⟩, ⟨940, 940, 1, 902⟩,
    ⟨941, 943, 1, 904⟩, ⟨945, 961, 1, 913⟩, ⟨962, 962, 1, 931⟩, ⟨963, 971, 1, 931⟩,
    ⟨972, 972, 1, 908⟩, ⟨973, 974, 1, 910⟩, ⟨976, 976, 1, 914⟩, ⟨977, 977, 1, 920⟩,
    ⟨981, 981, 1, 934⟩, ⟨982, 982, 1, 928⟩, ⟨983, 983, 1, 975⟩, ⟨985, 1007, 2, 984⟩,
    ⟨1008, 1008, 1, 922⟩, ⟨1009, 1009, 1, 929⟩, ⟨1010, 1010, 1, 1017⟩, ⟨1011, 1011, 1, 895⟩,
    ⟨1013, 1013, 1, 917⟩, ⟨1016, 1016, 1, 1015⟩, ⟨1019, 1019, 1, 1018⟩, ⟨1072, 1103, 1, 1040⟩,
    ⟨1104, 1119, 1, 1024⟩, ⟨1121, 1153, 2, 1120⟩, ⟨1163, 1215, 2, 1162⟩, ⟨1218, 1230, 2, 1217⟩,
    ⟨1231, 1231, 1, 1216⟩, ⟨1233, 1327, 2, 1232⟩]

/-- Uppercase forms of one character: Armenian, Georgian, Cherokee, the phonetic extensions, Latin Extended Additional and Greek Extended. -/
def upperCaseRunsArmenian : List CaseRun :=
  [⟨1377, 1414, 1, 1329⟩, ⟨4304, 4346, 1, 7312⟩, ⟨4349, 4351, 1, 7357⟩, ⟨5112, 5117, 1, 5104⟩,
    ⟨7296, 7296, 1, 1042⟩, ⟨7297, 7297, 1, 1044⟩, ⟨7298, 7298, 1, 1054⟩, ⟨7299, 7300, 1, 1057⟩,
    ⟨7301, 7301, 1, 1058⟩, ⟨7302, 7302, 1, 1066⟩, ⟨7303, 7303, 1, 1122⟩, ⟨7304, 7304, 1, 42570⟩,
    ⟨7545, 7545, 1, 42877⟩, ⟨7549, 7549, 1, 11363⟩, ⟨7566, 7566, 1, 42950⟩, ⟨7681, 7829, 2, 7680⟩,
    ⟨7835, 7835, 1, 7776⟩, ⟨7841, 7935, 2, 7840⟩, ⟨7936, 7943, 1, 7944⟩, ⟨7952, 7957, 1, 7960⟩,
    ⟨7968, 7975, 1, 7976⟩, ⟨7984, 7991, 1, 7992⟩, ⟨8000, 8005, 1, 8008⟩, ⟨8017, 8023, 2, 8025⟩,
    ⟨8032, 8039, 1, 8040⟩, ⟨8048, 8049, 1, 8122⟩, ⟨8050, 8053, 1, 8136⟩, ⟨8054, 8055, 1, 8154⟩,
    ⟨8056, 8057, 1, 8184⟩, ⟨8058, 8059, 1, 8170⟩, ⟨8060, 8061, 1, 8186⟩, ⟨8112, 8113, 1, 8120⟩,
    ⟨8126, 8126, 1, 921⟩, ⟨8144, 8145, 1, 8152⟩, ⟨8160, 8161, 1, 8168⟩, ⟨8165, 8165, 1, 8172⟩]

/-- Uppercase forms of one character: the letterlike symbols, number forms, enclosed letters, Glagolitic, Latin Extended-C and -D, Coptic, Cyrillic Extended-B and the fullwidth forms. -/
def upperCaseRunsSymbols : List CaseRun :=
  [⟨8526, 8526, 1, 8498⟩, ⟨8560, 8575, 1, 8544⟩, ⟨8580, 8580, 1, 8579⟩, ⟨9424, 9449, 1, 9398⟩,
    ⟨11312, 11359, 1, 11264⟩, ⟨11361, 11361, 1, 11360⟩, ⟨11365, 11365, 1, 570⟩,
    ⟨11366, 11366, 1, 574⟩, ⟨11368, 11372, 2, 11367⟩, ⟨11379, 11379, 1, 11378⟩,
    ⟨11382, 11382, 1, 11381⟩, ⟨11393, 11491, 2, 11392⟩, ⟨11500, 11502, 2, 11499⟩,
    ⟨11507, 11507, 1, 11506⟩, ⟨11520, 11557, 1, 4256⟩, ⟨11559, 11559, 1, 4295⟩,
    ⟨11565, 11565, 1, 4301⟩, ⟨42561, 42605, 2, 42560⟩, ⟨42625, 42651, 2, 42624⟩,
    ⟨42787, 42799, 2, 42786⟩, ⟨42803, 42863, 2, 42802⟩, ⟨42874, 42876, 2, 42873⟩,
    ⟨42879, 42887, 2, 42878⟩, ⟨42892, 42892, 1, 42891⟩, ⟨42897, 42899, 2, 42896⟩,
    ⟨42900, 42900, 1, 42948⟩, ⟨42903, 42921, 2, 42902⟩, ⟨42933, 42947, 2, 42932⟩,
    ⟨42952, 42954, 2, 42951⟩, ⟨42961, 42961, 1, 42960⟩, ⟨42967, 42969, 2, 42966⟩,
    ⟨42998, 42998, 1, 42997⟩, ⟨43859, 43859, 1, 42931⟩, ⟨43888, 43967, 1, 5024⟩,
    ⟨65345, 65370, 1, 65313⟩]

/-- The letters beyond ASCII, in the Basic Multilingual Plane, whose uppercase form is one
character (Unicode Character Database 14.0, `UnicodeData.txt`). -/
def upperCaseRuns : List CaseRun :=
  upperCaseRunsLatinA ++ upperCaseRunsLatinB ++ upperCaseRunsPhonetic ++
    upperCaseRunsGreek ++ upperCaseRunsArmenian ++ upperCaseRunsSymbols

/-- Uppercase forms of several characters: the sharp s, the ligatures and the letters with a combining mark. -/
def upperCaseSpecialLigatures : List (Nat × List Nat) :=
  [(223, [83, 83]), (329, [700, 78]), (496, [74, 780]), (912, [921, 776, 769]),
    (944, [933, 776, 769]), (1415, [1333, 1362]), (7830, [72, 817]), (7831, [84, 776]),
    (7832, [87, 778]), (7833, [89, 778]), (7834, [65, 702]), (64256, [70, 70]), (64257, [70, 73]),
    (64258, [70, 76]), (64259, [70, 70, 73]), (64260, [70, 70, 76]), (64261, [83, 84]),
    (64262, [83, 84]), (64275, [1348, 1350]), (64276, [1348, 1333]), (64277, [1348, 1339]),
    (64278, [1358, 1350]), (64279, [1348, 1341])]

/-- Uppercase forms of several characters: Greek Extended up to U+1F8F. -/
def upperCaseSpecialGreekA : List (Nat × List Nat) :=
  [(8016, [933, 787]), (8018, [933, 787, 768]), (8020, [933, 787, 769]), (8022, [933, 787, 834]),
    (8064, [7944, 921]), (8065, [7945, 921]), (8066, [7946, 921]), (8067, [7947, 921]),
    (8068, [7948, 921]), (8069, [7949, 921]), (8070, [7950, 921]), (8071, [7951, 921]),
    (8072, [7944, 921]), (8073, [7945, 921]), (8074, [7946, 921]), (8075, [7947, 921]),
    (8076, [7948, 921]), (8077, [7949, 921]), (8078, [7950, 921]), (8079, [7951, 921])]

/-- Uppercase forms of several characters: Greek Extended from U+1F90 to U+1FAF. -/
def upperCaseSpecialGreekB : List (Nat × List Nat) :=
  [(8080, [7976, 921]), (8081, [7977, 921]), (8082, [7978, 921]), (8083, [7979, 921]),
    (8084, [7980, 921]), (8085, [7981, 921]), (8086, [7982, 921]), (8087, [7983, 921]),
    (8088, [7976, 921]), (8089, [7977, 921]), (8090, [7978, 921]), (8091, [7979, 921]),
    (8092, [7980, 921]), (8093, [7981, 921]), (8094, [7982, 921]), (8095, [7983, 921]),
    (8096, [8040, 921]), (8097, [8041, 921]), (8098, [8042, 921]), (8099, [8043, 921]),
    (8100, [8044, 921]), (8101, [8045, 921]), (8102, [8046, 921]), (8103, [8047, 921]),
    (8104, [8040, 921]), (8105, [8041, 921]), (8106, [8042, 921]), (8107, [8043, 921]),
    (8108, [8044, 921]), (8109, [8045, 921]), (8110, [8046, 921]), (8111, [8047, 921])]

/-- Uppercase forms of several characters: Greek Extended from U+1FB0. -/
def upperCaseSpecialGreekC : List (Nat × List Nat) :=
  [(8114, [8122, 921]), (8115, [913, 921]), (8116, [902, 921]), (8118, [913, 834]),
    (8119, [913, 834, 921]), (8124, [913, 921]), (8130, [8138, 921]), (8131, [919, 921]),
    (8132, [905, 921]), (8134, [919, 834]), (8135, [919, 834, 921]), (8140, [919, 921]),
    (8146, [921, 776, 768]), (8147, [921, 776, 769]), (8150, [921, 834]), (8151, [921, 776, 834]),
    (8162, [933, 776, 768]), (8163, [933, 776, 769]), (8164, [929, 787]), (8166, [933, 834]),
    (8167, [933, 776, 834]), (8178, [8186, 921]), (8179, [937, 921]), (8180, [911, 921]),
    (8182, [937, 834]), (8183, [937, 834, 921]), (8188, [937, 921])]

/-- The letters whose uppercase form has several characters (`SpecialCasing.txt`, the
unconditional mappings), such as `ß`, uppercased to `SS`. -/
def upperCaseSpecial : List (Nat × List Nat) :=
  upperCaseSpecialLigatures ++ upperCaseSpecialGreekA ++ upperCaseSpecialGreekB ++ upperCaseSpecialGreekC

/-- The method `toUpperCase` on a string of one UTF-16 code unit.  A character outside the
Basic Multilingual Plane is two code units, of which `/^./` matches the first alone, a
surrogate, which has no uppercase form: such a character stays as it is. -/
def toUpperCaseChar (c : Char) : List Char :=
  let n := c.toNat
  if n < 128 then [c.toUpper]
  else
    match upperCaseSpecial.lookup n with
    | some upper => upper.map Char.ofNat
    | none =>
      match upperCaseRuns.find?
        (fun r => decide (r.first ≤ n) && decide (n ≤ r.last) && (n - r.first) % r.step == 0) with
      | some r => [Char.ofNat (r.upper + (n - r.first))]
      | none => [c]

/-- The step `.replace(/^./, str => str.toUpperCase())`. -/
def upperFirst : List Char → List Char
  | [] => []
  | c :: cs => if isLineTerminator c then c :: cs else toUpperCaseChar c ++ cs

/-- The method `String.prototype.replace(pat, rep)` for a string `pat` and a replacement free of `$`:
only the first occurrence is replaced. -/
def replaceFirst (pat rep : List Char) : List Char → List Char
  | [] => if pat = [] then rep else []
  | c :: cs =>
    if pat.isPrefixOf (c :: cs) then rep ++ (c :: cs).drop pat.length
    else c :: replaceFirst pat rep cs

/-- Source: `makeFieldReadable(input)`. -/
def makeFieldReadable (input : String) : String :=
  String.mk
    (replaceFirst "U R L".data "URL".data
      (replaceFirst "Z I P".data "Zip".data
        (upperFirst (spaceBeforeCapitals input.data))))

/-- The loop `readableParts.forEach((part) => readablePath = readablePath/part)`. -/
def joinSlash (readablePath : String) : List String → String
  | [] => readablePath
  | part :: rest => joinSlash (readablePath ++ "/" ++ part) rest

/-- Source: `makePathReadable(input)`.
`split` never returns an empty array, so `shift()` always yields the first part. -/
def makePathReadable (input : JsVal) : JsVal :=
  match input with
  | .str s =>
    match (splitDot s).map makeFieldReadable with
    | [] => .undefined
    | first :: readableParts => .str (joinSlash first readableParts)
  | _ => .bool false

/-! ## Messages -/

/-- The loop `while (count < length) output = output or makePathReadable(anyOfFields[count])`. -/
def anyOfLoop (output : String) : List JsVal → String
  | [] => output
  | field :: rest => anyOfLoop (output ++ " or " ++ (makePathReadable field).toStr) rest

/-- Source: `makeAnyOfMessage(anyOfFields)`.  An array is truthy even when empty, and
`anyOfFields[0]` of an empty array is `undefined`. -/
def makeAnyOfMessage : Option (List JsVal) → JsVal
  | none => .bool false
  | some anyOfFields =>
    .str (anyOfLoop (makePathReadable (anyOfFields.headD .undefined)).toStr anyOfFields.tail)

/-- White space and line terminators, the characters removed by `String.prototype.trim`. -/
def isTrimmed (c : Char) : Bool :=
  let n := c.toNat
  (9 ≤ n && n ≤ 13) || n = 0x20 || n = 0xA0 || n = 0x1680 || (0x2000 ≤ n && n ≤ 0x200A) ||
    n = 0x2028 || n = 0x2029 || n = 0x202F || n = 0x205F || n = 0x3000 || n = 0xFEFF

/-- The method `String.prototype.trim`. -/
def jsTrim (s : String) : String :=
  String.mk ((s.data.rdropWhile isTrimmed).dropWhile isTrimmed)

/-- The loop `errorMessages.forEach((message) => output = output message ' ')`. -/
def concatLoop (output : String) : List JsVal → String
  | [] => output
  | message :: rest => concatLoop (output ++ message.toStr ++ " ") rest

/-- Source: `concatErrors(errorMessages)`. -/
def concatErrors (errorMessages : List JsVal) : String :=
  jsTrim (concatLoop "" errorMessages)

/-- The method `String.prototype.lastIndexOf(c)` for a one-character `c`; `none` stands for `-1`. -/
def lastIndexOfChar (c : Char) : List Char → Option Nat
  | [] => none
  | x :: xs =>
    match lastIndexOfChar c xs with
    | some i => some (i + 1)
    | none => if x = c then some 0 else none

/-- Source: `buildFormatErrorMessage(fullPath)`; `errors` is the table
`patternErrorMessages.json`, read as `errors[field]`.  `substring` throws unless `fullPath` is a
string. -/
def buildFormatErrorMessage (errors : String → JsVal) (fullPath : JsVal) : Option String :=
  match fullPath with
  | .str path =>
    let start := match lastIndexOfChar '.' path.data with
      | some i => i + 1
      | none => 0
    let field := String.mk (path.data.drop start)
    let readablePath := makePathReadable fullPath
    some (readablePath.toStr ++ (errors field).toStr)
  | _ => none

/-- The test `typeof(v) !== 'undefined' && v.constructor === Array` of `generateFileErrors`;
reading `constructor` of `null` throws. -/
def isArrayValue : JsVal → Option Bool
  | .undefined => some false
  | .null => none
  | .arr _ => some true
  | _ => some false

/-- The method `join(', ')` of `generateFileErrors`, called on a value known to be an array. -/
def joinCommaSpace : JsVal → String
  | .arr xs => joinWith ", " xs
  | _ => ""

/-- Source: `generateFileErrors(output, error, messages)`: the updated record and `messages`. -/
def generateFileErrors (error : ErrorObj) (messages : List JsVal) :
    Option (ErrorObj × List JsVal) :=
  let readable := (makePathReadable error.field).toStr
  let reqFile := readable ++ " is a required file."
  let small := readable ++ " cannot be an empty file."
  let large := readable ++ " cannot be larger than " ++ error.expectedFieldType.toStr ++ " MB."
  match isArrayValue error.expectedFieldType with
  | none => none
  | some isArr =>
    let invExt : JsVal := if isArr then
        .str (readable ++ " must be one of the following extensions: " ++
          joinCommaSpace error.expectedFieldType ++ ".")
      else .undefined
    let invMime : JsVal := if isArr then
        .str (readable ++ " must be one of the following mime types: " ++
          joinCommaSpace error.expectedFieldType ++ ".")
      else .undefined
    if error.errorType.is "requiredFileMissing" then
      some ({ error with message := .str reqFile }, messages ++ [.str reqFile])
    else if error.errorType.is "invalidExtension" then
      some ({ error with message := invExt }, messages ++ [invExt])
    else if error.errorType.is "invalidMime" then
      some ({ error with message := invMime }, messages ++ [invMime])
    else if error.errorType.is "invalidSizeSmall" then
      some ({ error with message := .str small }, messages ++ [.str small])
    else if error.errorType.is "invalidSizeLarge" then
      some ({ error with message := .str large }, messages ++ [.str large])
    else some (error, messages)

/-- The body of the loop of `generateErrorMesage` for one record: the updated record and
`messages`. -/
def generateOne (errors : String → JsVal) (error : ErrorObj) (messages : List JsVal) :
    Option (ErrorObj × List JsVal) :=
  let readable := (makePathReadable error.field).toStr
  let missing := readable ++ " is a required field."
  let type := readable ++ " is expected to be type '" ++ error.expectedFieldType.toStr ++ "'."
  let enumMessage := readable ++ " " ++ error.enumMessage.toStr ++ "."
  let dependencies := "Having " ++ readable ++ " requires that " ++
    (makePathReadable error.dependency).toStr ++ " be provided."
  let anyOf := "Either " ++ (makeAnyOfMessage error.anyOfFields).toStr ++ " is a required field."
  if error.errorType.is "missing" then
    some ({ error with message := .str missing }, messages ++ [.str missing])
  else if error.errorType.is "type" then
    some ({ error with message := .str type }, messages ++ [.str type])
  else if error.errorType.is "format" ∨ error.errorType.is "pattern" then
    match buildFormatErrorMessage errors error.field with
    | none => none
    | some text => some ({ error with message := .str text }, messages ++ [.str text])
  else if error.errorType.is "enum" then
    some ({ error with message := .str enumMessage }, messages ++ [.str enumMessage])
  else if error.errorType.is "dependencies" then
    some ({ error with message := .str dependencies }, messages ++ [.str dependencies])
  else if error.errorType.is "anyOf" then
    some ({ error with message := .str anyOf }, messages ++ [.str anyOf])
  else generateFileErrors error messages

/-- The loop `output.errorArray.forEach((error) => ...)` of `generateErrorMesage`: the records
already updated (in order) and `messages`. -/
def generateLoop (errors : String → JsVal) :
    List ErrorObj → List ErrorObj → List JsVal → Option (List ErrorObj × List JsVal)
  | [], done, messages => some (done, messages)
  | error :: rest, done, messages =>
    match generateOne errors error messages with
    | none => none
    | some (error', messages') => generateLoop errors rest (done ++ [error']) messages'

/-- Source: `generateErrorMesage(output)`: the error array with the messages assigned, and the
returned summary. -/
def generateErrorMesage (errors : String → JsVal) (errorArray : List ErrorObj) :
    Option (List ErrorObj × String) :=
  match generateLoop errors errorArray [] [] with
  | none => none
  | some (errorArray', messages) => some (errorArray', concatErrors messages)

/-! ## Uploaded files -/

/-- Source: the constant `fileMimes`. -/
def fileMimes : List String :=
  ["application/vnd.openxmlformats-officedocument.wordprocessingml.document",
    "application/msword",
    "text/rtf",
    "application/pdf"]

/-- One file as the upload carrier supplies it. -/
structure MulterFile where
  originalname : String
  size : Nat
  mimetype : String
  encoding : String
  buffer : List Nat

/-- The value passed as `uploadFile`: the array of the files of one field (`file[0]` is read
from it), together with what its property `ext` reads as.  The array that the upload carrier
supplies has no such property, so there `ext` is `undefined`. -/
structure Upload where
  ext : JsVal
  files : List MulterFile

/-- The constraint schema of one file field. -/
structure FieldConstraints where
  filetypecode : JsVal
  validExtensions : List String
  maxSize : JsNumber
  requiredFile : JsVal

/-- The object built by `getFileInfo` when a file is present. -/
structure FileInfo where
  file : MulterFile
  originalname : String
  filetype : String
  filetypecode : JsVal
  ext : JsVal
  size : Nat
  mimetype : String
  encoding : String
  buffer : List Nat
  filename : String

/-- The `base` of `path.parse` (POSIX): the text after the last `'/'`, trailing `'/'` ignored. -/
def pathBase (p : List Char) : List Char :=
  (splitOnChar '/' (p.rdropWhile (fun c => c = '/'))).getLastD []

/-- The index in `base` at which the `ext` of `path.parse` starts: the last `'.'`, unless there
is none, it is the first character, or `base` is `..`. -/
def pathExtStart (base : List Char) : Option Nat :=
  match lastIndexOfChar '.' base with
  | none => none
  | some 0 => none
  | some (d + 1) => if base = ['.', '.'] then none else some (d + 1)

/-- The `ext` of `path.parse(p)`. -/
def pathExt (p : String) : String :=
  match pathExtStart (pathBase p.data) with
  | none => ""
  | some d => String.mk ((pathBase p.data).drop d)

/-- The `name` of `path.parse(p)`. -/
def pathName (p : String) : String :=
  match pathExtStart (pathBase p.data) with
  | none => String.mk (pathBase p.data)
  | some d => String.mk ((pathBase p.data).take d)

/-- The read `parts[i]` on the result of a `split`. -/
def partAt (parts : List String) (i : Nat) : JsVal :=
  match parts.get? i with
  | some part => .str part
  | none => .undefined

/-- Source: `getFileInfo(file, constraints)`, with `Date.now()` passed as `now`.
`uploadField` is `Object.keys(constraints)[0]` and `constraints[uploadField]` its entry.
The outer `none` is a thrown `TypeError` (`file[0]` of an empty array, or no key in
`constraints`); the inner `none` is the empty object returned when no file is given. -/
def getFileInfo (now : Nat) (file : Option Upload)
    (constraints : List (String × FieldConstraints)) : Option (Option FileInfo) :=
  match file with
  | none => some none
  | some upload =>
    match upload.files.head?, constraints.head? with
    | some first, some (uploadField, fieldConstraints) =>
      let filename := pathName first.originalname
      let ext := partAt (splitDot (pathExt first.originalname)) 1
      some (some
        { file := first
          originalname := first.originalname
          filetype := uploadField
          filetypecode := fieldConstraints.filetypecode
          ext := ext
          size := first.size
          mimetype := first.mimetype
          encoding := first.encoding
          buffer := first.buffer
          filename := uploadField ++ "-" ++ filename ++ "-" ++ toString now ++ ext.toStr })
    | _, _ => none

/-- The records pushed by the `if / else if` on the extension and the MIME type in
`validateFile`.  `regexMatch regex ext` is whether `ext.toLowerCase().match(regex)` finds a
match (`none` when `regex` is not a valid regular expression): the lower-casing and the
regular-expression engine of the runtime are taken together as one parameter.  `toLowerCase` of
a value that is not a string throws. -/
def checkExtensionAndMime (regexMatch : String → String → Option Bool) (upload : Upload)
    (fileInfo : FileInfo) (constraints : FieldConstraints) (regex : String) :
    Option (List ErrorObj) :=
  let mimeCheck : List ErrorObj :=
    if fileInfo.mimetype ∉ fileMimes then
      [makeErrorObj (.str fileInfo.filetype) (.str "invalidMime")
        (.arr (fileMimes.map JsVal.str))]
    else []
  if upload.ext.truthy then
    match fileInfo.ext with
    | .str ext =>
      match regexMatch regex ext with
      | none => none
      | some matched =>
        if !matched then
          some [makeErrorObj (.str fileInfo.filetype) (.str "invalidExtension")
            (.arr (constraints.validExtensions.map JsVal.str))]
        else some mimeCheck
    | _ => none
  else some mimeCheck

/-- A double, written as the fraction `mantissa * 2 ^ shiftUp / 2 ^ shiftDown`. -/
structure DoubleValue where
  mantissa : Nat
  shiftUp : Nat
  shiftDown : Nat
  deriving DecidableEq

/-- The integer nearest to `num / den`, and the even one of the two nearest when `num / den` lies
half way between them (round to nearest, ties to even). -/
def roundHalfEven (num den : Nat) : Nat :=
  let q := num / den
  let r := num % den
  if 2 * r > den ∨ (2 * r = den ∧ q % 2 = 1) then q + 1 else q

/-- The number of times `n` can be halved before it drops below 2, in at most `fuel` rounds. -/
def halvings : Nat → Nat → Nat
  | 0, _ => 0
  | fuel + 1, n => if n < 2 then 0 else halvings fuel (n / 2) + 1

/-- The exponent `e` of a positive integer `n`: `2 ^ e ≤ n < 2 ^ (e + 1)`. -/
def binaryExponent (n : Nat) : Nat :=
  halvings n n

/-- The division `a / b` of two doubles with positive integer values, as IEEE 754 rounds it
(the quotient lies in the range of the normal doubles).  The dividend or the divisor is scaled
by a power of two so that the quotient lies between `2 ^ 52` and `2 ^ 53`; the scaled quotient is
rounded to an integer, the 53-bit significand, to nearest and ties to even; the result is the
significand scaled back. -/
def divideDoubles (a b : Nat) : DoubleValue :=
  if a = 0 then ⟨0, 0, 0⟩
  else
    let up := (52 + binaryExponent b) - binaryExponent a
    let down := binaryExponent a - (52 + binaryExponent b)
    let num := a * 2 ^ up
    let den := b * 2 ^ down
    if 2 ^ 52 * den ≤ num then ⟨roundHalfEven num den, down, up⟩
    else ⟨roundHalfEven (2 * num) den, down, up + 1⟩

/-- The comparison `x > y` of a double with a number; it is false when `y` is `NaN`. -/
def DoubleValue.greaterThan (x : DoubleValue) : NumberValue → Bool
  | .nan => false
  | .posInfinity => false
  | .negInfinity => true
  | .finite numerator denominator =>
    decide ((x.mantissa : Int) * 2 ^ x.shiftUp * denominator > numerator * 2 ^ x.shiftDown)

/-- The records pushed by the size check of `validateFile`.  The size of a file is a whole
number of bytes; `fileSizeInMegabytes` is the double `fileInfo.size / 1000000.0`. -/
def checkSize (fileInfo : FileInfo) (constraints : FieldConstraints) : List ErrorObj :=
  if fileInfo.size = 0 then
    [makeErrorObj (.str fileInfo.filetype) (.str "invalidSizeSmall") (.num 0)]
  else
    let fileSizeInMegabytes := divideDoubles fileInfo.size 1000000
    if fileSizeInMegabytes.greaterThan constraints.maxSize.value then
      [makeErrorObj (.str fileInfo.filetype) (.str "invalidSizeLarge") constraints.maxSize.toVal]
    else []

/-- Source: `validateFile(uploadFile, validationConstraints, fileName)`; the result is
`errObjs`.  Reading `validExtensions` of an absent `validationConstraints[fileName]` throws. -/
def validateFile (regexMatch : String → String → Option Bool) (now : Nat)
    (uploadFile : Option Upload) (validationConstraints : List (String × FieldConstraints))
    (fileName : String) : Option (List ErrorObj) :=
  match getFileInfo now uploadFile validationConstraints with
  | none => none
  | some fileInfo? =>
    match validationConstraints.lookup fileName with
    | none => none
    | some constraints =>
      let regex := "(^" ++ String.intercalate "$|^" constraints.validExtensions ++ "$)"
      match uploadFile, fileInfo? with
      | some upload, some fileInfo =>
        match checkExtensionAndMime regexMatch upload fileInfo constraints regex with
        | none => none
        | some errObjs => some (errObjs ++ checkSize fileInfo constraints)
      | some _, none => none
      | none, _ =>
        if constraints.requiredFile.truthy then
          some [makeErrorObj (.str fileName) (.str "requiredFileMissing")]
        else some []

/-! ## Custom formats -/

/-- The test `inputStr.match(new RegExp('^[0-9]{num}$'))`: exactly `num` characters, each a
decimal digit. -/
def matchesDigits (num : Nat) (inputStr : String) : Bool :=
  decide (inputStr.data.length = num) && inputStr.data.all Char.isDigit

/-- The test `typeof v === 'number'`. -/
def JsVal.isNumber : JsVal → Bool
  | .num _ => true
  | .numOther _ => true
  | _ => false

/-- Source: `digitCheck(input, num)`.  Only an input with `typeof input === 'number'` is
tested; `input + ''` is the text of the number. -/
def digitCheck (input : JsVal) (num : Nat) : Bool :=
  if input.isNumber then matchesDigits num input.toStr else true

/-- Source: `areaCodeFormat(input)`. -/
def areaCodeFormat (input : JsVal) : Bool :=
  digitCheck input 3

/-- Source: `phoneNumberFormat(input)`. -/
def phoneNumberFormat (input : JsVal) : Bool :=
  digitCheck input 7

/-! ## The remaining failure handlers -/

/-- The method `String.prototype.split(sep)` for a non-empty string `sep`, scanning from the
left; `skip` counts the characters of a separator just matched that are still to be passed. -/
def splitOnStr (sep : List Char) : Nat → List Char → List (List Char)
  | _, [] => [[]]
  | skip + 1, _ :: cs => splitOnStr sep skip cs
  | 0, c :: cs =>
    if sep.isPrefixOf (c :: cs) then [] :: splitOnStr sep (sep.length - 1) cs
    else
      match splitOnStr sep 0 cs with
      | [] => [[c]]
      | seg :: rest => (c :: seg) :: rest

/-- The call `text.split(sep)` on strings. -/
def jsSplit (text sep : String) : List String :=
  (splitOnStr sep.data 0 text.data).map String.mk

/-- The call `removeInstance(v)` on a value that need not be a string: an array has an
`indexOf` but no `substring`; other values have no `indexOf`. -/
def removeInstanceOf (v : JsVal) : Option String :=
  match v with
  | .str s => some (removeInstance s)
  | .arr xs => if xs.any (fun x => x.is ".") then none else some ""
  | _ => none

/-- Source: `handleTypeError(output, result, counter)`; the state is `output.errorArray`. -/
def handleTypeError (errorArray : List ErrorObj) (result : List ValidationError)
    (counter : Nat) : Option (List ErrorObj) :=
  match result.get? counter with
  | none => none
  | some error =>
    match error.argument.getIndex 0 with
    | none => none
    | some expectedType =>
      let property := removeInstance error.property
      some (errorArray ++ [makeErrorObj (.str property) (.str "type") expectedType])

/-- Source: `handleFormatError(output, result, counter)`. -/
def handleFormatError (errorArray : List ErrorObj) (result : List ValidationError)
    (counter : Nat) : Option (List ErrorObj) :=
  match result.get? counter with
  | none => none
  | some error =>
    let field := removeInstance error.property
    some (errorArray ++ [makeErrorObj (.str field) (.str "format")])

/-- Source: `handleEnumError(output, result, counter)`. -/
def handleEnumError (errorArray : List ErrorObj) (result : List ValidationError)
    (counter : Nat) : Option (List ErrorObj) :=
  match result.get? counter with
  | none => none
  | some error =>
    let property := removeInstance error.property
    some (errorArray ++ [makeErrorObj (.str property) (.str "enum") .null error.message])

/-- Source: `getDependency(result, counter)`:
`stackMessage.split(' property ')[1].split(' not ')[0]`.  The read `[1]` is `undefined` when the
first split has one part only, and `split` of `undefined` throws; the second split always has
a part `[0]`. -/
def getDependency (result : List ValidationError) (counter : Nat) : Option String :=
  match result.get? counter with
  | none => none
  | some error =>
    match (jsSplit error.stack " property ").get? 1 with
    | none => none
    | some second =>
      match (jsSplit second " not ").get? 0 with
      | none => none
      | some dependency => some dependency

/-- Source: `handleDependencyError(output, result, counter)`. -/
def handleDependencyError (errorArray : List ErrorObj) (result : List ValidationError)
    (counter : Nat) : Option (List ErrorObj) :=
  match result.get? counter with
  | none => none
  | some error =>
    match removeInstanceOf error.argument with
    | none => none
    | some dependentField =>
      let schemaPath := removeInstance error.property
      match getDependency result counter with
      | none => none
      | some found =>
        let dependency := schemaPath ++ "." ++ found
        some (errorArray ++
          [makeErrorObj (.str dependentField) (.str "dependencies") .null .null (.str dependency)])

/-- The body of the loop of `processErrors` for one `counter`: the `switch` on
`errors[counter].name`.  The state is `processedErrors.errorArray` and the module variable
`requiredFields`. -/
def processOne (errors : List ValidationError) (schema : JsVal) (counter : Nat)
    (errorArray : List ErrorObj) (requiredFields : List JsVal) :
    Option (List ErrorObj × List JsVal) :=
  match errors.get? counter with
  | none => none
  | some error =>
    if error.name = "required" then
      handleMissingError errorArray requiredFields errors counter schema
    else if error.name = "type" then
      (handleTypeError errorArray errors counter).map (fun out => (out, requiredFields))
    else if error.name = "format" ∨ error.name = "pattern" then
      (handleFormatError errorArray errors counter).map (fun out => (out, requiredFields))
    else if error.name = "enum" then
      (handleEnumError errorArray errors counter).map (fun out => (out, requiredFields))
    else if error.name = "dependencies" then
      (handleDependencyError errorArray errors counter).map (fun out => (out, requiredFields))
    else if error.name = "anyOf" then
      (handleAnyOfError errorArray errors counter).map (fun out => (out, requiredFields))
    else some (errorArray, requiredFields)

/-- The loop `for (counter = 0; counter < length; counter++)` of `processErrors`, with
`remaining = length - counter` rounds still to run. -/
def processLoop (errors : List ValidationError) (schema : JsVal) :
    Nat → Nat → List ErrorObj → List JsVal → Option (List ErrorObj × List JsVal)
  | 0, _, errorArray, requiredFields => some (errorArray, requiredFields)
  | remaining + 1, counter, errorArray, requiredFields =>
    match processOne errors schema counter errorArray requiredFields with
    | none => none
    | some (errorArray', requiredFields') =>
      processLoop errors schema remaining (counter + 1) errorArray' requiredFields'

/-- Source: `processErrors(errors, processedErrors, schema)`. -/
def processErrors (errors : List ValidationError) (errorArray : List ErrorObj)
    (requiredFields : List JsVal) (schema : JsVal) : Option (List ErrorObj × List JsVal) :=
  processLoop errors schema errors.length 0 errorArray requiredFields

/-! ## File-field discovery -/

mutual
/-- Source: `checkForFilesInSchema(schema, toCheck)`; `toCheck` is passed in and returned.
`Object.keys` throws on `undefined` and `null`, is empty on numbers and booleans, and lists the
indices of an array or a string. -/
def checkForFilesInSchema : JsVal → List JsVal → Option (List JsVal)
  | .obj kvs, toCheck => checkForFilesKeys kvs toCheck
  | .arr xs, toCheck => checkForFilesItems 0 xs toCheck
  | .str _, toCheck => some toCheck
  | .bool _, toCheck => some toCheck
  | .num _, toCheck => some toCheck
  | .numOther _, toCheck => some toCheck
  | .undefined, _ => none
  | .null, _ => none
termination_by structural schema _ => schema
/-- The loop `keys.forEach((key) => switch (key) ...)` of `checkForFilesInSchema` on an
object.  Reading `type` of `null` throws. -/
def checkForFilesKeys : List (String × JsVal) → List JsVal → Option (List JsVal)
  | [], toCheck => some toCheck
  | (key, value) :: rest, toCheck =>
    if key = "allOf" then
      match value with
      | .arr schs =>
        match checkForFilesEach schs toCheck with
        | some toCheck' => checkForFilesKeys rest toCheck'
        | none => none
      | _ => none
    else if key = "properties" then
      match checkForFilesInSchema value toCheck with
      | some toCheck' => checkForFilesKeys rest toCheck'
      | none => none
    else
      match value.getNamed "type" with
      | none => none
      | some declared =>
        if declared.is "file" then checkForFilesKeys rest (toCheck ++ [.obj [(key, value)]])
        else if declared.is "object" then
          match checkForFilesInSchema value toCheck with
          | some toCheck' => checkForFilesKeys rest toCheck'
          | none => none
        else checkForFilesKeys rest toCheck
termination_by structural keys _ => keys
/-- The same loop on an array schema, whose keys are the indices `'i'`, `'i+1'`, ... -/
def checkForFilesItems : Nat → List JsVal → List JsVal → Option (List JsVal)
  | _, [], toCheck => some toCheck
  | i, value :: rest, toCheck =>
    match value.getNamed "type" with
    | none => none
    | some declared =>
      if declared.is "file" then
        checkForFilesItems (i + 1) rest (toCheck ++ [.obj [(toString i, value)]])
      else if declared.is "object" then
        match checkForFilesInSchema value toCheck with
        | some toCheck' => checkForFilesItems (i + 1) rest toCheck'
        | none => none
      else checkForFilesItems (i + 1) rest toCheck
termination_by structural _ items _ => items
/-- The loop `schema.allOf.forEach((sch) => checkForFilesInSchema(sch, toCheck))`. -/
def checkForFilesEach : List JsVal → List JsVal → Option (List JsVal)
  | [], toCheck => some toCheck
  | sch :: rest, toCheck =>
    match checkForFilesInSchema sch toCheck with
    | some toCheck' => checkForFilesEach rest toCheck'
    | none => none
termination_by structural schs _ => schs
end

/-- The error types that `generateErrorMesage` renders from a field template without a table
lookup: `missing`, `type`, `enum`, `dependencies` and `anyOf`. -/
def isFieldError (e : ErrorObj) : Bool :=
  e.errorType.is "missing" || e.errorType.is "type" || e.errorType.is "enum" ||
    e.errorType.is "dependencies" || e.errorType.is "anyOf"

/-- The template sentence of a record, as the specification lists them by error type:
`<Field> is a required field.`, `<Field> is expected to be type '<type>'.`,
`<Field> <enumMessage>.`, `Having <Field> requires that <Dependency> be provided.`, and
`Either <A> or <B> is a required field.`  Here `<Field>` and `<Dependency>` are the readable
paths and `<A> or <B>` the text built by `makeAnyOfMessage`. -/
def templateSentence (e : ErrorObj) : String :=
  if e.errorType.is "missing" then
    (makePathReadable e.field).toStr ++ " is a required field."
  else if e.errorType.is "type" then
    (makePathReadable e.field).toStr ++ " is expected to be type '" ++
      e.expectedFieldType.toStr ++ "'."
  else if e.errorType.is "enum" then
    (makePathReadable e.field).toStr ++ " " ++ e.enumMessage.toStr ++ "."
  else if e.errorType.is "dependencies" then
    "Having " ++ (makePathReadable e.field).toStr ++ " requires that " ++
      (makePathReadable e.dependency).toStr ++ " be provided."
  else
    "Either " ++ (makeAnyOfMessage e.anyOfFields).toStr ++ " is a required field."

/-- The record `e` after `error.message = <sentence>`. -/
def withMessage (e : ErrorObj) (sentence : String) : ErrorObj :=
  { e with message := .str sentence }

/-- The word `w` with its first letter uppercased (`Cap(w)` of the specification). -/
def capitalize (w : String) : String :=
  match w.data with
  | [] => ""
  | c :: cs => String.mk (c.toUpper :: cs)

/-- The readable form of a dotted path, following the words of the specification: split on
`'.'`, make each segment readable, join with `'/'`. -/
def readablePath (s : String) : String :=
  String.intercalate "/" ((splitDot s).map makeFieldReadable)

/-- The field path of an `anyOf` alternative as the specification writes it: `P.r`, and just
`r` when `P` is empty. -/
def qualifiedName (P r : String) : String :=
  if P.data.length > 0 then P ++ "." ++ r else r

/-- The record of an `anyOf` failure as the specification describes it: error type `anyOf`,
no field, and the list of alternative field paths. -/
def anyOfRecord (fields : List String) : ErrorObj :=
  { field := .undefined
    errorType := .str "anyOf"
    expectedFieldType := .undefined
    enumMessage := .undefined
    dependency := .undefined
    anyOfFields := some (fields.map JsVal.str)
    message := .undefined }

/-- The sentence `Either <A> or <B> or ... is a required field.` over readable paths. -/
def anyOfSentence (fields : List String) : String :=
  "Either " ++ String.intercalate " or " (fields.map readablePath) ++ " is a required field."

/-- The failure of the example of C4: property `instance.contact`, branches requiring `email`
and `phone`. -/
def contactAnyOfFailure : ValidationError :=
  { property := "instance.contact"
    name := "anyOf"
    argument := .undefined
    message := .str "is not any of [subschema 0],[subschema 1]"
    schema := .obj [("anyOf", .arr [.obj [("required", .arr [.str "email"])],
      .obj [("required", .arr [.str "phone"])]])]
    stack := "instance.contact is not any of [subschema 0],[subschema 1]" }

/-- The field constraints of the examples: a required insurance certificate of at most 10 MB. -/
def certificateConstraints : List (String × FieldConstraints) :=
  [("insuranceCertificate",
    { filetypecode := .str "inc"
      validExtensions := ["pdf", "doc", "docx", "rtf"]
      maxSize := .int 10
      requiredFile := .bool true })]

/-- An upload as the carrier supplies it: one empty file whose MIME type is not allowed. -/
def emptyPngUpload : Upload :=
  { ext := .undefined
    files := [{ originalname := "empty.pdf", size := 0, mimetype := "image/png",
                encoding := "7bit", buffer := [] }] }

/-- An upload as the carrier supplies it: a non-empty file within the size limit, with an
allowed MIME type and the extension `exe`. -/
def exeUpload : Upload :=
  { ext := .undefined
    files := [{ originalname := "photo.exe", size := 1000, mimetype := "application/pdf",
                encoding := "7bit", buffer := [] }] }

/-- A schema in which `applicant.address` declares the required name `zipCode` inside an
`allOf` branch, and which has a top-level property `address` of its own. -/
def addressSchema : JsVal :=
  .obj [("type", .str "object"),
    ("properties", .obj [
      ("applicant", .obj [("type", .str "object"),
        ("properties", .obj [
          ("address", .obj [("allOf", .arr [.obj [("required", .arr [.str "zipCode"])]])])])]),
      ("address", .obj [("type", .str "object"), ("required", .arr [.str "street"])])])]

/-- The `required` failure reported when `applicant.address` is missing. -/
def addressFailure : ValidationError :=
  { property := "instance.applicant"
    name := "required"
    argument := .str "address"
    message := .str "requires property \"address\""
    schema := .undefined
    stack := "instance.applicant requires property \"address\"" }

/-- An upload as the carrier supplies it: the file `report.pdf`. -/
def reportUpload : Upload :=
  { ext := .undefined
    files := [{ originalname := "report.pdf", size := 2048, mimetype := "application/pdf",
                encoding := "7bit", buffer := [] }] }

/-- A transform for `findField` that records the sub-schemas it is invoked on, in order. -/
def recordVisit (sub : JsVal) (visited : List JsVal) : Option (List JsVal) :=
  some (visited ++ [sub])

/-- A schema with a required list of its own and one declared in a sub-schema under its
`properties`. -/
def nestedRequiredSchema : JsVal :=
  .obj [("type", .str "object"),
    ("required", .arr [.str "name"]),
    ("properties", .obj [
      ("name", .obj [("type", .str "string")]),
      ("address", .obj [("type", .str "object"), ("required", .arr [.str "zipCode"]),
        ("properties", .obj [("zipCode", .obj [("type", .str "string")])])])])]

/-- The `dependencies` failure reported at the document root when `email` is given without
`phone`. -/
def rootDependencyFailure : ValidationError :=
  { property := "instance"
    name := "dependencies"
    argument := .str "instance.email"
    message := .str "property phone not found, required by instance.email"
    schema := .undefined
    stack := "instance property phone not found, required by instance.email" }

/-- The same failure one level down, under `contact`. -/
def contactDependencyFailure : ValidationError :=
  { property := "instance.contact"
    name := "dependencies"
    argument := .str "instance.contact.email"
    message := .str "property phone not found, required by instance.contact.email"
    schema := .undefined
    stack := "instance.contact property phone not found, required by instance.contact.email" }

/-- A failure whose stack text has `' property '` but no `' not '` after it. -/
def truncatedStackFailure : ValidationError :=
  { property := "instance"
    name := "dependencies"
    argument := .str "instance.email"
    message := .str "property phone"
    schema := .undefined
    stack := "instance property phone" }

/-- An upload as the carrier supplies it: a file of exactly 10,000,000 bytes. -/
def tenMegabyteUpload : Upload :=
  { ext := .undefined
    files := [{ originalname := "scan.pdf", size := 10000000, mimetype := "application/pdf",
                encoding := "7bit", buffer := [] }] }

/-- Whether the declared type of a sub-schema (its property `type`) is the text `t`. -/
def declaredTypeIs (value : JsVal) (t : String) : Bool :=
  match value.getNamed "type" with
  | some declared => declared.is t
  | none => false

mutual
/-- The file fields of a schema in the words of the specification: the fields whose declared
type is `file`, reached through `allOf` branches, `properties`, and sub-schemas whose declared
type is `object`, each listed once with its constraint schema, in traversal order. -/
def fileFields : JsVal → List (String × JsVal)
  | .obj kvs => fileFieldsOfKeys kvs
  | .arr xs => fileFieldsOfItems 0 xs
  | _ => []
/-- The file fields found under the keys of an object. -/
def fileFieldsOfKeys : List (String × JsVal) → List (String × JsVal)
  | [] => []
  | (key, value) :: rest =>
    if key = "allOf" then
      match value with
      | .arr schs => fileFieldsOfBranches schs ++ fileFieldsOfKeys rest
      | _ => fileFieldsOfKeys rest
    else if key = "properties" then fileFields value ++ fileFieldsOfKeys rest
    else if declaredTypeIs value "file" then (key, value) :: fileFieldsOfKeys rest
    else if declaredTypeIs value "object" then fileFields value ++ fileFieldsOfKeys rest
    else fileFieldsOfKeys rest
/-- The file fields found under the indices of an array. -/
def fileFieldsOfItems : Nat → List JsVal → List (String × JsVal)
  | _, [] => []
  | i, value :: rest =>
    if declaredTypeIs value "file" then (toString i, value) :: fileFieldsOfItems (i + 1) rest
    else if declaredTypeIs value "object" then fileFields value ++ fileFieldsOfItems (i + 1) rest
    else fileFieldsOfItems (i + 1) rest
/-- The file fields of the branches of an `allOf`, branch after branch. -/
def fileFieldsOfBranches : List JsVal → List (String × JsVal)
  | [] => []
  | sch :: rest => fileFields sch ++ fileFieldsOfBranches rest
end

/-- The single-entry pairs `{fieldName: constraintSchema}` pushed for a list of file fields. -/
def filePairs (fields : List (String × JsVal)) : List JsVal :=
  fields.map (fun kv => JsVal.obj [kv])

mutual
/-- A schema document on which the walk of `checkForFilesInSchema` cannot throw: it holds no
`null` and no `undefined`, and the value of every key `allOf` is an array. -/
def isSchemaDocument : JsVal → Bool
  | .undefined => false
  | .null => false
  | .bool _ => true
  | .num _ => true
  | .numOther _ => true
  | .str _ => true
  | .arr xs => allSchemaDocuments xs
  | .obj kvs => allEntriesSchemaDocuments kvs
/-- Every element is a schema document. -/
def allSchemaDocuments : List JsVal → Bool
  | [] => true
  | x :: rest => isSchemaDocument x && allSchemaDocuments rest
/-- Every value is a schema document, and the values under `allOf` are arrays. -/
def allEntriesSchemaDocuments : List (String × JsVal) → Bool
  | [] => true
  | (key, value) :: rest =>
    (if key = "allOf" then
      match value with
      | .arr xs => allSchemaDocuments xs
      | _ => false
    else isSchemaDocument value) && allEntriesSchemaDocuments rest
end

/-- A schema with a file field at the top level of its properties and one inside an object
field of an `allOf` branch. -/
def uploadSchema : JsVal :=
  .obj [("type", .str "object"),
    ("allOf", .arr [
      .obj [("properties", .obj [
        ("applicant", .obj [("type", .str "object"),
          ("properties", .obj [
            ("name", .obj [("type", .str "string")]),
            ("insuranceCertificate", .obj [("type", .str "file"),
              ("maxSize", .num 10)])])])])]]),
    ("properties", .obj [
      ("goodStandingEvidence", .obj [("type", .str "file"), ("maxSize", .num 25)])])]

/-- Whether a key of a record holds data: it is neither absent (`undefined`) nor `null`. -/
def JsVal.isPresent : JsVal → Bool
  | .undefined => false
  | .null => false
  | _ => true

/-- Whether a record carries every key that the template of its error type reads in
`generateErrorMesage`: `field` for `missing`, `type`, `format`, `pattern`, `enum` and
`dependencies`; `expectedFieldType` for `type`; `enumMessage` for `enum`; `dependency` for
`dependencies`; for `anyOf`, `anyOfFields` with the element `anyOfFields[0]` and every element
after it, which `makeAnyOfMessage` reads. -/
def carriesTemplateFields (e : ErrorObj) : Bool :=
  if e.errorType.is "missing" then e.field.isPresent
  else if e.errorType.is "type" then e.field.isPresent && e.expectedFieldType.isPresent
  else if e.errorType.is "format" || e.errorType.is "pattern" then e.field.isPresent
  else if e.errorType.is "enum" then e.field.isPresent && e.enumMessage.isPresent
  else if e.errorType.is "dependencies" then e.field.isPresent && e.dependency.isPresent
  else if e.errorType.is "anyOf" then
    match e.anyOfFields with
    | some (first :: others) => (first :: others).all JsVal.isPresent
    | _ => false
  else true

/-- The message of a record of one of the seven error types of `processErrors`, built from the
values that the template of its error type reads, when all of them are present: the field path
(a string) and, by error type, the expected type, the enum message, the dependency (a string),
or the alternatives of `anyOfFields`.  It is `none` when one of these values is absent. -/
def messageFromPresentFields (errors : String → JsVal) (e : ErrorObj) : Option String :=
  if e.errorType.is "anyOf" then
    match e.anyOfFields with
    | some (first :: others) =>
      if (first :: others).all JsVal.isPresent then
        some ("Either " ++ (makeAnyOfMessage (some (first :: others))).toStr ++
          " is a required field.")
      else none
    | _ => none
  else
    match e.field with
    | .str field =>
      if e.errorType.is "missing" then some (readablePath field ++ " is a required field.")
      else if e.errorType.is "type" then
        if e.expectedFieldType.isPresent then
          some (readablePath field ++ " is expected to be type '" ++
            e.expectedFieldType.toStr ++ "'.")
        else none
      else if e.errorType.is "format" || e.errorType.is "pattern" then
        buildFormatErrorMessage errors (.str field)
      else if e.errorType.is "enum" then
        if e.enumMessage.isPresent then
          some (readablePath field ++ " " ++ e.enumMessage.toStr ++ ".")
        else none
      else if e.errorType.is "dependencies" then
        match e.dependency with
        | .str dependency =>
          some ("Having " ++ readablePath field ++ " requires that " ++
            readablePath dependency ++ " be provided.")
        | _ => none
      else none
    | _ => none

/-- The `anyOf` failure reported at the document root under a schema whose first branch has an
empty `required` list. -/
def emptyRequiredAnyOfFailure : ValidationError :=
  { property := "instance"
    name := "anyOf"
    argument := .undefined
    message := .str "is not any of [subschema 0],[subschema 1]"
    schema := .obj [("anyOf", .arr [.obj [("required", .arr [])],
      .obj [("required", .arr [.str "phone"])]])]
    stack := "instance is not any of [subschema 0],[subschema 1]" }

/-- The `type` failure reported for the property `age` under a schema whose `type` is the
empty list: the list of expected types in `argument` is empty. -/
def emptyTypeFailure : ValidationError :=
  { property := "instance.age"
    name := "type"
    argument := .arr []
    message := .str "is not of a type(s) "
    schema := .obj [("type", .arr [])]
    stack := "instance.age is not of a type(s) " }

/-- The `type` failure reported for the property `age` when an integer is expected. -/
def integerTypeFailure : ValidationError :=
  { property := "instance.age"
    name := "type"
    argument := .arr [.str "integer"]
    message := .str "is not of a type(s) integer"
    schema := .obj [("type", .str "integer")]
    stack := "instance.age is not of a type(s) integer" }

/-- The entries of an array as `Object.keys` lists them: the index `'i'`, `'i+1'`, ... with
the element stored under it. -/
def entriesFrom : Nat → List JsVal → List (String × JsVal)
  | _, [] => []
  | i, value :: rest => (toString i, value) :: entriesFrom (i + 1) rest

/-- The keys of a schema with the values stored under them. -/
def entriesOf : JsVal → List (String × JsVal)
  | .obj kvs => kvs
  | .arr xs => entriesFrom 0 xs
  | _ => []

/-- The sub-schema `t` is reached from `schema` through `allOf` branches, `properties`, and
sub-schemas whose declared type is `object`. -/
inductive ReachedFrom : JsVal → JsVal → Prop
  | self (schema : JsVal) : ReachedFrom schema schema
  | allOf (kvs : List (String × JsVal)) (schs : List JsVal) (branch t : JsVal) :
      ("allOf", JsVal.arr schs) ∈ kvs → branch ∈ schs → ReachedFrom branch t →
      ReachedFrom (.obj kvs) t
  | properties (kvs : List (String × JsVal)) (props t : JsVal) :
      ("properties", props) ∈ kvs → ReachedFrom props t → ReachedFrom (.obj kvs) t
  | object (schema : JsVal) (key : String) (value t : JsVal) :
      (key, value) ∈ entriesOf schema → key ≠ "allOf" → key ≠ "properties" →
      declaredTypeIs value "object" = true → ReachedFrom value t → ReachedFrom schema t

/-- The field `key` with constraint schema `value` is a file field of `schema`: it is an entry,
other than the keywords `allOf` and `properties`, of a sub-schema reached from `schema`, and its
declared type is `file`. -/
def IsFileFieldOf (schema : JsVal) (key : String) (value : JsVal) : Prop :=
  ∃ t, ReachedFrom schema t ∧ (key, value) ∈ entriesOf t ∧ key ≠ "allOf" ∧
    key ≠ "properties" ∧ declaredTypeIs value "file" = true

/-- An upload as the carrier supplies it: a file of 10,000,001 bytes. -/
def overTenMegabyteUpload : Upload :=
  { ext := .undefined
    files := [{ originalname := "scan.pdf", size := 10000001, mimetype := "application/pdf",
                encoding := "7bit", buffer := [] }] }

/-- An upload as the carrier supplies it: a file of 1,099,511,627,777,000,064 bytes, a size
that is a double. -/
def exabyteUpload : Upload :=
  { ext := .undefined
    files := [{ originalname := "archive.pdf", size := 1099511627777000064,
                mimetype := "application/pdf", encoding := "7bit", buffer := [] }] }

/-- The constraints of a field that accepts files of up to 1,099,511,627,777 MB. -/
def exabyteConstraints : List (String × FieldConstraints) :=
  [("archive",
    { filetypecode := .str "arc"
      validExtensions := ["pdf"]
      maxSize := .int 1099511627777
      requiredFile := .bool true })]

/-- An upload as the carrier supplies it: a file of 300,000 bytes. -/
def thumbnailUpload : Upload :=
  { ext := .undefined
    files := [{ originalname := "thumbnail.pdf", size := 300000,
                mimetype := "application/pdf", encoding := "7bit", buffer := [] }] }

/-- The constraints of a field that accepts files of up to `0.3` MB; the double `0.3` is
`5404319552844595 / 2 ^ 54`. -/
def thumbnailConstraints : List (String × FieldConstraints) :=
  [("thumbnail",
    { filetypecode := .str "thm"
      validExtensions := ["pdf"]
      maxSize := .other
        { text := "0.3"
          value := .finite 5404319552844595 18014398509481984
          notDigits := by decide }
      requiredFile := .bool true })]

/-- The number `12.5`. -/
def twelveAndAHalf : OtherNumber :=
  { text := "12.5", value := .finite 25 2, notDigits := by decide }

/-- The number `NaN`. -/
def notANumber : OtherNumber :=
  { text := "NaN", value := .nan, notDigits := by decide }

end Validation

/-! ## Theorems -/

namespace Validation

theorem indexOfChar_append_of_not_mem (c : Char) (a b : List Char) (h : c ∉ a) :
    indexOfChar c (a ++ c :: b) = some a.length := by
  induction a with
  | nil => simp [indexOfChar]
  | cons x xs ih =>
    have hx : x ≠ c := fun e => h (by simp [e])
    have hxs : c ∉ xs := fun e => h (by simp [e])
    simp [indexOfChar, hx, ih hxs]

theorem indexOfChar_none_of_not_mem (c : Char) (a : List Char) (h : c ∉ a) :
    indexOfChar c a = none := by
  induction a with
  | nil => simp [indexOfChar]
  | cons x xs ih =>
    have hx : x ≠ c := fun e => h (by simp [e])
    have hxs : c ∉ xs := fun e => h (by simp [e])
    simp [indexOfChar, hx, ih hxs]

theorem drop_length_succ_append {α : Type} (a : List α) (c : α) (b : List α) :
    List.drop (a.length + 1) (a ++ c :: b) = b := by
  induction a with
  | nil => rfl
  | cons x xs ih => simp [ih]

theorem removeInstance_append_dot (a b : String) (h : '.' ∉ a.data) :
    removeInstance (a ++ "." ++ b) = b := by
  have hd : (a ++ "." ++ b).data = a.data ++ '.' :: b.data := by
    simp [String.data_append]
  unfold removeInstance
  rw [hd, indexOfChar_append_of_not_mem _ _ _ h]
  have hdrop : List.drop (a.data.length + 1) (a.data ++ '.' :: b.data) = b.data :=
    drop_length_succ_append a.data '.' b.data
  show String.mk (List.drop (a.data.length + 1) (a.data ++ '.' :: b.data)) = b
  rw [hdrop]

theorem removeInstance_no_dot (p : String) (h : '.' ∉ p.data) :
    removeInstance p = "" := by
  unfold removeInstance
  rw [indexOfChar_none_of_not_mem _ _ h]

theorem exists_first_split (c : Char) (l : List Char) (h : c ∈ l) :
    ∃ a b, c ∉ a ∧ l = a ++ c :: b := by
  induction l with
  | nil => simp at h
  | cons x xs ih =>
    by_cases hx : x = c
    · exact ⟨[], xs, by simp, by simp [hx]⟩
    · have hmem : c ∈ xs := by
        rcases List.mem_cons.1 h with e | e
        · exact absurd e.symm hx
        · exact e
      obtain ⟨a, b, ha, hab⟩ := ih hmem
      refine ⟨x :: a, b, ?_, by simp [hab]⟩
      intro hc
      rcases List.mem_cons.1 hc with e | e
      · exact hx e.symm
      · exact ha e

theorem string_split_first (p : String) (h : '.' ∈ p.data) :
    ∃ a b : String, '.' ∉ a.data ∧ p = a ++ "." ++ b := by
  obtain ⟨a, b, ha, hab⟩ := exists_first_split '.' p.data h
  refine ⟨String.mk a, String.mk b, ha, ?_⟩
  apply String.ext
  simp [String.data_append, hab]

/-- C6: `removeInstance(p)` is the part of `p` after its first `'.'` when `p` contains a `'.'`,
and the empty string when it contains none; so `removeInstance("instance." ++ s) = s` and
`removeInstance("instance") = ""`. -/
theorem removeInstance_after_first_dot (p : String) :
    ('.' ∈ p.data →
      ∃ a b : String, '.' ∉ a.data ∧ p = a ++ "." ++ b ∧ removeInstance p = b) ∧
    (∀ a b : String, '.' ∉ a.data → p = a ++ "." ++ b → removeInstance p = b) ∧
    ('.' ∉ p.data → removeInstance p = "") ∧
    removeInstance ("instance." ++ p) = p ∧
    removeInstance "instance" = "" := by
  refine ⟨?_, ?_, removeInstance_no_dot p, ?_, by decide⟩
  · intro h
    obtain ⟨a, b, ha, hab⟩ := string_split_first p h
    exact ⟨a, b, ha, hab, by rw [hab]; exact removeInstance_append_dot a b ha⟩
  · intro a b ha hab
    rw [hab]; exact removeInstance_append_dot a b ha
  · have h := removeInstance_append_dot "instance" p (by decide)
    simpa using h

/-- C7, as stated, fails: `"applicant.name"` is a dotted path that does not begin with
`"instance."`, and `removeInstance` does not return it unchanged. -/
theorem removeInstance_unchanged_counterexample :
    ¬ (∀ p : String, '.' ∈ p.data → ("instance.".data.isPrefixOf p.data = false) →
        removeInstance p = p) := by
  intro h
  exact absurd (h "applicant.name" (by decide) (by decide)) (by decide)

/-- C7, amended: for every dotted path `p`, `removeInstance(p)` is `p` without its first
segment and the `'.'` after it, whatever that segment is; a dotted path is never returned
unchanged. -/
theorem removeInstance_strips_first_segment (p : String) (h : '.' ∈ p.data) :
    (∃ a : String, '.' ∉ a.data ∧ p = a ++ "." ++ removeInstance p) ∧ removeInstance p ≠ p := by
  obtain ⟨a, b, ha, hab⟩ := string_split_first p h
  have hb : removeInstance p = b := by rw [hab]; exact removeInstance_append_dot a b ha
  refine ⟨⟨a, ha, by rw [hb]; exact hab⟩, ?_⟩
  intro heq
  have hlen : p.data.length = (a ++ "." ++ b).data.length := by rw [← hab]
  rw [hb] at heq
  rw [← heq] at hlen
  simp [String.data_append] at hlen
  omega

theorem removeInstance_strips_first_segment_witness :
    (∃ a : String, '.' ∉ a.data ∧
      "applicant.name" = a ++ "." ++ removeInstance "applicant.name") ∧
    removeInstance "applicant.name" ≠ "applicant.name" :=
  removeInstance_strips_first_segment "applicant.name" (by decide)

/-! ### Readable field names -/

theorem ne_of_isLower {x k : Char} (hx : x.isLower = true) (hk : k.isLower = false) : x ≠ k := by
  rintro rfl
  simp [hx] at hk

theorem isUpper_of_isLower {x : Char} (hx : x.isLower = true) : x.isUpper = false := by
  simp only [Char.isLower, Char.isUpper, Bool.and_eq_true, decide_eq_true_eq] at *
  rcases hx with ⟨h1, _⟩
  have hnot : ¬ (x.val ≤ 90) := by
    intro h
    exact absurd (UInt32.le_trans h1 h) (by decide)
  simp [hnot]

theorem toUpperCaseChar_of_isLower {x : Char} (hx : x.isLower = true) :
    toUpperCaseChar x = [x.toUpper] := by
  have h : x.toNat < 128 := by
    simp only [Char.isLower, Bool.and_eq_true, decide_eq_true_eq] at hx
    have h2 := hx.2
    show x.val.toNat < 128
    have : x.val.toNat ≤ 122 := h2
    omega
  simp [toUpperCaseChar, h]

theorem isLineTerminator_of_isLower {x : Char} (hx : x.isLower = true) :
    isLineTerminator x = false := by
  have h1 := ne_of_isLower hx (k := '\n') (by decide)
  have h2 := ne_of_isLower hx (k := '\r') (by decide)
  have h3 := ne_of_isLower hx (k := Char.ofNat 0x2028) (by decide)
  have h4 := ne_of_isLower hx (k := Char.ofNat 0x2029) (by decide)
  simp [isLineTerminator, h1, h2, h3, h4]

theorem spaceBeforeCapitals_lower_append (w t : List Char) (hw : ∀ c ∈ w, c.isLower = true) :
    spaceBeforeCapitals (w ++ t) = w ++ spaceBeforeCapitals t := by
  induction w with
  | nil => rfl
  | cons x xs ih =>
    have hx : x.isUpper = false := isUpper_of_isLower (hw x (by simp))
    have hxs : ∀ c ∈ xs, c.isLower = true := fun c hc => hw c (by simp [hc])
    simp [spaceBeforeCapitals, hx, ih hxs]

/-- A pattern whose first character does not occur in `pre` cannot match inside `pre`. -/
theorem replaceFirst_skip (p0 : Char) (ps rep pre t : List Char) (hpre : ∀ x ∈ pre, x ≠ p0) :
    replaceFirst (p0 :: ps) rep (pre ++ t) = pre ++ replaceFirst (p0 :: ps) rep t := by
  induction pre with
  | nil => rfl
  | cons x xs ih =>
    have hx : x ≠ p0 := hpre x (by simp)
    have hxs : ∀ y ∈ xs, y ≠ p0 := fun y hy => hpre y (by simp [hy])
    have hx2 : p0 ≠ x := fun e => hx e.symm
    simp [replaceFirst, List.isPrefixOf, hx2, ih hxs]

/-- A pattern `p0, ' ', p2, ...` does not match at the head of `C, cs..., ' ', t2, ...` when `cs`
is a lowercase word and `t2` differs from `p2`. -/
theorem replaceFirst_head (p0 p2 C t2 : Char) (ps rep cs rest : List Char)
    (hcs : ∀ x ∈ cs, x.isLower = true) (h2 : p2 ≠ t2) :
    replaceFirst (p0 :: ' ' :: p2 :: ps) rep (C :: (cs ++ ' ' :: t2 :: rest)) =
      C :: replaceFirst (p0 :: ' ' :: p2 :: ps) rep (cs ++ ' ' :: t2 :: rest) := by
  cases cs with
  | nil => simp [replaceFirst, List.isPrefixOf, h2]
  | cons x xs =>
    have hx : x ≠ ' ' := ne_of_isLower (hcs x (by simp)) (by decide)
    have hx2 : ' ' ≠ x := fun e => hx e.symm
    simp [replaceFirst, List.isPrefixOf, hx2]

/-- The two acronym replacements leave `C :: cs` alone and act on the tail `' ' :: t2 :: rest`. -/
theorem replaceFirst_word (p0 p2 C t2 : Char) (ps rep cs rest : List Char)
    (hcs : ∀ x ∈ cs, x.isLower = true) (h2 : p2 ≠ t2) (hp0 : p0.isLower = false) :
    replaceFirst (p0 :: ' ' :: p2 :: ps) rep (C :: (cs ++ ' ' :: t2 :: rest)) =
      C :: (cs ++ replaceFirst (p0 :: ' ' :: p2 :: ps) rep (' ' :: t2 :: rest)) := by
  rw [replaceFirst_head p0 p2 C t2 ps rep cs rest hcs h2,
    replaceFirst_skip p0 _ rep cs _ (fun x hx => ne_of_isLower (hcs x hx) hp0)]

theorem makeFieldReadable_word (c : Char) (cs : List Char) (t : List Char)
    (hc : c.isLower = true) (hcs : ∀ x ∈ cs, x.isLower = true)
    (t2 u2 : Char) (rest urest : List Char)
    (ht : spaceBeforeCapitals t = ' ' :: t2 :: rest) (ht2 : 'I' ≠ t2)
    (hz : replaceFirst "Z I P".data "Zip".data (' ' :: t2 :: rest) = ' ' :: u2 :: urest)
    (hu2 : 'R' ≠ u2) :
    makeFieldReadable (String.mk (c :: cs ++ t)) =
      String.mk (c.toUpper :: cs ++
        replaceFirst "U R L".data "URL".data (' ' :: u2 :: urest)) := by
  have hall : ∀ x ∈ c :: cs, x.isLower = true := by
    intro x hx
    rcases List.mem_cons.1 hx with e | e
    · rw [e]; exact hc
    · exact hcs x e
  have h1 : spaceBeforeCapitals (c :: cs ++ t) = c :: (cs ++ ' ' :: t2 :: rest) := by
    rw [spaceBeforeCapitals_lower_append (c :: cs) t hall, ht]; rfl
  have h2 : upperFirst (c :: (cs ++ ' ' :: t2 :: rest)) = c.toUpper :: (cs ++ ' ' :: t2 :: rest) := by
    simp [upperFirst, isLineTerminator_of_isLower hc, toUpperCaseChar_of_isLower hc]
  have h3 := replaceFirst_word 'Z' 'I' c.toUpper t2 [' ', 'P'] "Zip".data cs rest hcs ht2 (by decide)
  have h4 := replaceFirst_word 'U' 'R' c.toUpper u2 [' ', 'L'] "URL".data cs urest hcs hu2 (by decide)
  show String.mk (replaceFirst "U R L".data "URL".data
      (replaceFirst "Z I P".data "Zip".data (upperFirst (spaceBeforeCapitals (c :: cs ++ t))))) = _
  rw [h1, h2]
  show String.mk (replaceFirst "U R L".data "URL".data
      (replaceFirst ('Z' :: ' ' :: 'I' :: [' ', 'P']) "Zip".data
        (c.toUpper :: (cs ++ ' ' :: t2 :: rest)))) = _
  rw [h3]
  show String.mk (replaceFirst "U R L".data "URL".data
      (c.toUpper :: (cs ++ replaceFirst "Z I P".data "Zip".data (' ' :: t2 :: rest)))) = _
  rw [hz]
  show String.mk (replaceFirst ('U' :: ' ' :: 'R' :: [' ', 'L']) "URL".data
      (c.toUpper :: (cs ++ ' ' :: u2 :: urest))) = _
  rw [h4]
  rfl

/-- C8: for every non-empty word `w` of lowercase ASCII letters, `makeFieldReadable` turns
`w ++ "Code"` into `Cap(w) ++ " Code"`, `w ++ "URL"` into `Cap(w) ++ " URL"` and `w ++ "ZIP"`
into `Cap(w) ++ " Zip"`; `zipCode` gives `Zip Code` and `contactURL` gives `Contact URL`. -/
theorem makeFieldReadable_camel_and_acronyms (w : String) (hne : w.data ≠ [])
    (hlow : ∀ c ∈ w.data, c.isLower = true) :
    makeFieldReadable (w ++ "Code") = capitalize w ++ " Code" ∧
    makeFieldReadable (w ++ "URL") = capitalize w ++ " URL" ∧
    makeFieldReadable (w ++ "ZIP") = capitalize w ++ " Zip" ∧
    makeFieldReadable "zipCode" = "Zip Code" ∧
    makeFieldReadable "contactURL" = "Contact URL" := by
  obtain ⟨wd⟩ := w
  cases wd with
  | nil => exact absurd rfl hne
  | cons c cs =>
    have hc : c.isLower = true := hlow c (by simp)
    have hcs : ∀ x ∈ cs, x.isLower = true := fun x hx => hlow x (by simp [hx])
    refine ⟨?_, ?_, ?_, by decide, by decide⟩
    · exact makeFieldReadable_word c cs "Code".data hc hcs 'C' 'C' "ode".data "ode".data
        (by decide) (by decide) (by decide) (by decide)
    · exact makeFieldReadable_word c cs "URL".data hc hcs 'U' 'U' " R L".data " R L".data
        (by decide) (by decide) (by decide) (by decide)
    · exact makeFieldReadable_word c cs "ZIP".data hc hcs 'Z' 'Z' " I P".data "ip".data
        (by decide) (by decide) (by decide) (by decide)

theorem makeFieldReadable_camel_and_acronyms_witness :
    makeFieldReadable ("contact" ++ "Code") = capitalize "contact" ++ " Code" ∧
    makeFieldReadable ("contact" ++ "URL") = capitalize "contact" ++ " URL" ∧
    makeFieldReadable ("contact" ++ "ZIP") = capitalize "contact" ++ " Zip" ∧
    makeFieldReadable "zipCode" = "Zip Code" ∧
    makeFieldReadable "contactURL" = "Contact URL" :=
  makeFieldReadable_camel_and_acronyms "contact" (by decide) (by decide)

/-! ### Readable paths -/

theorem splitOnChar_ne_nil (c : Char) (l : List Char) : splitOnChar c l ≠ [] := by
  induction l with
  | nil => simp [splitOnChar]
  | cons x xs ih =>
    unfold splitOnChar
    split
    · simp
    · split <;> simp

theorem splitOnChar_append (c : Char) (a b : List Char) :
    splitOnChar c (a ++ c :: b) = splitOnChar c a ++ splitOnChar c b := by
  induction a with
  | nil => simp [splitOnChar]
  | cons x xs ih =>
    by_cases hx : x = c
    · simp [splitOnChar, hx, ih]
    · have hne := splitOnChar_ne_nil c xs
      cases hxs : splitOnChar c xs with
      | nil => exact absurd hxs hne
      | cons seg rest =>
        rw [hxs] at ih
        simp [splitOnChar, hx, ih, hxs]

theorem splitOnChar_not_mem (c : Char) (l : List Char) :
    ∀ seg ∈ splitOnChar c l, c ∉ seg := by
  induction l with
  | nil => simp [splitOnChar]
  | cons x xs ih =>
    by_cases hx : x = c
    · intro seg hseg
      simp only [splitOnChar, hx, if_true, List.mem_cons] at hseg
      rcases hseg with e | e
      · simp [e]
      · exact ih seg e
    · have hne := splitOnChar_ne_nil c xs
      cases hxs : splitOnChar c xs with
      | nil => exact absurd hxs hne
      | cons s0 rest =>
        rw [hxs] at ih
        intro seg hseg
        simp only [splitOnChar, hx, if_false, hxs, List.mem_cons] at hseg
        rcases hseg with e | e
        · rw [e]
          intro hc
          rcases List.mem_cons.1 hc with e2 | e2
          · exact hx e2.symm
          · exact ih s0 (by simp) e2
        · exact ih seg (by simp [e])

theorem joinSlash_append_left (p q : String) (l : List String) :
    joinSlash (p ++ q) l = p ++ joinSlash q l := by
  induction l generalizing q with
  | nil => rfl
  | cons x xs ih =>
    simp only [joinSlash]
    rw [String.append_assoc, String.append_assoc, ih, String.append_assoc]

theorem joinSlash_append (acc y : String) (xs ys : List String) :
    joinSlash acc (xs ++ y :: ys) = joinSlash acc xs ++ "/" ++ joinSlash y ys := by
  induction xs generalizing acc with
  | nil =>
    simp only [List.nil_append, joinSlash]
    exact joinSlash_append_left (acc ++ "/") y ys
  | cons x rest ih =>
    simp only [List.cons_append, joinSlash]
    exact ih _

theorem intercalate_go_eq_joinSlash (acc : String) (l : List String) :
    String.intercalate.go acc "/" l = joinSlash acc l := by
  induction l generalizing acc with
  | nil => rfl
  | cons x xs ih =>
    simp only [String.intercalate.go, joinSlash]
    exact ih _

theorem makePathReadable_str (s : String) :
    makePathReadable (.str s) = .str (readablePath s) := by
  have hne := splitOnChar_ne_nil '.' s.data
  unfold makePathReadable readablePath splitDot
  cases hxs : splitOnChar '.' s.data with
  | nil => exact absurd hxs hne
  | cons seg rest =>
    simp only [hxs, List.map_cons, String.intercalate]
    rw [intercalate_go_eq_joinSlash]

theorem readablePath_append (a b : String) :
    readablePath (a ++ "." ++ b) = readablePath a ++ "/" ++ readablePath b := by
  have hd : (a ++ "." ++ b).data = a.data ++ '.' :: b.data := by
    simp [String.data_append]
  have hna := splitOnChar_ne_nil '.' a.data
  have hnb := splitOnChar_ne_nil '.' b.data
  unfold readablePath splitDot
  rw [hd, splitOnChar_append]
  cases ha : splitOnChar '.' a.data with
  | nil => exact absurd ha hna
  | cons a0 as =>
    cases hb : splitOnChar '.' b.data with
    | nil => exact absurd hb hnb
    | cons b0 bs =>
      simp only [List.map_cons, List.map_append, List.cons_append, String.intercalate,
        intercalate_go_eq_joinSlash]
      exact joinSlash_append _ _ _ _

theorem toUpper_ne_dot (c : Char) (h : c ≠ '.') : c.toUpper ≠ '.' := by
  unfold Char.toUpper
  simp only
  split
  · rename_i hb
    obtain ⟨h1, h2⟩ := hb
    generalize c.toNat = n at h1 h2
    interval_cases n <;> decide
  · exact h

theorem not_mem_spaceBeforeCapitals (l : List Char) (h : '.' ∉ l) :
    '.' ∉ spaceBeforeCapitals l := by
  induction l with
  | nil => simp [spaceBeforeCapitals]
  | cons x xs ih =>
    have hx : '.' ≠ x := fun e => h (List.mem_cons.2 (Or.inl e))
    have hxs : '.' ∉ xs := fun e => h (by simp [e])
    unfold spaceBeforeCapitals
    split <;> simp [hx, ih hxs]

theorem ofNat_ne_dot (n : Nat) (h : 46 < n) : Char.ofNat n ≠ '.' := by
  intro e
  have h1 : (Char.ofNat n).toNat = 46 := by rw [e]; rfl
  unfold Char.ofNat at h1
  split at h1
  · rename_i hv
    have h3 : (Char.ofNatAux n hv).toNat = n := rfl
    omega
  · exact absurd h1 (by decide)

set_option maxRecDepth 100000 in
theorem upperCaseRuns_upper :
    upperCaseRuns.all (fun r => decide (46 < r.upper)) = true := by
  rfl

set_option maxRecDepth 100000 in
theorem upperCaseSpecial_upper :
    upperCaseSpecial.all (fun e => e.2.all (fun n => decide (46 < n))) = true := by
  rfl

theorem mem_of_lookup_eq_some {α : Type} (k : Nat) (v : α) (l : List (Nat × α))
    (h : l.lookup k = some v) : (k, v) ∈ l := by
  induction l with
  | nil => simp [List.lookup] at h
  | cons x xs ih =>
    obtain ⟨a, b⟩ := x
    simp only [List.lookup] at h
    split at h
    · rename_i heq
      have hk : k = a := by simpa using heq
      simp only [Option.some.injEq] at h
      subst hk; subst h
      simp
    · exact List.mem_cons_of_mem _ (ih h)

theorem not_mem_toUpperCaseChar (x : Char) (hx : x ≠ '.') : '.' ∉ toUpperCaseChar x := by
  unfold toUpperCaseChar
  simp only
  split
  · have hu : '.' ≠ x.toUpper := fun e => toUpper_ne_dot x hx e.symm
    simp [hu]
  · split
    · rename_i upper hl
      have hmem := mem_of_lookup_eq_some _ _ _ hl
      have hall := List.all_eq_true.1 upperCaseSpecial_upper _ hmem
      simp only [List.all_eq_true, decide_eq_true_eq] at hall
      intro hdot
      obtain ⟨n, hn, e⟩ := List.mem_map.1 hdot
      exact ofNat_ne_dot n (hall n hn) e
    · split
      · rename_i r hf
        have hmem := List.mem_of_find?_eq_some hf
        have hall := List.all_eq_true.1 upperCaseRuns_upper _ hmem
        simp only [decide_eq_true_eq] at hall
        intro hdot
        have e : '.' = Char.ofNat (r.upper + (x.toNat - r.first)) := by simpa using hdot
        exact ofNat_ne_dot _ (by omega) e.symm
      · simpa using fun e => hx e.symm

theorem not_mem_upperFirst (l : List Char) (h : '.' ∉ l) : '.' ∉ upperFirst l := by
  cases l with
  | nil => simp [upperFirst]
  | cons x xs =>
    have hx : x ≠ '.' := fun e => h (by simp [e])
    have hxs : '.' ∉ xs := fun e => h (by simp [e])
    simp only [upperFirst]
    split
    · exact h
    · intro hmem
      rcases List.mem_append.1 hmem with e | e
      · exact not_mem_toUpperCaseChar x hx e
      · exact hxs e

theorem not_mem_replaceFirst (pat rep l : List Char) (hrep : '.' ∉ rep) (h : '.' ∉ l) :
    '.' ∉ replaceFirst pat rep l := by
  induction l with
  | nil =>
    unfold replaceFirst
    split
    · exact hrep
    · simp
  | cons x xs ih =>
    have hx : '.' ≠ x := fun e => h (List.mem_cons.2 (Or.inl e))
    have hxs : '.' ∉ xs := fun e => h (by simp [e])
    unfold replaceFirst
    split
    · intro hmem
      rcases List.mem_append.1 hmem with e | e
      · exact hrep e
      · exact h (List.mem_of_mem_drop e)
    · simp [hx, ih hxs]

theorem not_mem_makeFieldReadable (seg : String) (h : '.' ∉ seg.data) :
    '.' ∉ (makeFieldReadable seg).data := by
  unfold makeFieldReadable
  exact not_mem_replaceFirst _ _ _ (by decide)
    (not_mem_replaceFirst _ _ _ (by decide)
      (not_mem_upperFirst _ (not_mem_spaceBeforeCapitals _ h)))

theorem not_mem_joinSlash (acc : String) (l : List String) (hacc : '.' ∉ acc.data)
    (hl : ∀ x ∈ l, '.' ∉ x.data) : '.' ∉ (joinSlash acc l).data := by
  induction l generalizing acc with
  | nil => exact hacc
  | cons x xs ih =>
    simp only [joinSlash]
    apply ih
    · have hx := hl x (by simp)
      simp [String.data_append, hacc, hx]
    · exact fun y hy => hl y (by simp [hy])

theorem not_mem_readablePath (s : String) : '.' ∉ (readablePath s).data := by
  have hne := splitOnChar_ne_nil '.' s.data
  have hseg := splitOnChar_not_mem '.' s.data
  unfold readablePath splitDot
  cases hxs : splitOnChar '.' s.data with
  | nil => exact absurd hxs hne
  | cons seg rest =>
    rw [hxs] at hseg
    simp only [List.map_cons, String.intercalate, intercalate_go_eq_joinSlash]
    apply not_mem_joinSlash
    · exact not_mem_makeFieldReadable _ (hseg seg (by simp))
    · intro x hx
      simp only [List.map_map, List.mem_map, Function.comp] at hx
      obtain ⟨r, hr, rfl⟩ := hx
      exact not_mem_makeFieldReadable _ (hseg r (by simp [hr]))

/-- C9: for every string `s`, `makePathReadable(s)` is the list of the `'.'`-separated segments
of `s`, each made readable by `makeFieldReadable`, joined with `'/'` in the same order; so
it maps `a.b` to the readable `a`, a `'/'`, and the readable `b`, and its result holds no `'.'`.
For an input that is not a string it returns `false`; `applicant.zipCode` gives
`Applicant/Zip Code`. -/
theorem makePathReadable_split_join (s : String) :
    makePathReadable (.str s) =
      .str (String.intercalate "/" ((splitDot s).map makeFieldReadable)) ∧
    (∀ a b : String, ∃ x y : String,
      makePathReadable (.str a) = .str x ∧ makePathReadable (.str b) = .str y ∧
      makePathReadable (.str (a ++ "." ++ b)) = .str (x ++ "/" ++ y)) ∧
    (∀ r : String, makePathReadable (.str s) = .str r → '.' ∉ r.data) ∧
    (∀ v : JsVal, v.isString = false → makePathReadable v = .bool false) ∧
    makePathReadable (.str "applicant.zipCode") = .str "Applicant/Zip Code" := by
  refine ⟨makePathReadable_str s, ?_, ?_, ?_, by rfl⟩
  · intro a b
    exact ⟨readablePath a, readablePath b, makePathReadable_str a, makePathReadable_str b,
      by rw [makePathReadable_str, readablePath_append]⟩
  · intro r hr
    rw [makePathReadable_str] at hr
    injection hr with hr
    rw [← hr]
    exact not_mem_readablePath s
  · intro v hv
    cases v <;> first | rfl | simp [JsVal.isString] at hv

/-! ### Message generation -/

theorem jsTrim_append_space (s : String) : jsTrim (s ++ " ") = jsTrim s := by
  have hd : (s ++ " ").data = s.data ++ [' '] := by simp [String.data_append]
  unfold jsTrim
  rw [hd, List.rdropWhile_concat_pos _ _ _ (by decide)]

theorem jsTrim_eq_self (s : String)
    (hhead : ∀ a, s.data.head? = some a → isTrimmed a = false)
    (hlast : ∀ b, s.data.getLast? = some b → isTrimmed b = false) : jsTrim s = s := by
  obtain ⟨l⟩ := s
  have h1 : l.rdropWhile isTrimmed = l := by
    rw [List.rdropWhile_eq_self_iff]
    intro hl
    have := hlast (l.getLast hl) (List.getLast?_eq_getLast l hl)
    simp [this]
  have h2 : l.dropWhile isTrimmed = l := by
    cases l with
    | nil => rfl
    | cons a t =>
      have := hhead a rfl
      simp [List.dropWhile, this]
  show String.mk ((l.rdropWhile isTrimmed).dropWhile isTrimmed) = String.mk l
  rw [h1, h2]

theorem intercalate_go_append_left (sep p q : String) (l : List String) :
    String.intercalate.go (p ++ q) sep l = p ++ String.intercalate.go q sep l := by
  induction l generalizing q with
  | nil => rfl
  | cons x xs ih =>
    simp only [String.intercalate.go]
    rw [String.append_assoc, String.append_assoc, ih, String.append_assoc]

theorem concatLoop_strs (acc s : String) (ss : List String) :
    concatLoop acc ((s :: ss).map JsVal.str) =
      acc ++ String.intercalate " " (s :: ss) ++ " " := by
  induction ss generalizing acc s with
  | nil => simp [concatLoop, String.intercalate, String.intercalate.go, JsVal.toStr]
  | cons t ts ih =>
    have h := ih (acc ++ s ++ " ") t
    simp only [List.map_cons, concatLoop, JsVal.toStr] at h ⊢
    rw [h]
    simp only [String.intercalate, String.intercalate.go]
    rw [intercalate_go_append_left " " (s ++ " ") t ts]
    simp only [String.append_assoc]

theorem concatErrors_strs (ss : List String) :
    concatErrors (ss.map JsVal.str) = jsTrim (String.intercalate " " ss) := by
  cases ss with
  | nil => rfl
  | cons s rest =>
    unfold concatErrors
    rw [concatLoop_strs, String.empty_append, jsTrim_append_space]

theorem generateOne_fieldError (errors : String → JsVal) (e : ErrorObj) (messages : List JsVal)
    (h : isFieldError e = true) :
    generateOne errors e messages =
      some (withMessage e (templateSentence e), messages ++ [.str (templateSentence e)]) := by
  unfold isFieldError at h
  cases ht : e.errorType with
  | str s =>
    rw [ht] at h
    simp only [JsVal.is, Bool.or_eq_true, decide_eq_true_eq] at h
    unfold generateOne templateSentence withMessage
    rw [ht]
    rcases h with (((h | h) | h) | h) | h <;> subst h <;> simp [JsVal.is]
  | _ => rw [ht] at h; simp [JsVal.is] at h

theorem generateLoop_fieldErrors (errors : String → JsVal) (l done : List ErrorObj)
    (messages : List JsVal) (h : ∀ e ∈ l, isFieldError e = true) :
    generateLoop errors l done messages =
      some (done ++ l.map (fun e => withMessage e (templateSentence e)),
        messages ++ (l.map templateSentence).map JsVal.str) := by
  induction l generalizing done messages with
  | nil => simp [generateLoop]
  | cons e rest ih =>
    have he := h e (by simp)
    have hrest : ∀ x ∈ rest, isFieldError x = true := fun x hx => h x (by simp [hx])
    simp only [generateLoop, generateOne_fieldError errors e messages he]
    rw [ih _ _ hrest]
    simp

theorem getLast?_append_literal (x t : String) (c : Char) (h : t.data.getLast? = some c) :
    (x ++ t).data.getLast? = some c := by
  simp [String.data_append, List.getLast?_append, h]

theorem templateSentence_last (e : ErrorObj) :
    (templateSentence e).data.getLast? = some '.' := by
  unfold templateSentence
  split_ifs <;> exact getLast?_append_literal _ _ _ (by decide)

theorem intercalate_getLast (sep s : String) (ss : List String) (c : Char)
    (h : ∀ x ∈ s :: ss, x.data.getLast? = some c) :
    (String.intercalate sep (s :: ss)).data.getLast? = some c := by
  induction ss generalizing s with
  | nil => simpa [String.intercalate, String.intercalate.go] using h s (by simp)
  | cons t ts ih =>
    have ht := ih t (fun x hx => h x (by simp [List.mem_cons] at hx ⊢; tauto))
    simp only [String.intercalate, String.intercalate.go] at ht ⊢
    rw [intercalate_go_append_left sep (s ++ sep) t ts]
    exact getLast?_append_literal _ _ _ ht

theorem intercalate_head (sep s : String) (ss : List String) (hs : s.data ≠ []) :
    (String.intercalate sep (s :: ss)).data.head? = s.data.head? := by
  cases ss with
  | nil => simp [String.intercalate, String.intercalate.go]
  | cons t ts =>
    simp only [String.intercalate, String.intercalate.go]
    rw [String.append_assoc, intercalate_go_append_left sep s (sep ++ t) ts]
    simp only [String.data_append, List.head?_append]
    cases hd : s.data with
    | nil => exact absurd hd hs
    | cons a l => simp

theorem templateSentence_ne_nil (e : ErrorObj) : (templateSentence e).data ≠ [] := by
  intro h
  have := templateSentence_last e
  rw [h] at this
  simp at this

/-- C10, as stated, fails: a `type` record whose field is the empty path (a type failure at
the document root) is given the sentence ` is expected to be type 'object'.`, which begins with a
space, and the summary returned is not that sentence. -/
theorem generateErrorMesage_join_counterexample :
    ∃ summary : String,
      generateErrorMesage (fun _ => JsVal.undefined)
          [makeErrorObj (.str "") (.str "type") (.str "object")] =
        some ([withMessage (makeErrorObj (.str "") (.str "type") (.str "object"))
                " is expected to be type 'object'."], summary) ∧
      summary ≠ String.intercalate " " [" is expected to be type 'object'."] :=
  ⟨"is expected to be type 'object'.", by rfl, by decide⟩

theorem generateErrorMesage_fieldErrors (errors : String → JsVal) (errorArray : List ErrorObj)
    (h : ∀ e ∈ errorArray, isFieldError e = true) :
    generateErrorMesage errors errorArray =
      some (errorArray.map (fun e => withMessage e (templateSentence e)),
        jsTrim (String.intercalate " " (errorArray.map templateSentence))) ∧
    ((∀ e a, errorArray.head? = some e → (templateSentence e).data.head? = some a →
        isTrimmed a = false) →
      generateErrorMesage errors errorArray =
        some (errorArray.map (fun e => withMessage e (templateSentence e)),
          String.intercalate " " (errorArray.map templateSentence))) ∧
    generateErrorMesage errors [] = some ([], "") := by
  have hmain : generateErrorMesage errors errorArray =
      some (errorArray.map (fun e => withMessage e (templateSentence e)),
        jsTrim (String.intercalate " " (errorArray.map templateSentence))) := by
    unfold generateErrorMesage
    rw [generateLoop_fieldErrors errors errorArray [] [] h]
    simp only [List.nil_append]
    rw [concatErrors_strs]
  refine ⟨hmain, ?_, by rfl⟩
  intro hfirst
  rw [hmain]
  cases errorArray with
  | nil => rfl
  | cons e rest =>
    have htrim : jsTrim (String.intercalate " " ((e :: rest).map templateSentence)) =
        String.intercalate " " ((e :: rest).map templateSentence) := by
      apply jsTrim_eq_self
      · intro a ha
        rw [List.map_cons, intercalate_head _ _ _ (templateSentence_ne_nil e)] at ha
        exact hfirst e a rfl ha
      · intro b hb
        rw [List.map_cons, intercalate_getLast " " _ _ '.' (by
          intro x hx
          rw [← List.map_cons] at hx
          obtain ⟨y, _, rfl⟩ := List.mem_map.1 hx
          exact templateSentence_last y)] at hb
        injection hb with hb
        rw [← hb]
        decide
    rw [htrim]

/-- C10, amended: for every list of records whose error types are among `missing`, `type`,
`enum`, `dependencies` and `anyOf`, `generateErrorMesage` assigns to each record its template
sentence as its message and returns those sentences, in record order, joined by single spaces
and then trimmed of leading and trailing white space; the result is exactly the joined
sentences whenever the first sentence does not begin with white space, and the empty string
for the empty list. -/
theorem generateErrorMesage_sentences (errors : String → JsVal) (errorArray : List ErrorObj)
    (h : ∀ e ∈ errorArray, isFieldError e = true) :
    generateErrorMesage errors errorArray =
      some (errorArray.map (fun e => withMessage e (templateSentence e)),
        jsTrim (String.intercalate " " (errorArray.map templateSentence))) ∧
    ((∀ e a, errorArray.head? = some e → (templateSentence e).data.head? = some a →
        isTrimmed a = false) →
      generateErrorMesage errors errorArray =
        some (errorArray.map (fun e => withMessage e (templateSentence e)),
          String.intercalate " " (errorArray.map templateSentence))) ∧
    generateErrorMesage errors [] = some ([], "") :=
  generateErrorMesage_fieldErrors errors errorArray h

theorem generateErrorMesage_sentences_witness :
    generateErrorMesage (fun _ => JsVal.undefined)
        [makeErrorObj (.str "applicant.zipCode") (.str "missing"),
          makeErrorObj (.str "Name") (.str "type") (.str "string")] =
      some ([makeErrorObj (.str "applicant.zipCode") (.str "missing"),
          makeErrorObj (.str "Name") (.str "type") (.str "string")].map
            (fun e => withMessage e (templateSentence e)),
        jsTrim (String.intercalate " "
          ([makeErrorObj (.str "applicant.zipCode") (.str "missing"),
            makeErrorObj (.str "Name") (.str "type") (.str "string")].map templateSentence))) :=
  (generateErrorMesage_sentences (fun _ => JsVal.undefined)
    [makeErrorObj (.str "applicant.zipCode") (.str "missing"),
      makeErrorObj (.str "Name") (.str "type") (.str "string")]
    (by intro e he; simp only [List.mem_cons, List.mem_singleton, List.not_mem_nil, or_false] at he
        rcases he with rfl | rfl <;> rfl)).1

/-! ### The `anyOf` handler -/

theorem combinePropArgument_str (P r : String) :
    combinePropArgument P (.str r) = .str (qualifiedName P r) := by
  unfold combinePropArgument qualifiedName
  split <;> rfl

theorem anyOfOptions_names (P : String) (branches : List JsVal) (names : List String)
    (acc : List JsVal)
    (h : List.Forall₂ (fun b r => ∃ req, JsVal.getNamed b "required" = some req ∧
      JsVal.getIndex req 0 = some (.str r)) branches names) :
    anyOfOptions P branches acc = some (acc ++ names.map (fun r => .str (qualifiedName P r))) := by
  induction h generalizing acc with
  | nil => simp [anyOfOptions]
  | cons hbr _ ih =>
    obtain ⟨req, h1, h2⟩ := hbr
    simp only [anyOfOptions, h1, h2, combinePropArgument_str]
    rw [ih]
    simp

theorem anyOfLoop_strs (acc : String) (fields : List String) :
    anyOfLoop acc (fields.map JsVal.str) =
      String.intercalate.go acc " or " (fields.map readablePath) := by
  induction fields generalizing acc with
  | nil => rfl
  | cons f rest ih =>
    simp only [List.map_cons, anyOfLoop, String.intercalate.go, makePathReadable_str, JsVal.toStr]
    exact ih _

theorem makeAnyOfMessage_strs (f : String) (fields : List String) :
    makeAnyOfMessage (some ((f :: fields).map JsVal.str)) =
      .str (String.intercalate " or " ((f :: fields).map readablePath)) := by
  simp only [makeAnyOfMessage, List.map_cons, List.headD_cons, List.tail_cons,
    makePathReadable_str, JsVal.toStr, String.intercalate]
  rw [anyOfLoop_strs]


theorem anyOfSentence_trim (fields : List String) :
    jsTrim (anyOfSentence fields) = anyOfSentence fields := by
  apply jsTrim_eq_self
  · intro a ha
    have : (anyOfSentence fields).data.head? = some 'E' := by
      simp [anyOfSentence, String.data_append]
    rw [this] at ha
    injection ha with ha
    rw [← ha]; decide
  · intro b hb
    rw [anyOfSentence, getLast?_append_literal _ _ '.' (by decide)] at hb
    injection hb with hb
    rw [← hb]; decide

theorem generateErrorMesage_anyOfRecord (errors : String → JsVal) (f : String)
    (fs : List String) :
    generateErrorMesage errors [anyOfRecord (f :: fs)] =
      some ([withMessage (anyOfRecord (f :: fs)) (anyOfSentence (f :: fs))],
        anyOfSentence (f :: fs)) := by
  have hsent : templateSentence (anyOfRecord (f :: fs)) = anyOfSentence (f :: fs) := by
    have h1 : templateSentence (anyOfRecord (f :: fs)) =
        "Either " ++ (makeAnyOfMessage (some ((f :: fs).map JsVal.str))).toStr ++
          " is a required field." := by rfl
    rw [h1, makeAnyOfMessage_strs]
    rfl
  have h := (generateErrorMesage_fieldErrors errors [anyOfRecord (f :: fs)]
    (by intro e he; rw [List.mem_singleton.1 he]; rfl)).1
  rw [h]
  simp only [List.map_cons, List.map_nil, String.intercalate, String.intercalate.go]
  rw [hsent, anyOfSentence_trim]

/-- C4: for an `anyOf` failure with instance-stripped property `P` whose schema has `anyOf`
branches with first required names `r1..rn` (`n ≥ 1`), `handleAnyOfError` appends exactly one
record, with error type `anyOf`, no field, and `anyOfFields = [P.r1, ..., P.rn]` in branch order
(just `r_i` when `P` is empty); `generateErrorMesage` renders it as
`Either <readable P.r1> or ... or <readable P.rn> is a required field.`  For property
`instance.contact` and branches requiring `email` and `phone` this gives
`[contact.email, contact.phone]` and `Either Contact/Email or Contact/Phone is a required field.` -/
theorem handleAnyOfError_single_record (errors : String → JsVal) (errorArray : List ErrorObj)
    (result : List ValidationError) (counter : Nat) (error : ValidationError)
    (branches : List JsVal) (r : String) (rs : List String)
    (hget : result.get? counter = some error)
    (hschema : error.schema.getNamed "anyOf" = some (.arr branches))
    (hnames : List.Forall₂ (fun b n => ∃ req, JsVal.getNamed b "required" = some req ∧
      JsVal.getIndex req 0 = some (.str n)) branches (r :: rs)) :
    handleAnyOfError errorArray result counter =
      some (errorArray ++
        [anyOfRecord ((r :: rs).map (qualifiedName (removeInstance error.property)))]) ∧
    generateErrorMesage errors
        [anyOfRecord ((r :: rs).map (qualifiedName (removeInstance error.property)))] =
      some ([withMessage
          (anyOfRecord ((r :: rs).map (qualifiedName (removeInstance error.property))))
          (anyOfSentence ((r :: rs).map (qualifiedName (removeInstance error.property))))],
        anyOfSentence ((r :: rs).map (qualifiedName (removeInstance error.property)))) := by
  constructor
  · unfold handleAnyOfError
    simp only [hget, hschema, anyOfOptions_names _ _ _ [] hnames]
    simp [makeErrorObj, anyOfRecord, deleteIfNull]
  · exact generateErrorMesage_anyOfRecord errors _ _

theorem handleAnyOfError_single_record_witness :
    handleAnyOfError [] [contactAnyOfFailure] 0 =
      some ([] ++ [anyOfRecord ["contact.email", "contact.phone"]]) ∧
    generateErrorMesage (fun _ => JsVal.undefined)
        [anyOfRecord ["contact.email", "contact.phone"]] =
      some ([withMessage (anyOfRecord ["contact.email", "contact.phone"])
          "Either Contact/Email or Contact/Phone is a required field."],
        "Either Contact/Email or Contact/Phone is a required field.") :=
  handleAnyOfError_single_record (fun _ => JsVal.undefined) [] [contactAnyOfFailure] 0
    contactAnyOfFailure
    [.obj [("required", .arr [.str "email"])], .obj [("required", .arr [.str "phone"])]]
    "email" ["phone"] rfl rfl
    (List.Forall₂.cons ⟨_, rfl, rfl⟩ (List.Forall₂.cons ⟨_, rfl, rfl⟩ List.Forall₂.nil))

/-! ### Double arithmetic -/

theorem halvings_bounds (fuel n : Nat) (hn : 0 < n) (hf : n ≤ fuel) :
    2 ^ halvings fuel n ≤ n ∧ n < 2 ^ (halvings fuel n + 1) := by
  induction fuel generalizing n with
  | zero => omega
  | succ fuel ih =>
    unfold halvings
    split
    · rename_i h2
      constructor
      · simpa using hn
      · simpa using h2
    · rename_i h2
      obtain ⟨h1, h3⟩ := ih (n / 2) (by omega) (by omega)
      have e1 : 2 ^ (halvings fuel (n / 2) + 1) = 2 * 2 ^ halvings fuel (n / 2) := by
        rw [pow_succ, mul_comm]
      have e2 : 2 ^ (halvings fuel (n / 2) + 1 + 1) = 4 * 2 ^ halvings fuel (n / 2) := by
        rw [pow_succ, pow_succ]
        ring
      rw [e1] at h3
      rw [e1, e2]
      generalize 2 ^ halvings fuel (n / 2) = t at h1 h3 ⊢
      constructor <;> omega

theorem binaryExponent_bounds (n : Nat) (hn : 0 < n) :
    2 ^ binaryExponent n ≤ n ∧ n < 2 ^ (binaryExponent n + 1) :=
  halvings_bounds n n hn (le_refl n)

theorem roundHalfEven_ge (num den : Nat) : num / den ≤ roundHalfEven num den := by
  unfold roundHalfEven
  simp only
  split <;> omega

theorem roundHalfEven_le (num den : Nat) : roundHalfEven num den ≤ num / den + 1 := by
  unfold roundHalfEven
  simp only
  split <;> omega

theorem roundHalfEven_exact (num den : Nat) (hden : 0 < den) (h : num % den = 0) :
    roundHalfEven num den = num / den := by
  unfold roundHalfEven
  simp only
  rw [if_neg]
  omega

theorem roundHalfEven_up (num den : Nat) (h : den < 2 * (num % den)) :
    roundHalfEven num den = num / den + 1 := by
  unfold roundHalfEven
  simp only
  rw [if_pos (Or.inl h)]

theorem divideDoubles_eq (a b : Nat) (ha : 0 < a) (hb : 0 < b) :
    ∃ U V : Nat, (V = 0 ∨ U ≤ 1) ∧ 2 ^ 52 * (b * 2 ^ V) ≤ a * 2 ^ U ∧
      divideDoubles a b = ⟨roundHalfEven (a * 2 ^ U) (b * 2 ^ V), V, U⟩ := by
  obtain ⟨ha1, ha2⟩ := binaryExponent_bounds a ha
  obtain ⟨hb1, hb2⟩ := binaryExponent_bounds b hb
  unfold divideDoubles
  simp only [Nat.ne_of_gt ha, if_false]
  generalize binaryExponent a = la at ha1 ha2 ⊢
  generalize binaryExponent b = lb at hb1 hb2 ⊢
  split
  · rename_i h
    exact ⟨52 + lb - la, la - (52 + lb), by omega, h, rfl⟩
  · refine ⟨52 + lb - la + 1, la - (52 + lb), by omega, ?_, ?_⟩
    · by_cases hl : la ≤ 52 + lb
      · have e1 : la - (52 + lb) = 0 := by omega
        have e2 : la + (52 + lb - la + 1) = 52 + (lb + 1) := by omega
        have h1 : 2 ^ la * 2 ^ (52 + lb - la + 1) = 2 ^ 52 * 2 ^ (lb + 1) := by
          rw [← pow_add, ← pow_add, e2]
        have h2 : 2 ^ la * 2 ^ (52 + lb - la + 1) ≤ a * 2 ^ (52 + lb - la + 1) :=
          Nat.mul_le_mul_right _ ha1
        have h3 : 2 ^ 52 * b ≤ 2 ^ 52 * 2 ^ (lb + 1) := Nat.mul_le_mul_left _ (le_of_lt hb2)
        rw [e1, pow_zero, mul_one]
        omega
      · have e1 : 52 + lb - la + 1 = 1 := by omega
        have e2 : 52 + (lb + 1) + (la - (52 + lb)) = la + 1 := by omega
        have h1 : 2 ^ 52 * (2 ^ (lb + 1) * 2 ^ (la - (52 + lb))) = 2 ^ la * 2 := by
          rw [← pow_add, ← pow_add, ← pow_succ]
          congr 1
          omega
        have h3 : 2 ^ 52 * (b * 2 ^ (la - (52 + lb))) ≤
            2 ^ 52 * (2 ^ (lb + 1) * 2 ^ (la - (52 + lb))) :=
          Nat.mul_le_mul_left _ (Nat.mul_le_mul_right _ (le_of_lt hb2))
        rw [e1, pow_one]
        omega
    · congr 1
      rw [pow_succ]
      ring_nf

theorem greaterThan_core (s M T W : Nat) (hM : M * 1000000 < 2 ^ 53)
    (hT1 : 1 ≤ T) (hW1 : 1 ≤ W) (hWT : W = 1 ∨ T ≤ 2) (hT : T ≤ 2 ^ 18 ∨ 2 ^ 19 ≤ T)
    (hF : 2 ^ 52 * (1000000 * W) ≤ s * T) :
    M * T < roundHalfEven (s * T) (1000000 * W) * W ↔ M * 1000000 < s := by
  have hge := roundHalfEven_ge (s * T) (1000000 * W)
  have hle := roundHalfEven_le (s * T) (1000000 * W)
  have hq : 2 ^ 52 ≤ s * T / (1000000 * W) :=
    (Nat.le_div_iff_mul_le (by omega)).2 hF
  by_cases hW : W = 1
  · subst hW
    simp only [mul_one] at *
    have hdm := Nat.div_add_mod (s * T) 1000000
    have hmod := Nat.mod_lt (s * T) (show 0 < 1000000 by norm_num)
    constructor
    · intro h
      by_contra hcon
      have hsle : s ≤ M * 1000000 := by omega
      have h1 : s * T ≤ M * 1000000 * T := Nat.mul_le_mul_right _ hsle
      have h2 : M * 1000000 * T = 1000000 * (M * T) := by ring
      by_cases hqe : s * T / 1000000 = M * T
      · have hr : s * T % 1000000 = 0 := by omega
        have := roundHalfEven_exact (s * T) 1000000 (by norm_num) hr
        omega
      · omega
    · intro h
      have h1 : (M * 1000000 + 1) * T ≤ s * T := Nat.mul_le_mul_right _ h
      have h2 : (M * 1000000 + 1) * T = 1000000 * (M * T) + T := by ring
      by_cases hqe : s * T / 1000000 = M * T
      · rcases hT with hT | hT
        · have h3 : M * T ≤ M * 2 ^ 18 := Nat.mul_le_mul_left _ hT
          omega
        · have := roundHalfEven_up (s * T) 1000000 (by omega)
          omega
      · omega
  · have hW2 : 2 ≤ W := by omega
    have hT2 : T ≤ 2 := by omega
    have h1 : M * T ≤ M * 2 := Nat.mul_le_mul_left _ hT2
    have h2 : 2 ^ 52 * 2 ≤ roundHalfEven (s * T) (1000000 * W) * W :=
      Nat.mul_le_mul (le_trans hq hge) hW2
    have h3 : s * T ≤ s * 2 := Nat.mul_le_mul_left _ hT2
    have h4 : 2 ^ 52 * (1000000 * 2) ≤ 2 ^ 52 * (1000000 * W) :=
      Nat.mul_le_mul_left _ (Nat.mul_le_mul_left _ hW2)
    constructor
    · intro _; omega
    · intro _; omega

theorem greaterThan_whole (s M : Nat) (hs : 0 < s) (hM : M * 1000000 < 2 ^ 53) :
    (divideDoubles s 1000000).greaterThan (.finite M 1) = true ↔ M * 1000000 < s := by
  obtain ⟨U, V, hUV, hF, heq⟩ := divideDoubles_eq s 1000000 hs (by norm_num)
  rw [heq]
  have hcore := greaterThan_core s M (2 ^ U) (2 ^ V) hM (Nat.one_le_two_pow) (Nat.one_le_two_pow)
    (by
      rcases hUV with h | h
      · left; rw [h, pow_zero]
      · right
        calc 2 ^ U ≤ 2 ^ 1 := Nat.pow_le_pow_right (by norm_num) h
          _ = 2 := by norm_num)
    (by
      by_cases h : U ≤ 18
      · exact Or.inl (Nat.pow_le_pow_right (by norm_num) h)
      · exact Or.inr (Nat.pow_le_pow_right (by norm_num) (by omega)))
    hF
  rw [← hcore]
  simp only [DoubleValue.greaterThan, decide_eq_true_eq]
  constructor
  · intro h
    have : ((M * 2 ^ U : Nat) : Int) < ((roundHalfEven (s * 2 ^ U) (1000000 * 2 ^ V) * 2 ^ V : Nat) : Int) := by
      push_cast
      simpa using h
    exact_mod_cast this
  · intro h
    have : ((M * 2 ^ U : Nat) : Int) < ((roundHalfEven (s * 2 ^ U) (1000000 * 2 ^ V) * 2 ^ V : Nat) : Int) := by
      exact_mod_cast h
    push_cast at this
    simpa using this

theorem checkSize_of_whole (fileInfo : FileInfo) (constraints : FieldConstraints) (M : Nat)
    (hM : constraints.maxSize = .int M) (hbound : M * 1000000 < 2 ^ 53)
    (hpos : 0 < fileInfo.size) (hle : fileInfo.size ≤ M * 1000000) :
    checkSize fileInfo constraints = [] := by
  have hval : constraints.maxSize.value = .finite M 1 := by rw [hM]; rfl
  have hnot : (divideDoubles fileInfo.size 1000000).greaterThan (.finite M 1) = false := by
    cases h : (divideDoubles fileInfo.size 1000000).greaterThan (.finite M 1) with
    | false => rfl
    | true =>
      have := (greaterThan_whole fileInfo.size M hpos hbound).1 h
      omega
  unfold checkSize
  simp [Nat.ne_of_gt hpos, hval, hnot]

/-! ### File validation -/

theorem validateFile_some (regexMatch : String → String → Option Bool) (now : Nat)
    (upload : Upload) (first : MulterFile) (rest : List MulterFile)
    (validationConstraints : List (String × FieldConstraints)) (fileName uploadField : String)
    (constraints fieldConstraints : FieldConstraints)
    (hfiles : upload.files = first :: rest)
    (hkeys : validationConstraints.head? = some (uploadField, fieldConstraints))
    (hlookup : validationConstraints.lookup fileName = some constraints) :
    ∃ fileInfo : FileInfo,
      fileInfo.filetype = uploadField ∧ fileInfo.size = first.size ∧
      fileInfo.mimetype = first.mimetype ∧
      validateFile regexMatch now (some upload) validationConstraints fileName =
        match checkExtensionAndMime regexMatch upload fileInfo constraints
          ("(^" ++ String.intercalate "$|^" constraints.validExtensions ++ "$)") with
        | none => none
        | some errObjs => some (errObjs ++ checkSize fileInfo constraints) := by
  refine ⟨{ file := first
            originalname := first.originalname
            filetype := uploadField
            filetypecode := fieldConstraints.filetypecode
            ext := partAt (splitDot (pathExt first.originalname)) 1
            size := first.size
            mimetype := first.mimetype
            encoding := first.encoding
            buffer := first.buffer
            filename := uploadField ++ "-" ++ pathName first.originalname ++ "-" ++
              toString now ++ (partAt (splitDot (pathExt first.originalname)) 1).toStr },
    rfl, rfl, rfl, ?_⟩
  unfold validateFile getFileInfo
  simp only [hfiles, List.head?_cons, hkeys, hlookup]


theorem checkSize_zero (fileInfo : FileInfo) (constraints : FieldConstraints)
    (h : fileInfo.size = 0) :
    checkSize fileInfo constraints =
      [makeErrorObj (.str fileInfo.filetype) (.str "invalidSizeSmall") (.num 0)] := by
  simp [checkSize, h]

theorem checkExtensionAndMime_shape (regexMatch : String → String → Option Bool)
    (upload : Upload) (fileInfo : FileInfo) (constraints : FieldConstraints) (regex : String)
    (pre : List ErrorObj)
    (h : checkExtensionAndMime regexMatch upload fileInfo constraints regex = some pre) :
    pre = [] ∨
    pre = [makeErrorObj (.str fileInfo.filetype) (.str "invalidExtension")
      (.arr (constraints.validExtensions.map JsVal.str))] ∨
    (pre = [makeErrorObj (.str fileInfo.filetype) (.str "invalidMime")
      (.arr (fileMimes.map JsVal.str))] ∧ fileInfo.mimetype ∉ fileMimes) := by
  have hmimeCheck : ∀ l : List ErrorObj,
      (if fileInfo.mimetype ∉ fileMimes then
        [makeErrorObj (.str fileInfo.filetype) (.str "invalidMime")
          (.arr (fileMimes.map JsVal.str))]
      else []) = l →
      l = [] ∨
      l = [makeErrorObj (.str fileInfo.filetype) (.str "invalidExtension")
        (.arr (constraints.validExtensions.map JsVal.str))] ∨
      (l = [makeErrorObj (.str fileInfo.filetype) (.str "invalidMime")
        (.arr (fileMimes.map JsVal.str))] ∧ fileInfo.mimetype ∉ fileMimes) := by
    intro l hl
    by_cases hm : fileInfo.mimetype ∈ fileMimes
    · simp only [hm, not_true_eq_false, if_false] at hl
      exact Or.inl hl.symm
    · simp only [hm, not_false_eq_true, if_true] at hl
      exact Or.inr (Or.inr ⟨hl.symm, hm⟩)
  unfold checkExtensionAndMime at h
  cases ht : upload.ext.truthy with
  | false =>
    simp only [ht, Bool.false_eq_true, if_false, Option.some.injEq] at h
    exact hmimeCheck pre h
  | true =>
    simp only [ht, if_true] at h
    cases hext : fileInfo.ext with
    | str ext =>
      simp only [hext] at h
      cases hr : regexMatch regex ext with
      | none => simp [hr] at h
      | some matched =>
        simp only [hr] at h
        cases matched with
        | false =>
          simp only [Bool.not_false, if_true, Option.some.injEq] at h
          exact Or.inr (Or.inl h.symm)
        | true =>
          simp only [Bool.not_true, Bool.false_eq_true, if_false, Option.some.injEq] at h
          exact hmimeCheck pre h
    | _ => simp [hext] at h

/-- C1, as stated, fails: an empty file whose MIME type is not in the global allowlist gets two
records, `invalidMime` and then `invalidSizeSmall`. -/
theorem validateFile_zero_bytes_counterexample :
    validateFile (fun _ _ => some true) 0 (some emptyPngUpload) certificateConstraints
        "insuranceCertificate" =
      some [makeErrorObj (.str "insuranceCertificate") (.str "invalidMime")
              (.arr (fileMimes.map JsVal.str)),
            makeErrorObj (.str "insuranceCertificate") (.str "invalidSizeSmall") (.num 0)] ∧
    (validateFile (fun _ _ => some true) 0 (some emptyPngUpload) certificateConstraints
        "insuranceCertificate").map List.length = some 2 := by
  constructor <;> rfl

/-- C1, amended: for every uploaded file of 0 bytes, the result of `validateFile` ends with
one `invalidSizeSmall` record; what precedes it is nothing, or the single `invalidExtension`
record, or the single `invalidMime` record of the extension and MIME check, and it is not the
`invalidMime` record when the MIME type is in the global allowlist.  For an upload on which the
extension test is not run the result is exactly `[invalidSizeSmall]` when the MIME type is
allowed and `[invalidMime, invalidSizeSmall]` otherwise. -/
theorem validateFile_zero_bytes (regexMatch : String → String → Option Bool) (now : Nat)
    (upload : Upload) (first : MulterFile) (rest : List MulterFile)
    (validationConstraints : List (String × FieldConstraints)) (fileName uploadField : String)
    (constraints fieldConstraints : FieldConstraints)
    (hfiles : upload.files = first :: rest)
    (hsize : first.size = 0)
    (hkeys : validationConstraints.head? = some (uploadField, fieldConstraints))
    (hlookup : validationConstraints.lookup fileName = some constraints) :
    (upload.ext.truthy = false →
      validateFile regexMatch now (some upload) validationConstraints fileName =
        some ((if first.mimetype ∈ fileMimes then []
            else [makeErrorObj (.str uploadField) (.str "invalidMime")
              (.arr (fileMimes.map JsVal.str))]) ++
          [makeErrorObj (.str uploadField) (.str "invalidSizeSmall") (.num 0)])) ∧
    (∀ errObjs, validateFile regexMatch now (some upload) validationConstraints fileName =
        some errObjs →
      ∃ pre, errObjs = pre ++
          [makeErrorObj (.str uploadField) (.str "invalidSizeSmall") (.num 0)] ∧
        (pre = [] ∨
          pre = [makeErrorObj (.str uploadField) (.str "invalidExtension")
            (.arr (constraints.validExtensions.map JsVal.str))] ∨
          (pre = [makeErrorObj (.str uploadField) (.str "invalidMime")
            (.arr (fileMimes.map JsVal.str))] ∧ first.mimetype ∉ fileMimes))) := by
  obtain ⟨fileInfo, hft, hsz, hmime, hval⟩ := validateFile_some regexMatch now upload first rest
    validationConstraints fileName uploadField constraints fieldConstraints hfiles hkeys hlookup
  have hcs := checkSize_zero fileInfo constraints (by rw [hsz, hsize])
  rw [hft] at hcs
  rw [hval, hcs]
  constructor
  · intro hext
    simp only [checkExtensionAndMime, hext, hft, hmime]
    by_cases hm : first.mimetype ∈ fileMimes <;> simp [hm]
  · intro errObjs h
    cases hc : checkExtensionAndMime regexMatch upload fileInfo constraints
        ("(^" ++ String.intercalate "$|^" constraints.validExtensions ++ "$)") with
    | none => rw [hc] at h; simp at h
    | some pre =>
      rw [hc] at h
      simp only [Option.some.injEq] at h
      have hshape := checkExtensionAndMime_shape _ _ _ _ _ _ hc
      rw [hft, hmime] at hshape
      exact ⟨pre, h.symm, hshape⟩


theorem validateFile_zero_bytes_witness :
    validateFile (fun _ _ => some true) 0 (some emptyPngUpload) certificateConstraints
        "insuranceCertificate" =
      some ((if "image/png" ∈ fileMimes then []
          else [makeErrorObj (.str "insuranceCertificate") (.str "invalidMime")
            (.arr (fileMimes.map JsVal.str))]) ++
        [makeErrorObj (.str "insuranceCertificate") (.str "invalidSizeSmall") (.num 0)]) :=
  (validateFile_zero_bytes (fun _ _ => some true) 0 emptyPngUpload
    { originalname := "empty.pdf", size := 0, mimetype := "image/png", encoding := "7bit",
      buffer := [] } []
    certificateConstraints "insuranceCertificate" "insuranceCertificate"
    { filetypecode := .str "inc", validExtensions := ["pdf", "doc", "docx", "rtf"],
      maxSize := .int 10, requiredFile := .bool true }
    { filetypecode := .str "inc", validExtensions := ["pdf", "doc", "docx", "rtf"],
      maxSize := .int 10, requiredFile := .bool true }
    rfl rfl rfl rfl).1 rfl

/-- C2: the code at the failing input.  The upload is the array that the upload carrier
supplies (no property `ext`), holding `photo.exe` of 1000 bytes with MIME type
`application/pdf`; the derived extension `exe` is not in the allowlist of the field, yet
`validateFile` returns no record at all, whatever the regular-expression engine answers: the
guard reads `uploadFile.ext`, not `fileInfo.ext`, so the extension is never tested. -/
theorem validateFile_extension_not_checked (regexMatch : String → String → Option Bool)
    (now : Nat) :
    (getFileInfo now (some exeUpload) certificateConstraints).map (Option.map FileInfo.ext) =
      some (some (.str "exe")) ∧
    "exe" ∉ ["pdf", "doc", "docx", "rtf"] ∧
    "application/pdf" ∈ fileMimes ∧
    validateFile regexMatch now (some exeUpload) certificateConstraints
      "insuranceCertificate" = some [] := by
  refine ⟨by rfl, by decide, by decide, ?_⟩
  obtain ⟨fileInfo, _, hsz, hmime, hval⟩ := validateFile_some regexMatch now exeUpload
    { originalname := "photo.exe", size := 1000, mimetype := "application/pdf",
      encoding := "7bit", buffer := [] } []
    certificateConstraints "insuranceCertificate" "insuranceCertificate"
    { filetypecode := .str "inc", validExtensions := ["pdf", "doc", "docx", "rtf"],
      maxSize := .int 10, requiredFile := .bool true }
    { filetypecode := .str "inc", validExtensions := ["pdf", "doc", "docx", "rtf"],
      maxSize := .int 10, requiredFile := .bool true }
    rfl rfl rfl
  rw [hval]
  have hsize := checkSize_of_whole fileInfo
    { filetypecode := .str "inc", validExtensions := ["pdf", "doc", "docx", "rtf"],
      maxSize := .int 10, requiredFile := .bool true } 10 rfl (by norm_num)
    (by rw [hsz]; norm_num) (by rw [hsz]; norm_num)
  simp [checkExtensionAndMime, exeUpload, JsVal.truthy, hmime, fileMimes, hsize]

/-- C3: when no file was uploaded, `validateFile` returns exactly one record, with field
`fileName` and error type `requiredFileMissing`, if the `requiredFile` flag of the field is
`true`, and the empty list if the flag is `false` or absent. -/
theorem validateFile_no_upload (regexMatch : String → String → Option Bool) (now : Nat)
    (validationConstraints : List (String × FieldConstraints)) (fileName : String)
    (constraints : FieldConstraints)
    (hlookup : validationConstraints.lookup fileName = some constraints) :
    (constraints.requiredFile = .bool true →
      validateFile regexMatch now none validationConstraints fileName =
        some [makeErrorObj (.str fileName) (.str "requiredFileMissing")]) ∧
    (constraints.requiredFile = .bool false ∨ constraints.requiredFile = .undefined →
      validateFile regexMatch now none validationConstraints fileName = some []) ∧
    (makeErrorObj (.str fileName) (.str "requiredFileMissing")).field = .str fileName ∧
    (makeErrorObj (.str fileName) (.str "requiredFileMissing")).errorType =
      .str "requiredFileMissing" := by
  refine ⟨?_, ?_, rfl, rfl⟩
  · intro hreq
    simp [validateFile, getFileInfo, hlookup, hreq, JsVal.truthy]
  · intro hreq
    rcases hreq with hreq | hreq <;>
      simp [validateFile, getFileInfo, hlookup, hreq, JsVal.truthy]

theorem validateFile_no_upload_witness :
    validateFile (fun _ _ => some true) 0 none certificateConstraints "insuranceCertificate" =
      some [makeErrorObj (.str "insuranceCertificate") (.str "requiredFileMissing")] :=
  (validateFile_no_upload (fun _ _ => some true) 0 certificateConstraints
    "insuranceCertificate"
    { filetypecode := .str "inc", validExtensions := ["pdf", "doc", "docx", "rtf"],
      maxSize := .int 10, requiredFile := .bool true } rfl).1 rfl

/-! ### The `required` handler -/

theorem handleMissingError_of_findField (errorArray : List ErrorObj)
    (requiredFields : List JsVal) (result : List ValidationError) (counter : Nat)
    (schema : JsVal) (error : ValidationError) (field : String) (names : List JsVal)
    (hget : result.get? counter = some error)
    (hfield : combinePropArgument (removeInstance error.property) error.argument = .str field)
    (hfind : findField getAllRequired schema (splitDot field) [] = some names) :
    handleMissingError errorArray requiredFields result counter schema =
      some (errorArray ++ makeErrorObj (.str field) (.str "missing") ::
          (qualifyRequired field names).map (fun r => makeErrorObj r (.str "missing")),
        qualifyRequired field names) := by
  unfold handleMissingError
  simp only [hget, hfield, hfind]
  simp

/-- C5: the code at the failing input.  The failure is on `applicant.address`, whose
sub-schema declares the one required name `zipCode` inside an `allOf` branch, so the claim
gives two records.  `handleMissingError` appends three: after the key `applicant` has been
matched, `fieldCopy.shift()` leaves `['address']` for the keys that follow, so the top-level
property `address` is visited too and its required name `street` is reported under the path
`applicant.address`. -/
theorem handleMissingError_sibling_leak :
    handleMissingError [] [] [addressFailure] 0 addressSchema =
      some ([makeErrorObj (.str "applicant.address") (.str "missing"),
          makeErrorObj (.str "applicant.address.zipCode") (.str "missing"),
          makeErrorObj (.str "applicant.address.street") (.str "missing")],
        [.str "applicant.address.zipCode", .str "applicant.address.street"]) := by
  rfl

/-! ### Storage file name -/

/-- C17: the code at the failing input.  For the upload `report.pdf` on the field
`insuranceCertificate` at time `1500000000000` the generated file name is
`insuranceCertificate-report-1500000000000pdf`: the extension kept by `getFileInfo` is the part
after the `'.'`, and it is appended to the time stamp without a `'.'`. -/
theorem getFileInfo_filename_without_dot :
    (getFileInfo 1500000000000 (some reportUpload) certificateConstraints).map
        (Option.map FileInfo.filename) =
      some (some "insuranceCertificate-report-1500000000000pdf") ∧
    "insuranceCertificate-report-1500000000000pdf" ≠
      "insuranceCertificate" ++ "-" ++ "report" ++ "-" ++ "1500000000000" ++ "." ++ "pdf" := by
  constructor
  · rfl
  · decide

/-! ### Field locator and required-field collection -/

/-- C18: the code at the failing input.  On the path `applicant`, `address` the transform is
invoked twice: on the sub-schema at `applicant.address`, and on the top-level property
`address`, which matches only the last segment of the path. -/
theorem findField_visits_suffix_match :
    findField recordVisit addressSchema ["applicant", "address"] [] =
      some [.obj [("allOf", .arr [.obj [("required", .arr [.str "zipCode"])]])],
            .obj [("type", .str "object"), ("required", .arr [.str "street"])]] := by
  rfl

/-- C19: the code at the failing input.  The schema declares `name` in its own required
list and `zipCode` in the required list of the sub-schema `address` under its `properties`;
`getAllRequired` adds `name` only. -/
theorem getAllRequired_skips_property_schemas :
    getAllRequired nestedRequiredSchema [] = some [.str "name"] := by
  rfl

/-- C20: `handleMissingError` starts from an empty accumulator: for any two prior contents
of `requiredFields` it returns the same error array and the same final accumulator, and the
records it appends are those of the names that the walk collects from the empty list. -/
theorem handleMissingError_ignores_prior_accumulator (errorArray : List ErrorObj)
    (prior prior' : List JsVal) (result : List ValidationError) (counter : Nat)
    (schema : JsVal) :
    handleMissingError errorArray prior result counter schema =
      handleMissingError errorArray prior' result counter schema ∧
    (∀ (error : ValidationError) (field : String) (names : List JsVal),
      result.get? counter = some error →
      combinePropArgument (removeInstance error.property) error.argument = .str field →
      findField getAllRequired schema (splitDot field) [] = some names →
      handleMissingError errorArray prior result counter schema =
        some (errorArray ++ makeErrorObj (.str field) (.str "missing") ::
            (qualifyRequired field names).map (fun r => makeErrorObj r (.str "missing")),
          qualifyRequired field names)) :=
  ⟨rfl, fun error field names hget hfield hfind =>
    handleMissingError_of_findField errorArray prior result counter schema error field names
      hget hfield hfind⟩

/-! ### The `dependencies` handler -/

/-- C13: the code at the failing input.  For the failure at the document root (property
`instance`, argument `instance.email`, dependency `phone`) the record has dependency `.phone`,
with a leading `'.'`, and the message names `/Phone`; one level down, under `contact`, the
dependency is `contact.phone`. -/
theorem handleDependencyError_root_leading_dot :
    handleDependencyError [] [rootDependencyFailure] 0 =
      some [makeErrorObj (.str "email") (.str "dependencies") .null .null (.str ".phone")] ∧
    (generateErrorMesage (fun _ => JsVal.undefined)
        [makeErrorObj (.str "email") (.str "dependencies") .null .null (.str ".phone")]).map
        Prod.snd = some "Having Email requires that /Phone be provided." ∧
    handleDependencyError [] [contactDependencyFailure] 0 =
      some [makeErrorObj (.str "contact.email") (.str "dependencies") .null .null
        (.str "contact.phone")] := by
  refine ⟨by rfl, by rfl, by rfl⟩

/-! ### Dependency extraction -/

theorem splitOnStr_ne_nil (sep : List Char) (skip : Nat) (l : List Char) :
    splitOnStr sep skip l ≠ [] := by
  induction l generalizing skip with
  | nil => cases skip <;> simp [splitOnStr]
  | cons c cs ih =>
    cases skip with
    | succ k => simpa [splitOnStr] using ih k
    | zero =>
      simp only [splitOnStr]
      split
      · simp
      · split <;> simp

theorem splitOnStr_of_absent (sep l : List Char) (h : ¬ sep <:+: l) :
    splitOnStr sep 0 l = [l] := by
  induction l with
  | nil => rfl
  | cons c cs ih =>
    have hpre : sep.isPrefixOf (c :: cs) = false := by
      cases hp : sep.isPrefixOf (c :: cs) with
      | false => rfl
      | true => exact absurd (List.isPrefixOf_iff_prefix.1 hp).isInfix h
    have hcs : ¬ sep <:+: cs := fun hi => h (List.infix_cons hi)
    simp [splitOnStr, hpre, ih hcs]

theorem splitOnStr_length_of_present (sep l : List Char) (hsep : sep ≠ []) (h : sep <:+: l) :
    2 ≤ (splitOnStr sep 0 l).length := by
  induction l with
  | nil => exact absurd (List.eq_nil_of_infix_nil h) hsep
  | cons c cs ih =>
    cases hp : sep.isPrefixOf (c :: cs) with
    | true =>
      have hne := splitOnStr_ne_nil sep (sep.length - 1) cs
      simp only [splitOnStr, hp, if_true, List.length_cons]
      have : 0 < (splitOnStr sep (sep.length - 1) cs).length := List.length_pos.2 hne
      omega
    | false =>
      have hcs : sep <:+: cs := by
        rcases List.infix_cons_iff.1 h with hpre | hinf
        · have := List.isPrefixOf_iff_prefix.2 hpre
          rw [hp] at this
          exact absurd this (by simp)
        · exact hinf
      have hlen := ih hcs
      simp only [splitOnStr, hp, Bool.false_eq_true, if_false]
      cases hs : splitOnStr sep 0 cs with
      | nil => rw [hs] at hlen; simp at hlen
      | cons seg rest =>
        rw [hs] at hlen
        simpa using hlen

theorem getDependency_eq (result : List ValidationError) (counter : Nat)
    (error : ValidationError) (hget : result.get? counter = some error) :
    getDependency result counter =
      match (jsSplit error.stack " property ").get? 1 with
      | none => none
      | some second => (jsSplit second " not ").get? 0 := by
  simp only [getDependency, hget]
  cases h1 : (jsSplit error.stack " property ").get? 1 with
  | none => rfl
  | some second =>
    simp only []
    cases h2 : (jsSplit second " not ").get? 0 <;> rfl

theorem jsSplit_get_zero (text sep : String) : ∃ d, (jsSplit text sep).get? 0 = some d := by
  have hne := splitOnStr_ne_nil sep.data 0 text.data
  unfold jsSplit
  cases hs : splitOnStr sep.data 0 text.data with
  | nil => exact absurd hs hne
  | cons seg rest => exact ⟨String.mk seg, rfl⟩

theorem getDependency_isSome_iff (result : List ValidationError) (counter : Nat)
    (error : ValidationError) (hget : result.get? counter = some error) :
    (∃ dependency, getDependency result counter = some dependency) ↔
      " property ".data <:+: error.stack.data := by
  rw [getDependency_eq result counter error hget]
  constructor
  · rintro ⟨d, hd⟩
    by_contra hnot
    have hsplit : jsSplit error.stack " property " = [error.stack] := by
      unfold jsSplit
      rw [splitOnStr_of_absent _ _ hnot]
      rfl
    rw [hsplit] at hd
    exact absurd hd (by simp)
  · intro hinf
    have hlen := splitOnStr_length_of_present _ _ (by decide) hinf
    have hsplit : ∃ first second more,
        jsSplit error.stack " property " = first :: second :: more := by
      unfold jsSplit
      cases hs : splitOnStr " property ".data 0 error.stack.data with
      | nil => rw [hs] at hlen; simp at hlen
      | cons first rest =>
        cases rest with
        | nil => rw [hs] at hlen; simp at hlen
        | cons second more => exact ⟨_, _, _, rfl⟩
    obtain ⟨first, second, more, hs⟩ := hsplit
    rw [hs]
    exact jsSplit_get_zero second " not "

/-- C12, as stated, fails: the stack text `instance property phone` has `' property '` but no
`' not '` after it, and `getDependency` returns `phone` instead of failing. -/
theorem getDependency_without_not_counterexample :
    ¬ (" not ".data <:+: truncatedStackFailure.stack.data) ∧
    getDependency [truncatedStackFailure] 0 = some "phone" := by
  constructor
  · decide
  · rfl

/-- C12, amended: `getDependency` returns a value if and only if the stack text contains
`' property '`; when that substring is absent it fails with an error.  Whether `' not '` follows
does not matter: the value returned is the part of the second `' property '`-separated segment
before its first `' not '`, which is the whole segment when `' not '` is absent. -/
theorem getDependency_returns_iff_property (result : List ValidationError) (counter : Nat)
    (error : ValidationError) (hget : result.get? counter = some error) :
    ((∃ dependency, getDependency result counter = some dependency) ↔
      " property ".data <:+: error.stack.data) ∧
    (¬ " property ".data <:+: error.stack.data → getDependency result counter = none) ∧
    (∀ second : String, (jsSplit error.stack " property ").get? 1 = some second →
      getDependency result counter = (jsSplit second " not ").get? 0 ∧
      (¬ " not ".data <:+: second.data → getDependency result counter = some second)) := by
  refine ⟨getDependency_isSome_iff result counter error hget, ?_, ?_⟩
  · intro hnot
    cases hd : getDependency result counter with
    | none => rfl
    | some d =>
      exact absurd ((getDependency_isSome_iff result counter error hget).1 ⟨d, hd⟩) hnot
  · intro second hsecond
    rw [getDependency_eq result counter error hget, hsecond]
    refine ⟨rfl, ?_⟩
    intro hnot
    show (jsSplit second " not ").get? 0 = some second
    unfold jsSplit
    rw [splitOnStr_of_absent _ _ hnot]
    rfl

theorem getDependency_returns_iff_property_witness :
    ((∃ dependency, getDependency [rootDependencyFailure] 0 = some dependency) ↔
      " property ".data <:+: rootDependencyFailure.stack.data) ∧
    (¬ " property ".data <:+: rootDependencyFailure.stack.data →
      getDependency [rootDependencyFailure] 0 = none) ∧
    (∀ second : String,
      (jsSplit rootDependencyFailure.stack " property ").get? 1 = some second →
      getDependency [rootDependencyFailure] 0 = (jsSplit second " not ").get? 0 ∧
      (¬ " not ".data <:+: second.data →
        getDependency [rootDependencyFailure] 0 = some second)) :=
  getDependency_returns_iff_property [rootDependencyFailure] 0 rootDependencyFailure rfl

/-! ### Custom formats -/

theorem toDigitsCore_fuel (f f' n : Nat) (ds : List Char) (h : n < f) (h' : n < f') :
    Nat.toDigitsCore 10 f n ds = Nat.toDigitsCore 10 f' n ds := by
  induction f generalizing f' n ds with
  | zero => omega
  | succ k ih =>
    cases f' with
    | zero => omega
    | succ k' =>
      simp only [Nat.toDigitsCore]
      by_cases hz : n / 10 = 0
      · simp [hz]
      · simp only [hz, if_false]
        exact ih k' (n / 10) _ (by omega) (by omega)

theorem toDigitsCore_acc (f n : Nat) (ds : List Char) :
    Nat.toDigitsCore 10 f n ds = Nat.toDigitsCore 10 f n [] ++ ds := by
  induction f generalizing n ds with
  | zero => simp [Nat.toDigitsCore]
  | succ k ih =>
    simp only [Nat.toDigitsCore]
    by_cases hz : n / 10 = 0
    · simp [hz]
    · simp only [hz, if_false]
      rw [ih (n / 10) (Nat.digitChar (n % 10) :: ds), ih (n / 10) [Nat.digitChar (n % 10)]]
      simp

theorem toDigits_small (n : Nat) (h : n < 10) : Nat.toDigits 10 n = [Nat.digitChar n] := by
  have hz : n / 10 = 0 := by omega
  have hm : n % 10 = n := by omega
  simp [Nat.toDigits, Nat.toDigitsCore, hz, hm]

theorem toDigits_step (n : Nat) (h : 10 ≤ n) :
    Nat.toDigits 10 n = Nat.toDigits 10 (n / 10) ++ [Nat.digitChar (n % 10)] := by
  have hz : n / 10 ≠ 0 := by omega
  have h1 : Nat.toDigitsCore 10 (n + 1) n [] =
      Nat.toDigitsCore 10 n (n / 10) [Nat.digitChar (n % 10)] := by
    simp [Nat.toDigitsCore, hz]
  show Nat.toDigitsCore 10 (n + 1) n [] =
    Nat.toDigitsCore 10 (n / 10 + 1) (n / 10) [] ++ [Nat.digitChar (n % 10)]
  rw [h1, toDigitsCore_acc, toDigitsCore_fuel n (n / 10 + 1) (n / 10) [] (by omega) (by omega)]

theorem digitChar_isDigit (d : Nat) (h : d < 10) : (Nat.digitChar d).isDigit = true := by
  interval_cases d <;> decide

theorem toDigits_all_isDigit (n : Nat) : (Nat.toDigits 10 n).all Char.isDigit = true := by
  induction n using Nat.strong_induction_on with
  | _ n ih =>
    by_cases h : n < 10
    · rw [toDigits_small n h]
      simp [digitChar_isDigit n h]
    · rw [toDigits_step n (by omega), List.all_append, ih (n / 10) (by omega)]
      simp [digitChar_isDigit (n % 10) (by omega)]

theorem toDigits_length (n : Nat) :
    (Nat.toDigits 10 n).length = if n < 10 then 1 else (Nat.toDigits 10 (n / 10)).length + 1 := by
  by_cases h : n < 10
  · simp [h, toDigits_small n h]
  · simp [h, toDigits_step n (by omega)]

theorem toDigits_length_pos (n : Nat) : 0 < (Nat.toDigits 10 n).length := by
  rw [toDigits_length n]
  split <;> omega

theorem toDigits_length_eq (k n : Nat) :
    (Nat.toDigits 10 n).length = k + 1 ↔ n < 10 ^ (k + 1) ∧ (k = 0 ∨ 10 ^ k ≤ n) := by
  induction k generalizing n with
  | zero =>
    rw [toDigits_length n]
    have hpos := toDigits_length_pos (n / 10)
    split
    · simp only [Nat.zero_add, Nat.pow_one, true_or, and_true, true_iff]
      omega
    · simp only [Nat.zero_add, Nat.pow_one, true_or, and_true]
      omega
  | succ k ih =>
    rw [toDigits_length n]
    have hQ : 0 < 10 ^ k := by positivity
    have hP : 10 ^ (k + 1) = 10 ^ k * 10 := by rw [Nat.pow_succ]
    have hP2 : 10 ^ (k + 1 + 1) = 10 ^ k * 10 * 10 := by rw [Nat.pow_succ, Nat.pow_succ]
    split
    · rename_i hlt
      constructor
      · intro h; omega
      · rintro ⟨_, h | h⟩
        · omega
        · rw [hP] at h; omega
    · rename_i hge
      rw [Nat.add_right_cancel_iff, ih (n / 10), hP, hP2]
      cases k with
      | zero =>
        simp only [Nat.pow_zero, Nat.one_mul, true_or, and_true]
        omega
      | succ j =>
        have hj : 10 ^ (j + 1) = 10 ^ j * 10 := by rw [Nat.pow_succ]
        have hjpos : 0 < 10 ^ j := by positivity
        rw [hj]
        constructor
        · rintro ⟨h1, h2 | h2⟩
          · omega
          · exact ⟨by omega, Or.inr (by omega)⟩
        · rintro ⟨h1, h2 | h2⟩
          · omega
          · exact ⟨by omega, Or.inr (by omega)⟩

theorem matchesDigits_nat (num n : Nat) :
    matchesDigits (num + 1) (toString (Int.ofNat n)) = true ↔
      n < 10 ^ (num + 1) ∧ (num = 0 ∨ 10 ^ num ≤ n) := by
  have hstr : (toString (Int.ofNat n)).data = Nat.toDigits 10 n := rfl
  unfold matchesDigits
  rw [hstr, toDigits_all_isDigit, Bool.and_true, decide_eq_true_eq]
  exact toDigits_length_eq num n

theorem matchesDigits_negSucc (num m : Nat) :
    matchesDigits num (toString (Int.negSucc m)) = false := by
  have hstr : (toString (Int.negSucc m)).data = '-' :: (toString (m + 1)).data := rfl
  unfold matchesDigits
  rw [hstr]
  simp

/-- C16, as stated, fails: the string `abcd` does not consist of exactly 3 decimal digits, nor
`12` of exactly 7, yet `areaCodeFormat` and `phoneNumberFormat` return `true` for them. -/
theorem digitCheck_string_counterexample :
    areaCodeFormat (.str "abcd") = true ∧ matchesDigits 3 "abcd" = false ∧
    phoneNumberFormat (.str "12") = true ∧ matchesDigits 7 "12" = false := by
  refine ⟨rfl, by decide, rfl, by decide⟩

/-- C16, amended: for every input that is a number, `areaCodeFormat` returns `true` if and only
if the text of the input consists of exactly 3 decimal digits, and `phoneNumberFormat` if and
only if it consists of exactly 7; for a non-negative integer `n` this means `100 ≤ n ≤ 999` and
`1,000,000 ≤ n ≤ 9,999,999`, and both return `false` for every other number (a negative
integer, a number with a fractional part, `NaN`, an infinity).  For every input that is not a
number, strings included, both return `true`. -/
theorem digitCheck_numbers_only (n : Nat) (x : OtherNumber) (v : JsVal) :
    (v.isNumber = true →
      (areaCodeFormat v = true ↔ matchesDigits 3 v.toStr = true) ∧
      (phoneNumberFormat v = true ↔ matchesDigits 7 v.toStr = true)) ∧
    (areaCodeFormat (.num n) = true ↔ 100 ≤ n ∧ n ≤ 999) ∧
    (phoneNumberFormat (.num n) = true ↔ 1000000 ≤ n ∧ n ≤ 9999999) ∧
    areaCodeFormat (.num (Int.negSucc n)) = false ∧
    phoneNumberFormat (.num (Int.negSucc n)) = false ∧
    areaCodeFormat (.numOther x) = false ∧
    phoneNumberFormat (.numOther x) = false ∧
    (v.isNumber = false → areaCodeFormat v = true ∧ phoneNumberFormat v = true) := by
  have hother : ∀ num, matchesDigits num x.text = false := by
    intro num
    unfold matchesDigits
    rw [x.notDigits, Bool.and_false]
  refine ⟨?_, ?_, ?_, matchesDigits_negSucc 3 n, matchesDigits_negSucc 7 n, hother 3,
    hother 7, ?_⟩
  · intro hv
    simp [areaCodeFormat, phoneNumberFormat, digitCheck, hv]
  · show matchesDigits (2 + 1) (toString (Int.ofNat n)) = true ↔ _
    rw [matchesDigits_nat]
    norm_num
    omega
  · show matchesDigits (6 + 1) (toString (Int.ofNat n)) = true ↔ _
    rw [matchesDigits_nat]
    norm_num
    omega
  · intro hv
    simp [areaCodeFormat, phoneNumberFormat, digitCheck, hv]

theorem digitCheck_numbers_only_witness :
    (areaCodeFormat (.num 555) = true ↔ 100 ≤ 555 ∧ 555 ≤ 999) ∧
    areaCodeFormat (.num 555) = true ∧
    phoneNumberFormat (.num 5551234) = true ∧
    areaCodeFormat (.num 5551234) = false ∧
    areaCodeFormat (.numOther twelveAndAHalf) = false ∧
    areaCodeFormat (.numOther notANumber) = false ∧
    areaCodeFormat (.str "abcd") = true :=
  ⟨(digitCheck_numbers_only 555 twelveAndAHalf (.str "abcd")).2.1, by rfl, by rfl, by rfl,
    by rfl, by rfl, by rfl⟩

/-! ### Size limits -/

theorem checkSize_cases (fileInfo : FileInfo) (constraints : FieldConstraints) :
    (fileInfo.size = 0 ∧ checkSize fileInfo constraints =
      [makeErrorObj (.str fileInfo.filetype) (.str "invalidSizeSmall") (.num 0)]) ∨
    (0 < fileInfo.size ∧
      (divideDoubles fileInfo.size 1000000).greaterThan constraints.maxSize.value = true ∧
      checkSize fileInfo constraints =
        [makeErrorObj (.str fileInfo.filetype) (.str "invalidSizeLarge")
          constraints.maxSize.toVal]) ∨
    (0 < fileInfo.size ∧
      (divideDoubles fileInfo.size 1000000).greaterThan constraints.maxSize.value = false ∧
      checkSize fileInfo constraints = []) := by
  unfold checkSize
  by_cases h0 : fileInfo.size = 0
  · exact Or.inl ⟨h0, by simp [h0]⟩
  · cases hl : (divideDoubles fileInfo.size 1000000).greaterThan constraints.maxSize.value with
    | true => exact Or.inr (Or.inl ⟨by omega, rfl, by simp [h0, hl]⟩)
    | false => exact Or.inr (Or.inr ⟨by omega, rfl, by simp [h0, hl]⟩)

theorem checkExtensionAndMime_types (regexMatch : String → String → Option Bool)
    (upload : Upload) (fileInfo : FileInfo) (constraints : FieldConstraints) (regex : String)
    (pre : List ErrorObj)
    (h : checkExtensionAndMime regexMatch upload fileInfo constraints regex = some pre) :
    ∀ e ∈ pre, e.errorType = .str "invalidExtension" ∨ e.errorType = .str "invalidMime" := by
  intro e he
  rcases checkExtensionAndMime_shape _ _ _ _ _ _ h with hp | hp | ⟨hp, _⟩
  · rw [hp] at he; simp at he
  · rw [hp] at he
    rw [List.mem_singleton.1 he]
    exact Or.inl rfl
  · rw [hp] at he
    rw [List.mem_singleton.1 he]
    exact Or.inr rfl

theorem validateFile_size_records (regexMatch : String → String → Option Bool) (now : Nat)
    (upload : Upload) (first : MulterFile) (rest : List MulterFile)
    (validationConstraints : List (String × FieldConstraints)) (fileName uploadField : String)
    (constraints fieldConstraints : FieldConstraints)
    (hfiles : upload.files = first :: rest)
    (hkeys : validationConstraints.head? = some (uploadField, fieldConstraints))
    (hlookup : validationConstraints.lookup fileName = some constraints)
    (errObjs : List ErrorObj)
    (h : validateFile regexMatch now (some upload) validationConstraints fileName =
      some errObjs) :
    ∃ pre sizeRecords, errObjs = pre ++ sizeRecords ∧
      (∀ e ∈ pre, e.errorType = .str "invalidExtension" ∨ e.errorType = .str "invalidMime") ∧
      ((first.size = 0 ∧ sizeRecords =
          [makeErrorObj (.str uploadField) (.str "invalidSizeSmall") (.num 0)]) ∨
        (0 < first.size ∧
          (divideDoubles first.size 1000000).greaterThan constraints.maxSize.value = true ∧
          sizeRecords =
            [makeErrorObj (.str uploadField) (.str "invalidSizeLarge")
              constraints.maxSize.toVal]) ∨
        (0 < first.size ∧
          (divideDoubles first.size 1000000).greaterThan constraints.maxSize.value = false ∧
          sizeRecords = [])) := by
  obtain ⟨fileInfo, hft, hsz, _, hval⟩ := validateFile_some regexMatch now upload first rest
    validationConstraints fileName uploadField constraints fieldConstraints hfiles hkeys hlookup
  rw [hval] at h
  cases hc : checkExtensionAndMime regexMatch upload fileInfo constraints
      ("(^" ++ String.intercalate "$|^" constraints.validExtensions ++ "$)") with
  | none => rw [hc] at h; simp at h
  | some pre =>
    rw [hc] at h
    simp only [Option.some.injEq] at h
    have hcases := checkSize_cases fileInfo constraints
    rw [hft, hsz] at hcases
    exact ⟨pre, checkSize fileInfo constraints, h.symm,
      checkExtensionAndMime_types _ _ _ _ _ _ hc, hcases⟩

theorem errorType_str_ne (a b : String) (h : a ≠ b) : JsVal.str a ≠ JsVal.str b := by
  intro heq
  injection heq with heq
  exact h heq

/-- C14, as stated, fails: a file of `1099511627777000064` bytes exceeds a limit of
`1099511627777` megabytes by 64 bytes, yet the double nearest to its size in megabytes is the
limit itself, so the result holds no `invalidSizeLarge` record. -/
theorem validateFile_size_limit_counterexample :
    exabyteUpload.files.map (fun file => file.size) = [1099511627777000064] ∧
    exabyteConstraints.map (fun entry => entry.2.maxSize.value) =
      [NumberValue.finite 1099511627777 1] ∧
    1099511627777000064 > 1099511627777 * 1000000 ∧
    divideDoubles 1099511627777000064 1000000 = ⟨1099511627777 * 2 ^ 12, 0, 12⟩ ∧
    validateFile (fun _ _ => some true) 0 (some exabyteUpload) exabyteConstraints
      "archive" = some [] := by
  refine ⟨rfl, rfl, by decide, rfl, rfl⟩

/-- The same failure at an everyday size, for a limit that is not a whole number: the double
`0.3` is `5404319552844595 / 2 ^ 54`, a little less than three tenths, so a file of `300000`
bytes exceeds `0.3 * 1,000,000`; its size in megabytes is rounded to the same double `0.3`,
and the file is accepted. -/
theorem validateFile_fraction_limit_accepted :
    300000 * 2 ^ 54 > 5404319552844595 * 1000000 ∧
    divideDoubles 300000 1000000 = ⟨5404319552844595, 0, 54⟩ ∧
    validateFile (fun _ _ => some true) 0 (some thumbnailUpload) thumbnailConstraints
      "thumbnail" = some [] := by
  refine ⟨by decide, rfl, rfl⟩

/-- C14, amended: for an uploaded file of `s > 0` bytes on a field whose `maxSize` is the
number `M`, the result of `validateFile` contains an `invalidSizeLarge` record, carrying `M` as
the limit, if and only if the double nearest to `s / 1,000,000` is greater than `M`; when `M` is
a whole number of megabytes with `M * 1,000,000 < 2 ^ 53`, this is the case if and only if
`s > M * 1,000,000`, so a file of exactly `M * 1,000,000` bytes is accepted.  Such a result
contains no `invalidSizeSmall` record, and no result contains both `invalidSizeSmall` and
`invalidSizeLarge`.  On an upload for which the extension test is not run a result is
returned. -/
theorem validateFile_size_limit (regexMatch : String → String → Option Bool) (now : Nat)
    (upload : Upload) (first : MulterFile) (rest : List MulterFile)
    (validationConstraints : List (String × FieldConstraints)) (fileName uploadField : String)
    (constraints fieldConstraints : FieldConstraints)
    (hfiles : upload.files = first :: rest)
    (hkeys : validationConstraints.head? = some (uploadField, fieldConstraints))
    (hlookup : validationConstraints.lookup fileName = some constraints) :
    (upload.ext.truthy = false →
      ∃ errObjs, validateFile regexMatch now (some upload) validationConstraints fileName =
        some errObjs) ∧
    (∀ errObjs, validateFile regexMatch now (some upload) validationConstraints fileName =
        some errObjs → 0 < first.size →
      ((∃ e ∈ errObjs, e.errorType = .str "invalidSizeLarge") ↔
        (divideDoubles first.size 1000000).greaterThan constraints.maxSize.value = true) ∧
      (∀ M : Nat, constraints.maxSize = .int M → M * 1000000 < 2 ^ 53 →
        ((∃ e ∈ errObjs, e.errorType = .str "invalidSizeLarge") ↔
          first.size > M * 1000000) ∧
        (first.size = M * 1000000 →
          ∀ e ∈ errObjs, e.errorType ≠ .str "invalidSizeLarge")) ∧
      (∀ e ∈ errObjs, e.errorType = .str "invalidSizeLarge" →
        e = makeErrorObj (.str uploadField) (.str "invalidSizeLarge")
          constraints.maxSize.toVal) ∧
      (∀ e ∈ errObjs, e.errorType ≠ .str "invalidSizeSmall")) ∧
    (∀ errObjs, validateFile regexMatch now (some upload) validationConstraints fileName =
        some errObjs →
      ¬ ((∃ e ∈ errObjs, e.errorType = .str "invalidSizeSmall") ∧
        (∃ e ∈ errObjs, e.errorType = .str "invalidSizeLarge"))) := by
  have hpre : ∀ (pre : List ErrorObj) (t : String),
      (∀ e ∈ pre, e.errorType = .str "invalidExtension" ∨ e.errorType = .str "invalidMime") →
      t ≠ "invalidExtension" → t ≠ "invalidMime" → ∀ e ∈ pre, e.errorType ≠ .str t := by
    intro pre t hp h1 h2 e he heq
    rcases hp e he with h | h
    · rw [h] at heq; exact errorType_str_ne _ _ (Ne.symm h1) heq
    · rw [h] at heq; exact errorType_str_ne _ _ (Ne.symm h2) heq
  refine ⟨?_, ?_, ?_⟩
  · intro hext
    obtain ⟨fileInfo, _, _, _, hval⟩ := validateFile_some regexMatch now upload first rest
      validationConstraints fileName uploadField constraints fieldConstraints hfiles hkeys
      hlookup
    rw [hval]
    simp [checkExtensionAndMime, hext]
  · intro errObjs h hpos
    obtain ⟨pre, sizeRecords, herr, htypes, hsize⟩ := validateFile_size_records regexMatch now
      upload first rest validationConstraints fileName uploadField constraints fieldConstraints
      hfiles hkeys hlookup errObjs h
    have hnl := hpre pre "invalidSizeLarge" htypes (by decide) (by decide)
    have hns := hpre pre "invalidSizeSmall" htypes (by decide) (by decide)
    have hiff : (∃ e ∈ errObjs, e.errorType = .str "invalidSizeLarge") ↔
        (divideDoubles first.size 1000000).greaterThan constraints.maxSize.value = true := by
      subst herr
      rcases hsize with ⟨h0, _⟩ | ⟨_, hlarge, hrec⟩ | ⟨_, hsmall, hrec⟩
      · omega
      · subst hrec
        exact ⟨fun _ => hlarge, fun _ =>
          ⟨makeErrorObj (.str uploadField) (.str "invalidSizeLarge") constraints.maxSize.toVal,
            by simp, rfl⟩⟩
      · subst hrec
        simp only [List.append_nil]
        exact ⟨fun ⟨e, he, ht⟩ => absurd ht (hnl e he), fun hl => by rw [hsmall] at hl; cases hl⟩
    refine ⟨hiff, ?_, ?_, ?_⟩
    · intro M hM hbound
      have hwhole := greaterThan_whole first.size M hpos hbound
      have hval : constraints.maxSize.value = .finite M 1 := by rw [hM]; rfl
      rw [hval] at hiff
      have hiff2 : (∃ e ∈ errObjs, e.errorType = .str "invalidSizeLarge") ↔
          first.size > M * 1000000 := hiff.trans hwhole
      refine ⟨hiff2, fun heq e he ht => ?_⟩
      have := hiff2.1 ⟨e, he, ht⟩
      omega
    · subst herr
      rcases hsize with ⟨h0, _⟩ | ⟨_, _, hrec⟩ | ⟨_, _, hrec⟩
      · omega
      · subst hrec
        intro e he _
        rcases List.mem_append.1 he with hm | hm
        · exact absurd ‹e.errorType = _› (hnl e hm)
        · exact List.mem_singleton.1 hm
      · subst hrec
        simp only [List.append_nil]
        exact fun e he ht => absurd ht (hnl e he)
    · subst herr
      rcases hsize with ⟨h0, _⟩ | ⟨_, _, hrec⟩ | ⟨_, _, hrec⟩
      · omega
      · subst hrec
        intro e he
        rcases List.mem_append.1 he with hm | hm
        · exact hns e hm
        · rw [List.mem_singleton.1 hm]
          exact errorType_str_ne _ _ (by decide)
      · subst hrec
        simp only [List.append_nil]
        exact hns
  · intro errObjs h
    obtain ⟨pre, sizeRecords, herr, htypes, hsize⟩ := validateFile_size_records regexMatch now
      upload first rest validationConstraints fileName uploadField constraints fieldConstraints
      hfiles hkeys hlookup errObjs h
    have hnl := hpre pre "invalidSizeLarge" htypes (by decide) (by decide)
    have hns := hpre pre "invalidSizeSmall" htypes (by decide) (by decide)
    subst herr
    rintro ⟨⟨e1, he1, ht1⟩, ⟨e2, he2, ht2⟩⟩
    rcases hsize with ⟨_, hrec⟩ | ⟨_, _, hrec⟩ | ⟨_, _, hrec⟩
    · subst hrec
      rcases List.mem_append.1 he2 with hm | hm
      · exact hnl e2 hm ht2
      · rw [List.mem_singleton.1 hm] at ht2
        exact errorType_str_ne _ _ (by decide) ht2
    · subst hrec
      rcases List.mem_append.1 he1 with hm | hm
      · exact hns e1 hm ht1
      · rw [List.mem_singleton.1 hm] at ht1
        exact errorType_str_ne _ _ (by decide) ht1
    · subst hrec
      rw [List.append_nil] at he1
      exact hns e1 he1 ht1

theorem validateFile_size_limit_witness :
    (tenMegabyteUpload.ext.truthy = false →
      ∃ errObjs, validateFile (fun _ _ => some true) 0 (some tenMegabyteUpload)
        certificateConstraints "insuranceCertificate" = some errObjs) ∧
    validateFile (fun _ _ => some true) 0 (some tenMegabyteUpload)
        certificateConstraints "insuranceCertificate" = some [] ∧
    validateFile (fun _ _ => some true) 0 (some overTenMegabyteUpload)
        certificateConstraints "insuranceCertificate" =
      some [makeErrorObj (.str "insuranceCertificate") (.str "invalidSizeLarge") (.num 10)] :=
  ⟨(validateFile_size_limit (fun _ _ => some true) 0 tenMegabyteUpload
    { originalname := "scan.pdf", size := 10000000, mimetype := "application/pdf",
      encoding := "7bit", buffer := [] } []
    certificateConstraints "insuranceCertificate" "insuranceCertificate"
    { filetypecode := .str "inc", validExtensions := ["pdf", "doc", "docx", "rtf"],
      maxSize := .int 10, requiredFile := .bool true }
    { filetypecode := .str "inc", validExtensions := ["pdf", "doc", "docx", "rtf"],
      maxSize := .int 10, requiredFile := .bool true }
    rfl rfl rfl).1, by rfl, by rfl⟩

/-! ### File-field discovery -/

theorem filePairs_append (a b : List (String × JsVal)) :
    filePairs (a ++ b) = filePairs a ++ filePairs b := by
  simp [filePairs]

theorem checkForFilesKeys_cons_of_ne (key : String) (value : JsVal)
    (rest : List (String × JsVal)) (toCheck : List JsVal) (hk : key ≠ "allOf") :
    checkForFilesKeys ((key, value) :: rest) toCheck =
      if key = "properties" then
        match checkForFilesInSchema value toCheck with
        | some toCheck' => checkForFilesKeys rest toCheck'
        | none => none
      else
        match value.getNamed "type" with
        | none => none
        | some declared =>
          if declared.is "file" then checkForFilesKeys rest (toCheck ++ [.obj [(key, value)]])
          else if declared.is "object" then
            match checkForFilesInSchema value toCheck with
            | some toCheck' => checkForFilesKeys rest toCheck'
            | none => none
          else checkForFilesKeys rest toCheck := by
  cases value <;> simp [checkForFilesKeys, hk]

/-- One round of the loop over the keys of an object, for a key other than `allOf`, given
the statement for the value and for the keys that follow. -/
theorem checkForFilesKeys_step (key : String) (value : JsVal) (rest : List (String × JsVal))
    (toCheck r : List JsVal) (hk : key ≠ "allOf")
    (h : checkForFilesKeys ((key, value) :: rest) toCheck = some r)
    (hvalue : ∀ t', checkForFilesInSchema value toCheck = some t' →
      t' = toCheck ++ filePairs (fileFields value))
    (hrest : ∀ t', checkForFilesKeys rest t' = some r →
      r = t' ++ filePairs (fileFieldsOfKeys rest)) :
    r = toCheck ++ filePairs (fileFieldsOfKeys ((key, value) :: rest)) := by
  have hdef := checkForFilesKeys_cons_of_ne key value rest toCheck hk
  have hspec : fileFieldsOfKeys ((key, value) :: rest) =
      if key = "properties" then fileFields value ++ fileFieldsOfKeys rest
      else if declaredTypeIs value "file" then (key, value) :: fileFieldsOfKeys rest
      else if declaredTypeIs value "object" then fileFields value ++ fileFieldsOfKeys rest
      else fileFieldsOfKeys rest := by
    cases value <;> simp [fileFieldsOfKeys, hk]
  rw [hdef] at h
  rw [hspec]
  by_cases hp : key = "properties"
  · simp only [hp, if_true] at h ⊢
    cases hS : checkForFilesInSchema value toCheck with
    | none => rw [hS] at h; simp at h
    | some t' =>
      rw [hS] at h
      rw [hrest t' h, hvalue t' hS, filePairs_append, List.append_assoc]
  · simp only [hp, if_false] at h ⊢
    cases hT : value.getNamed "type" with
    | none => rw [hT] at h; simp at h
    | some declared =>
      rw [hT] at h
      simp only [declaredTypeIs, hT] at h ⊢
      cases hf : declared.is "file" with
      | true =>
        simp only [hf, if_true] at h ⊢
        rw [hrest _ h]
        simp [filePairs]
      | false =>
        simp only [hf, Bool.false_eq_true, if_false] at h ⊢
        cases ho : declared.is "object" with
        | true =>
          simp only [ho, if_true] at h ⊢
          cases hS : checkForFilesInSchema value toCheck with
          | none => rw [hS] at h; simp at h
          | some t' =>
            rw [hS] at h
            rw [hrest t' h, hvalue t' hS, filePairs_append, List.append_assoc]
        | false =>
          simp only [ho, Bool.false_eq_true, if_false] at h ⊢
          rw [hrest toCheck h]

/-- One round of the loop over the indices of an array. -/
theorem checkForFilesItems_step (i : Nat) (value : JsVal) (rest : List JsVal)
    (toCheck r : List JsVal)
    (h : checkForFilesItems i (value :: rest) toCheck = some r)
    (hvalue : ∀ t', checkForFilesInSchema value toCheck = some t' →
      t' = toCheck ++ filePairs (fileFields value))
    (hrest : ∀ t', checkForFilesItems (i + 1) rest t' = some r →
      r = t' ++ filePairs (fileFieldsOfItems (i + 1) rest)) :
    r = toCheck ++ filePairs (fileFieldsOfItems i (value :: rest)) := by
  simp only [checkForFilesItems] at h
  simp only [fileFieldsOfItems]
  cases hT : value.getNamed "type" with
  | none => rw [hT] at h; simp at h
  | some declared =>
    rw [hT] at h
    simp only [declaredTypeIs, hT] at h ⊢
    cases hf : declared.is "file" with
    | true =>
      simp only [hf, if_true] at h ⊢
      rw [hrest _ h]
      simp [filePairs]
    | false =>
      simp only [hf, Bool.false_eq_true, if_false] at h ⊢
      cases ho : declared.is "object" with
      | true =>
        simp only [ho, if_true] at h ⊢
        cases hS : checkForFilesInSchema value toCheck with
        | none => rw [hS] at h; simp at h
        | some t' =>
          rw [hS] at h
          rw [hrest t' h, hvalue t' hS, filePairs_append, List.append_assoc]
      | false =>
        simp only [ho, Bool.false_eq_true, if_false] at h ⊢
        rw [hrest toCheck h]

mutual
theorem checkForFilesInSchema_eq (schema : JsVal) (toCheck r : List JsVal)
    (h : checkForFilesInSchema schema toCheck = some r) :
    r = toCheck ++ filePairs (fileFields schema) :=
  match schema, h with
  | .obj kvs, h => by
    simp only [checkForFilesInSchema] at h
    simp only [fileFields]
    exact checkForFilesKeys_eq kvs toCheck r h
  | .arr xs, h => by
    simp only [checkForFilesInSchema] at h
    simp only [fileFields]
    exact checkForFilesItems_eq 0 xs toCheck r h
  | .str _, h => by
    simp only [checkForFilesInSchema, Option.some.injEq] at h
    simp [fileFields, filePairs, h]
  | .bool _, h => by
    simp only [checkForFilesInSchema, Option.some.injEq] at h
    simp [fileFields, filePairs, h]
  | .num _, h => by
    simp only [checkForFilesInSchema, Option.some.injEq] at h
    simp [fileFields, filePairs, h]
  | .numOther _, h => by
    simp only [checkForFilesInSchema, Option.some.injEq] at h
    simp [fileFields, filePairs, h]
  | .undefined, h => by simp [checkForFilesInSchema] at h
  | .null, h => by simp [checkForFilesInSchema] at h
termination_by structural schema
theorem checkForFilesKeys_eq (kvs : List (String × JsVal)) (toCheck r : List JsVal)
    (h : checkForFilesKeys kvs toCheck = some r) :
    r = toCheck ++ filePairs (fileFieldsOfKeys kvs) :=
  match kvs, h with
  | [], h => by
    simp only [checkForFilesKeys, Option.some.injEq] at h
    simp [fileFieldsOfKeys, filePairs, h]
  | (key, .arr schs) :: rest, h => by
    by_cases hk : key = "allOf"
    · subst hk
      simp only [checkForFilesKeys, if_true] at h
      simp only [fileFieldsOfKeys, if_true]
      cases hE : checkForFilesEach schs toCheck with
      | none => rw [hE] at h; simp at h
      | some t' =>
        rw [hE] at h
        have h1 := checkForFilesEach_eq schs toCheck t' hE
        have h2 := checkForFilesKeys_eq rest t' r h
        rw [h2, h1, filePairs_append, List.append_assoc]
    · exact checkForFilesKeys_step key (.arr schs) rest toCheck r hk h
        (fun t' ht => checkForFilesInSchema_eq (.arr schs) toCheck t' ht)
        (fun t' ht => checkForFilesKeys_eq rest t' r ht)
  | (key, .obj kvs') :: rest, h => by
    by_cases hk : key = "allOf"
    · subst hk
      simp [checkForFilesKeys] at h
    · exact checkForFilesKeys_step key (.obj kvs') rest toCheck r hk h
        (fun t' ht => checkForFilesInSchema_eq (.obj kvs') toCheck t' ht)
        (fun t' ht => checkForFilesKeys_eq rest t' r ht)
  | (key, .str s) :: rest, h => by
    by_cases hk : key = "allOf"
    · subst hk
      simp [checkForFilesKeys] at h
    · exact checkForFilesKeys_step key (.str s) rest toCheck r hk h
        (fun t' ht => checkForFilesInSchema_eq (.str s) toCheck t' ht)
        (fun t' ht => checkForFilesKeys_eq rest t' r ht)
  | (key, .num n) :: rest, h => by
    by_cases hk : key = "allOf"
    · subst hk
      simp [checkForFilesKeys] at h
    · exact checkForFilesKeys_step key (.num n) rest toCheck r hk h
        (fun t' ht => checkForFilesInSchema_eq (.num n) toCheck t' ht)
        (fun t' ht => checkForFilesKeys_eq rest t' r ht)
  | (key, .numOther n) :: rest, h => by
    by_cases hk : key = "allOf"
    · subst hk
      simp [checkForFilesKeys] at h
    · exact checkForFilesKeys_step key (.numOther n) rest toCheck r hk h
        (fun t' ht => checkForFilesInSchema_eq (.numOther n) toCheck t' ht)
        (fun t' ht => checkForFilesKeys_eq rest t' r ht)
  | (key, .bool b) :: rest, h => by
    by_cases hk : key = "allOf"
    · subst hk
      simp [checkForFilesKeys] at h
    · exact checkForFilesKeys_step key (.bool b) rest toCheck r hk h
        (fun t' ht => checkForFilesInSchema_eq (.bool b) toCheck t' ht)
        (fun t' ht => checkForFilesKeys_eq rest t' r ht)
  | (key, .null) :: rest, h => by
    by_cases hk : key = "allOf"
    · subst hk
      simp [checkForFilesKeys] at h
    · exact checkForFilesKeys_step key .null rest toCheck r hk h
        (fun t' ht => checkForFilesInSchema_eq .null toCheck t' ht)
        (fun t' ht => checkForFilesKeys_eq rest t' r ht)
  | (key, .undefined) :: rest, h => by
    by_cases hk : key = "allOf"
    · subst hk
      simp [checkForFilesKeys] at h
    · exact checkForFilesKeys_step key .undefined rest toCheck r hk h
        (fun t' ht => checkForFilesInSchema_eq .undefined toCheck t' ht)
        (fun t' ht => checkForFilesKeys_eq rest t' r ht)
termination_by structural kvs
theorem checkForFilesItems_eq (i : Nat) (xs : List JsVal) (toCheck r : List JsVal)
    (h : checkForFilesItems i xs toCheck = some r) :
    r = toCheck ++ filePairs (fileFieldsOfItems i xs) :=
  match xs, h with
  | [], h => by
    simp only [checkForFilesItems, Option.some.injEq] at h
    simp [fileFieldsOfItems, filePairs, h]
  | value :: rest, h =>
    checkForFilesItems_step i value rest toCheck r h
      (fun t' ht => checkForFilesInSchema_eq value toCheck t' ht)
      (fun t' ht => checkForFilesItems_eq (i + 1) rest t' r ht)
termination_by structural xs
theorem checkForFilesEach_eq (schs : List JsVal) (toCheck r : List JsVal)
    (h : checkForFilesEach schs toCheck = some r) :
    r = toCheck ++ filePairs (fileFieldsOfBranches schs) :=
  match schs, h with
  | [], h => by
    simp only [checkForFilesEach, Option.some.injEq] at h
    simp [fileFieldsOfBranches, filePairs, h]
  | sch :: rest, h => by
    simp only [checkForFilesEach] at h
    simp only [fileFieldsOfBranches]
    cases hS : checkForFilesInSchema sch toCheck with
    | none => rw [hS] at h; simp at h
    | some t' =>
      rw [hS] at h
      have h1 := checkForFilesInSchema_eq sch toCheck t' hS
      have h2 := checkForFilesEach_eq rest t' r h
      rw [h2, h1, filePairs_append, List.append_assoc]
termination_by structural schs
end

theorem getNamed_of_isSchemaDocument (value : JsVal) (k : String)
    (h : isSchemaDocument value = true) : ∃ d, value.getNamed k = some d := by
  cases value <;> simp [isSchemaDocument, JsVal.getNamed] at h ⊢

theorem checkForFilesKeys_step_total (key : String) (value : JsVal)
    (rest : List (String × JsVal)) (toCheck : List JsVal) (hk : key ≠ "allOf")
    (hv : isSchemaDocument value = true)
    (hvalue : ∀ t, ∃ r, checkForFilesInSchema value t = some r)
    (hrest : ∀ t, ∃ r, checkForFilesKeys rest t = some r) :
    ∃ r, checkForFilesKeys ((key, value) :: rest) toCheck = some r := by
  rw [checkForFilesKeys_cons_of_ne key value rest toCheck hk]
  obtain ⟨t', ht'⟩ := hvalue toCheck
  obtain ⟨d, hd⟩ := getNamed_of_isSchemaDocument value "type" hv
  by_cases hp : key = "properties"
  · simp only [hp, if_true, ht']
    exact hrest t'
  · simp only [hp, if_false, hd, ht']
    split
    · exact hrest _
    · split
      · exact hrest t'
      · exact hrest toCheck

theorem checkForFilesItems_step_total (i : Nat) (value : JsVal) (rest : List JsVal)
    (toCheck : List JsVal) (hv : isSchemaDocument value = true)
    (hvalue : ∀ t, ∃ r, checkForFilesInSchema value t = some r)
    (hrest : ∀ t, ∃ r, checkForFilesItems (i + 1) rest t = some r) :
    ∃ r, checkForFilesItems i (value :: rest) toCheck = some r := by
  obtain ⟨t', ht'⟩ := hvalue toCheck
  obtain ⟨d, hd⟩ := getNamed_of_isSchemaDocument value "type" hv
  simp only [checkForFilesItems, hd, ht']
  split
  · exact hrest _
  · split
    · exact hrest t'
    · exact hrest toCheck

mutual
theorem checkForFilesInSchema_total (schema : JsVal) (h : isSchemaDocument schema = true)
    (toCheck : List JsVal) : ∃ r, checkForFilesInSchema schema toCheck = some r :=
  match schema, h with
  | .obj kvs, h => by
    simp only [isSchemaDocument] at h
    simp only [checkForFilesInSchema]
    exact checkForFilesKeys_total kvs h toCheck
  | .arr xs, h => by
    simp only [isSchemaDocument] at h
    simp only [checkForFilesInSchema]
    exact checkForFilesItems_total 0 xs h toCheck
  | .str _, _ => ⟨toCheck, by simp [checkForFilesInSchema]⟩
  | .bool _, _ => ⟨toCheck, by simp [checkForFilesInSchema]⟩
  | .num _, _ => ⟨toCheck, by simp [checkForFilesInSchema]⟩
  | .numOther _, _ => ⟨toCheck, by simp [checkForFilesInSchema]⟩
  | .undefined, h => by simp [isSchemaDocument] at h
  | .null, h => by simp [isSchemaDocument] at h
termination_by structural schema
theorem checkForFilesKeys_total (kvs : List (String × JsVal))
    (h : allEntriesSchemaDocuments kvs = true) (toCheck : List JsVal) :
    ∃ r, checkForFilesKeys kvs toCheck = some r :=
  match kvs, h with
  | [], _ => ⟨toCheck, by simp [checkForFilesKeys]⟩
  | (key, .arr schs) :: rest, h => by
    by_cases hk : key = "allOf"
    · subst hk
      simp only [allEntriesSchemaDocuments, if_true, Bool.and_eq_true] at h
      obtain ⟨t', ht'⟩ := checkForFilesEach_total schs h.1 toCheck
      obtain ⟨r, hr⟩ := checkForFilesKeys_total rest h.2 t'
      exact ⟨r, by simp [checkForFilesKeys, ht', hr]⟩
    · simp only [allEntriesSchemaDocuments, hk, if_false, Bool.and_eq_true] at h
      exact checkForFilesKeys_step_total key (.arr schs) rest toCheck hk h.1
        (fun t => checkForFilesInSchema_total (.arr schs) h.1 t)
        (fun t => checkForFilesKeys_total rest h.2 t)
  | (key, .obj kvs') :: rest, h => by
    by_cases hk : key = "allOf"
    · subst hk
      simp [allEntriesSchemaDocuments] at h
    · simp only [allEntriesSchemaDocuments, hk, if_false, Bool.and_eq_true] at h
      exact checkForFilesKeys_step_total key (.obj kvs') rest toCheck hk h.1
        (fun t => checkForFilesInSchema_total (.obj kvs') h.1 t)
        (fun t => checkForFilesKeys_total rest h.2 t)
  | (key, .str s) :: rest, h => by
    by_cases hk : key = "allOf"
    · subst hk
      simp [allEntriesSchemaDocuments] at h
    · simp only [allEntriesSchemaDocuments, hk, if_false, Bool.and_eq_true] at h
      exact checkForFilesKeys_step_total key (.str s) rest toCheck hk h.1
        (fun t => checkForFilesInSchema_total (.str s) h.1 t)
        (fun t => checkForFilesKeys_total rest h.2 t)
  | (key, .num n) :: rest, h => by
    by_cases hk : key = "allOf"
    · subst hk
      simp [allEntriesSchemaDocuments] at h
    · simp only [allEntriesSchemaDocuments, hk, if_false, Bool.and_eq_true] at h
      exact checkForFilesKeys_step_total key (.num n) rest toCheck hk h.1
        (fun t => checkForFilesInSchema_total (.num n) h.1 t)
        (fun t => checkForFilesKeys_total rest h.2 t)
  | (key, .numOther n) :: rest, h => by
    by_cases hk : key = "allOf"
    · subst hk
      simp [allEntriesSchemaDocuments] at h
    · simp only [allEntriesSchemaDocuments, hk, if_false, Bool.and_eq_true] at h
      exact checkForFilesKeys_step_total key (.numOther n) rest toCheck hk h.1
        (fun t => checkForFilesInSchema_total (.numOther n) h.1 t)
        (fun t => checkForFilesKeys_total rest h.2 t)
  | (key, .bool b) :: rest, h => by
    by_cases hk : key = "allOf"
    · subst hk
      simp [allEntriesSchemaDocuments] at h
    · simp only [allEntriesSchemaDocuments, hk, if_false, Bool.and_eq_true] at h
      exact checkForFilesKeys_step_total key (.bool b) rest toCheck hk h.1
        (fun t => checkForFilesInSchema_total (.bool b) h.1 t)
        (fun t => checkForFilesKeys_total rest h.2 t)
  | (key, .null) :: rest, h => by
    by_cases hk : key = "allOf"
    · subst hk
      simp [allEntriesSchemaDocuments] at h
    · simp [allEntriesSchemaDocuments, hk, isSchemaDocument] at h
  | (key, .undefined) :: rest, h => by
    by_cases hk : key = "allOf"
    · subst hk
      simp [allEntriesSchemaDocuments] at h
    · simp [allEntriesSchemaDocuments, hk, isSchemaDocument] at h
termination_by structural kvs
theorem checkForFilesItems_total (i : Nat) (xs : List JsVal)
    (h : allSchemaDocuments xs = true) (toCheck : List JsVal) :
    ∃ r, checkForFilesItems i xs toCheck = some r :=
  match xs, h with
  | [], _ => ⟨toCheck, by simp [checkForFilesItems]⟩
  | value :: rest, h => by
    simp only [allSchemaDocuments, Bool.and_eq_true] at h
    exact checkForFilesItems_step_total i value rest toCheck h.1
      (fun t => checkForFilesInSchema_total value h.1 t)
      (fun t => checkForFilesItems_total (i + 1) rest h.2 t)
termination_by structural xs
theorem checkForFilesEach_total (schs : List JsVal)
    (h : allSchemaDocuments schs = true) (toCheck : List JsVal) :
    ∃ r, checkForFilesEach schs toCheck = some r :=
  match schs, h with
  | [], _ => ⟨toCheck, by simp [checkForFilesEach]⟩
  | sch :: rest, h => by
    simp only [allSchemaDocuments, Bool.and_eq_true] at h
    obtain ⟨t', ht'⟩ := checkForFilesInSchema_total sch h.1 toCheck
    obtain ⟨r, hr⟩ := checkForFilesEach_total rest h.2 t'
    exact ⟨r, by simp [checkForFilesEach, ht', hr]⟩
termination_by structural schs
end

theorem fileFieldsOfKeys_cons_of_ne (key : String) (value : JsVal)
    (rest : List (String × JsVal)) (hk : key ≠ "allOf") :
    fileFieldsOfKeys ((key, value) :: rest) =
      if key = "properties" then fileFields value ++ fileFieldsOfKeys rest
      else if declaredTypeIs value "file" then (key, value) :: fileFieldsOfKeys rest
      else if declaredTypeIs value "object" then fileFields value ++ fileFieldsOfKeys rest
      else fileFieldsOfKeys rest := by
  cases value <;> simp [fileFieldsOfKeys, hk]

theorem fileFieldsOfKeys_cons_allOf (value : JsVal) (rest : List (String × JsVal)) :
    fileFieldsOfKeys (("allOf", value) :: rest) =
      match value with
      | .arr schs => fileFieldsOfBranches schs ++ fileFieldsOfKeys rest
      | _ => fileFieldsOfKeys rest := by
  cases value <;> simp [fileFieldsOfKeys]

theorem declaredType_file_not_object (value : JsVal)
    (h : declaredTypeIs value "file" = true) : declaredTypeIs value "object" = false := by
  unfold declaredTypeIs at h ⊢
  cases hT : value.getNamed "type" with
  | none => rfl
  | some d =>
    rw [hT] at h
    simp only at h ⊢
    cases d <;> simp [JsVal.is] at h ⊢
    subst h
    decide

/-! #### From the reached fields to the list -/

theorem mem_fileFieldsOfKeys_cons (e : String × JsVal) (rest : List (String × JsVal))
    (x : String × JsVal) (hx : x ∈ fileFieldsOfKeys rest) :
    x ∈ fileFieldsOfKeys (e :: rest) := by
  obtain ⟨k', v'⟩ := e
  by_cases hk' : k' = "allOf"
  · subst hk'
    rw [fileFieldsOfKeys_cons_allOf]
    cases v' <;> simp [hx]
  · rw [fileFieldsOfKeys_cons_of_ne k' v' rest hk']
    split
    · simp [hx]
    · split
      · simp [hx]
      · split
        · simp [hx]
        · exact hx

theorem mem_fileFieldsOfKeys_of_file (kvs : List (String × JsVal)) (key : String)
    (value : JsVal) (hmem : (key, value) ∈ kvs) (hk : key ≠ "allOf")
    (hp : key ≠ "properties") (hfile : declaredTypeIs value "file" = true) :
    (key, value) ∈ fileFieldsOfKeys kvs := by
  induction kvs with
  | nil => simp at hmem
  | cons e rest ih =>
    rcases List.mem_cons.1 hmem with heq | hin
    · subst heq
      rw [fileFieldsOfKeys_cons_of_ne key value rest hk]
      simp [hp, hfile]
    · exact mem_fileFieldsOfKeys_cons _ _ _ (ih hin)

theorem mem_fileFieldsOfBranches (schs : List JsVal) (branch : JsVal)
    (x : String × JsVal) (hb : branch ∈ schs) (hx : x ∈ fileFields branch) :
    x ∈ fileFieldsOfBranches schs := by
  induction schs with
  | nil => simp at hb
  | cons sch rest ih =>
    simp only [fileFieldsOfBranches, List.mem_append]
    rcases List.mem_cons.1 hb with heq | hin
    · subst heq
      exact Or.inl hx
    · exact Or.inr (ih hin)

theorem mem_fileFieldsOfKeys_of_allOf (kvs : List (String × JsVal)) (schs : List JsVal)
    (x : String × JsVal) (hmem : ("allOf", JsVal.arr schs) ∈ kvs)
    (hx : x ∈ fileFieldsOfBranches schs) : x ∈ fileFieldsOfKeys kvs := by
  induction kvs with
  | nil => simp at hmem
  | cons e rest ih =>
    rcases List.mem_cons.1 hmem with heq | hin
    · subst heq
      rw [fileFieldsOfKeys_cons_allOf]
      simp [hx]
    · exact mem_fileFieldsOfKeys_cons _ _ _ (ih hin)

theorem mem_fileFieldsOfKeys_of_properties (kvs : List (String × JsVal)) (props : JsVal)
    (x : String × JsVal) (hmem : ("properties", props) ∈ kvs)
    (hx : x ∈ fileFields props) : x ∈ fileFieldsOfKeys kvs := by
  induction kvs with
  | nil => simp at hmem
  | cons e rest ih =>
    rcases List.mem_cons.1 hmem with heq | hin
    · subst heq
      rw [fileFieldsOfKeys_cons_of_ne "properties" props rest (by decide)]
      simp [hx]
    · exact mem_fileFieldsOfKeys_cons _ _ _ (ih hin)

theorem declaredType_object_not_file (value : JsVal)
    (h : declaredTypeIs value "object" = true) : declaredTypeIs value "file" = false := by
  cases hf : declaredTypeIs value "file" with
  | false => rfl
  | true =>
    have := declaredType_file_not_object value hf
    rw [h] at this
    exact absurd this (by simp)

theorem mem_fileFieldsOfKeys_of_object (kvs : List (String × JsVal)) (key : String)
    (value : JsVal) (x : String × JsVal) (hmem : (key, value) ∈ kvs) (hk : key ≠ "allOf")
    (hp : key ≠ "properties") (hobj : declaredTypeIs value "object" = true)
    (hx : x ∈ fileFields value) : x ∈ fileFieldsOfKeys kvs := by
  induction kvs with
  | nil => simp at hmem
  | cons e rest ih =>
    rcases List.mem_cons.1 hmem with heq | hin
    · subst heq
      rw [fileFieldsOfKeys_cons_of_ne key value rest hk]
      simp [hp, hobj, declaredType_object_not_file value hobj, hx]
    · exact mem_fileFieldsOfKeys_cons _ _ _ (ih hin)

theorem mem_fileFieldsOfItems_cons (i : Nat) (value : JsVal) (rest : List JsVal)
    (x : String × JsVal) (hx : x ∈ fileFieldsOfItems (i + 1) rest) :
    x ∈ fileFieldsOfItems i (value :: rest) := by
  simp only [fileFieldsOfItems]
  split
  · simp [hx]
  · split
    · simp [hx]
    · exact hx

theorem mem_fileFieldsOfItems_of_file (i : Nat) (xs : List JsVal) (key : String)
    (value : JsVal) (hmem : (key, value) ∈ entriesFrom i xs)
    (hfile : declaredTypeIs value "file" = true) :
    (key, value) ∈ fileFieldsOfItems i xs := by
  induction xs generalizing i with
  | nil => simp [entriesFrom] at hmem
  | cons v rest ih =>
    simp only [entriesFrom] at hmem
    rcases List.mem_cons.1 hmem with heq | hin
    · injection heq with h1 h2
      subst h1; subst h2
      simp [fileFieldsOfItems, hfile]
    · exact mem_fileFieldsOfItems_cons _ _ _ _ (ih (i + 1) hin)

theorem mem_fileFieldsOfItems_of_object (i : Nat) (xs : List JsVal) (key : String)
    (value : JsVal) (x : String × JsVal) (hmem : (key, value) ∈ entriesFrom i xs)
    (hobj : declaredTypeIs value "object" = true) (hx : x ∈ fileFields value) :
    x ∈ fileFieldsOfItems i xs := by
  induction xs generalizing i with
  | nil => simp [entriesFrom] at hmem
  | cons v rest ih =>
    simp only [entriesFrom] at hmem
    rcases List.mem_cons.1 hmem with heq | hin
    · injection heq with h1 h2
      subst h1; subst h2
      simp [fileFieldsOfItems, hobj, declaredType_object_not_file value hobj, hx]
    · exact mem_fileFieldsOfItems_cons _ _ _ _ (ih (i + 1) hin)

theorem fileFields_of_reached (schema t : JsVal) (h : ReachedFrom schema t)
    (x : String × JsVal) (hx : x ∈ fileFields t) : x ∈ fileFields schema := by
  induction h with
  | self _ => exact hx
  | allOf kvs schs branch t hmem hb _ ih =>
    simp only [fileFields]
    exact mem_fileFieldsOfKeys_of_allOf kvs schs x hmem
      (mem_fileFieldsOfBranches schs branch x hb (ih hx))
  | properties kvs props t hmem _ ih =>
    simp only [fileFields]
    exact mem_fileFieldsOfKeys_of_properties kvs props x hmem (ih hx)
  | object schema key value t hmem hk hp hobj _ ih =>
    cases schema with
    | obj kvs =>
      simp only [fileFields]
      exact mem_fileFieldsOfKeys_of_object kvs key value x hmem hk hp hobj (ih hx)
    | arr xs =>
      simp only [fileFields]
      exact mem_fileFieldsOfItems_of_object 0 xs key value x hmem hobj (ih hx)
    | _ => simp [entriesOf] at hmem

theorem mem_fileFields_of_isFileFieldOf (schema : JsVal) (key : String) (value : JsVal)
    (h : IsFileFieldOf schema key value) : (key, value) ∈ fileFields schema := by
  obtain ⟨t, hreach, hmem, hk, hp, hfile⟩ := h
  apply fileFields_of_reached schema t hreach
  cases t with
  | obj kvs =>
    simp only [fileFields]
    exact mem_fileFieldsOfKeys_of_file kvs key value hmem hk hp hfile
  | arr xs =>
    simp only [fileFields]
    exact mem_fileFieldsOfItems_of_file 0 xs key value hmem hfile
  | _ => simp [entriesOf] at hmem

/-! #### From the list to the reached fields -/

theorem toString_nat_ne_keyword (i : Nat) :
    toString i ≠ "allOf" ∧ toString i ≠ "properties" := by
  have hall : (toString i).data.all Char.isDigit = true := toDigits_all_isDigit i
  constructor
  · intro h
    rw [h] at hall
    exact absurd hall (by decide)
  · intro h
    rw [h] at hall
    exact absurd hall (by decide)

theorem isFileFieldOf_direct (schema : JsVal) (key : String) (value : JsVal)
    (hmem : (key, value) ∈ entriesOf schema) (hk : key ≠ "allOf") (hp : key ≠ "properties")
    (hfile : declaredTypeIs value "file" = true) : IsFileFieldOf schema key value :=
  ⟨schema, ReachedFrom.self schema, hmem, hk, hp, hfile⟩

theorem isFileFieldOf_allOf (kvs : List (String × JsVal)) (schs : List JsVal)
    (branch : JsVal) (key : String) (value : JsVal)
    (hmem : ("allOf", JsVal.arr schs) ∈ kvs) (hb : branch ∈ schs)
    (h : IsFileFieldOf branch key value) : IsFileFieldOf (.obj kvs) key value := by
  obtain ⟨t, hreach, hrest⟩ := h
  exact ⟨t, ReachedFrom.allOf kvs schs branch t hmem hb hreach, hrest⟩

theorem isFileFieldOf_properties (kvs : List (String × JsVal)) (props : JsVal)
    (key : String) (value : JsVal) (hmem : ("properties", props) ∈ kvs)
    (h : IsFileFieldOf props key value) : IsFileFieldOf (.obj kvs) key value := by
  obtain ⟨t, hreach, hrest⟩ := h
  exact ⟨t, ReachedFrom.properties kvs props t hmem hreach, hrest⟩

theorem isFileFieldOf_object (schema : JsVal) (k : String) (v : JsVal) (key : String)
    (value : JsVal) (hmem : (k, v) ∈ entriesOf schema) (hk : k ≠ "allOf")
    (hp : k ≠ "properties") (hobj : declaredTypeIs v "object" = true)
    (h : IsFileFieldOf v key value) : IsFileFieldOf schema key value := by
  obtain ⟨t, hreach, hrest⟩ := h
  exact ⟨t, ReachedFrom.object schema k v t hmem hk hp hobj hreach, hrest⟩

theorem isFileFieldOf_keys_step (key : String) (value : JsVal)
    (rest kvs0 : List (String × JsVal)) (x : String × JsVal) (hk : key ≠ "allOf")
    (hin : (key, value) ∈ kvs0)
    (hx : x ∈ fileFieldsOfKeys ((key, value) :: rest))
    (hvalue : x ∈ fileFields value → IsFileFieldOf value x.1 x.2)
    (hrest : x ∈ fileFieldsOfKeys rest → IsFileFieldOf (.obj kvs0) x.1 x.2) :
    IsFileFieldOf (.obj kvs0) x.1 x.2 := by
  rw [fileFieldsOfKeys_cons_of_ne key value rest hk] at hx
  by_cases hp : key = "properties"
  · subst hp
    simp only [if_true, List.mem_append] at hx
    rcases hx with h | h
    · exact isFileFieldOf_properties kvs0 value x.1 x.2 hin (hvalue h)
    · exact hrest h
  · simp only [hp, if_false] at hx
    cases hf : declaredTypeIs value "file" with
    | true =>
      simp only [hf, if_true, List.mem_cons] at hx
      rcases hx with h | h
      · subst h
        exact isFileFieldOf_direct (.obj kvs0) key value hin hk hp hf
      · exact hrest h
    | false =>
      simp only [hf, Bool.false_eq_true, if_false] at hx
      cases ho : declaredTypeIs value "object" with
      | true =>
        simp only [ho, if_true, List.mem_append] at hx
        rcases hx with h | h
        · exact isFileFieldOf_object (.obj kvs0) key value x.1 x.2 hin hk hp ho (hvalue h)
        · exact hrest h
      | false =>
        simp only [ho, Bool.false_eq_true, if_false] at hx
        exact hrest hx

theorem isFileFieldOf_items_step (i : Nat) (value : JsVal) (rest : List JsVal)
    (schema : JsVal) (x : String × JsVal)
    (hin : (toString i, value) ∈ entriesOf schema)
    (hx : x ∈ fileFieldsOfItems i (value :: rest))
    (hvalue : x ∈ fileFields value → IsFileFieldOf value x.1 x.2)
    (hrest : x ∈ fileFieldsOfItems (i + 1) rest → IsFileFieldOf schema x.1 x.2) :
    IsFileFieldOf schema x.1 x.2 := by
  obtain ⟨hk, hp⟩ := toString_nat_ne_keyword i
  simp only [fileFieldsOfItems] at hx
  cases hf : declaredTypeIs value "file" with
  | true =>
    simp only [hf, if_true, List.mem_cons] at hx
    rcases hx with h | h
    · subst h
      exact isFileFieldOf_direct schema (toString i) value hin hk hp hf
    · exact hrest h
  | false =>
    simp only [hf, Bool.false_eq_true, if_false] at hx
    cases ho : declaredTypeIs value "object" with
    | true =>
      simp only [ho, if_true, List.mem_append] at hx
      rcases hx with h | h
      · exact isFileFieldOf_object schema (toString i) value x.1 x.2 hin hk hp ho (hvalue h)
      · exact hrest h
    | false =>
      simp only [ho, Bool.false_eq_true, if_false] at hx
      exact hrest hx

mutual
theorem isFileFieldOf_of_mem (schema : JsVal) (x : String × JsVal)
    (hx : x ∈ fileFields schema) : IsFileFieldOf schema x.1 x.2 :=
  match schema, hx with
  | .obj kvs, hx => by
    simp only [fileFields] at hx
    exact isFileFieldOf_of_mem_keys kvs x hx kvs (fun e he => he)
  | .arr xs, hx => by
    simp only [fileFields] at hx
    exact isFileFieldOf_of_mem_items 0 xs x hx (.arr xs) (fun e he => he)
  | .str _, hx => by simp [fileFields] at hx
  | .bool _, hx => by simp [fileFields] at hx
  | .num _, hx => by simp [fileFields] at hx
  | .numOther _, hx => by simp [fileFields] at hx
  | .undefined, hx => by simp [fileFields] at hx
  | .null, hx => by simp [fileFields] at hx
termination_by structural schema
theorem isFileFieldOf_of_mem_keys (kvs : List (String × JsVal)) (x : String × JsVal)
    (hx : x ∈ fileFieldsOfKeys kvs) (kvs0 : List (String × JsVal))
    (hsub : ∀ e ∈ kvs, e ∈ kvs0) : IsFileFieldOf (.obj kvs0) x.1 x.2 :=
  match kvs, hx, hsub with
  | [], hx, _ => by simp [fileFieldsOfKeys] at hx
  | (key, .arr schs) :: rest, hx, hsub => by
    have hin := hsub (key, .arr schs) (by simp)
    have hsub' : ∀ e ∈ rest, e ∈ kvs0 := fun e he => hsub e (by simp [he])
    by_cases hk : key = "allOf"
    · subst hk
      rw [fileFieldsOfKeys_cons_allOf] at hx
      simp only [List.mem_append] at hx
      rcases hx with h | h
      · obtain ⟨b, hb, hfield⟩ := isFileFieldOf_of_mem_branches schs x h
        exact isFileFieldOf_allOf kvs0 schs b x.1 x.2 hin hb hfield
      · exact isFileFieldOf_of_mem_keys rest x h kvs0 hsub'
    · exact isFileFieldOf_keys_step key (.arr schs) rest kvs0 x hk hin hx
        (fun h => isFileFieldOf_of_mem (.arr schs) x h)
        (fun h => isFileFieldOf_of_mem_keys rest x h kvs0 hsub')
  | (key, .obj kvs') :: rest, hx, hsub => by
    have hin := hsub (key, .obj kvs') (by simp)
    have hsub' : ∀ e ∈ rest, e ∈ kvs0 := fun e he => hsub e (by simp [he])
    by_cases hk : key = "allOf"
    · subst hk
      rw [fileFieldsOfKeys_cons_allOf] at hx
      exact isFileFieldOf_of_mem_keys rest x hx kvs0 hsub'
    · exact isFileFieldOf_keys_step key (.obj kvs') rest kvs0 x hk hin hx
        (fun h => isFileFieldOf_of_mem (.obj kvs') x h)
        (fun h => isFileFieldOf_of_mem_keys rest x h kvs0 hsub')
  | (key, .str s) :: rest, hx, hsub => by
    have hin := hsub (key, .str s) (by simp)
    have hsub' : ∀ e ∈ rest, e ∈ kvs0 := fun e he => hsub e (by simp [he])
    by_cases hk : key = "allOf"
    · subst hk
      rw [fileFieldsOfKeys_cons_allOf] at hx
      exact isFileFieldOf_of_mem_keys rest x hx kvs0 hsub'
    · exact isFileFieldOf_keys_step key (.str s) rest kvs0 x hk hin hx
        (fun h => isFileFieldOf_of_mem (.str s) x h)
        (fun h => isFileFieldOf_of_mem_keys rest x h kvs0 hsub')
  | (key, .num n) :: rest, hx, hsub => by
    have hin := hsub (key, .num n) (by simp)
    have hsub' : ∀ e ∈ rest, e ∈ kvs0 := fun e he => hsub e (by simp [he])
    by_cases hk : key = "allOf"
    · subst hk
      rw [fileFieldsOfKeys_cons_allOf] at hx
      exact isFileFieldOf_of_mem_keys rest x hx kvs0 hsub'
    · exact isFileFieldOf_keys_step key (.num n) rest kvs0 x hk hin hx
        (fun h => isFileFieldOf_of_mem (.num n) x h)
        (fun h => isFileFieldOf_of_mem_keys rest x h kvs0 hsub')
  | (key, .numOther n) :: rest, hx, hsub => by
    have hin := hsub (key, .numOther n) (by simp)
    have hsub' : ∀ e ∈ rest, e ∈ kvs0 := fun e he => hsub e (by simp [he])
    by_cases hk : key = "allOf"
    · subst hk
      rw [fileFieldsOfKeys_cons_allOf] at hx
      exact isFileFieldOf_of_mem_keys rest x hx kvs0 hsub'
    · exact isFileFieldOf_keys_step key (.numOther n) rest kvs0 x hk hin hx
        (fun h => isFileFieldOf_of_mem (.numOther n) x h)
        (fun h => isFileFieldOf_of_mem_keys rest x h kvs0 hsub')
  | (key, .bool b) :: rest, hx, hsub => by
    have hin := hsub (key, .bool b) (by simp)
    have hsub' : ∀ e ∈ rest, e ∈ kvs0 := fun e he => hsub e (by simp [he])
    by_cases hk : key = "allOf"
    · subst hk
      rw [fileFieldsOfKeys_cons_allOf] at hx
      exact isFileFieldOf_of_mem_keys rest x hx kvs0 hsub'
    · exact isFileFieldOf_keys_step key (.bool b) rest kvs0 x hk hin hx
        (fun h => isFileFieldOf_of_mem (.bool b) x h)
        (fun h => isFileFieldOf_of_mem_keys rest x h kvs0 hsub')
  | (key, .null) :: rest, hx, hsub => by
    have hin := hsub (key, .null) (by simp)
    have hsub' : ∀ e ∈ rest, e ∈ kvs0 := fun e he => hsub e (by simp [he])
    by_cases hk : key = "allOf"
    · subst hk
      rw [fileFieldsOfKeys_cons_allOf] at hx
      exact isFileFieldOf_of_mem_keys rest x hx kvs0 hsub'
    · exact isFileFieldOf_keys_step key .null rest kvs0 x hk hin hx
        (fun h => isFileFieldOf_of_mem .null x h)
        (fun h => isFileFieldOf_of_mem_keys rest x h kvs0 hsub')
  | (key, .undefined) :: rest, hx, hsub => by
    have hin := hsub (key, .undefined) (by simp)
    have hsub' : ∀ e ∈ rest, e ∈ kvs0 := fun e he => hsub e (by simp [he])
    by_cases hk : key = "allOf"
    · subst hk
      rw [fileFieldsOfKeys_cons_allOf] at hx
      exact isFileFieldOf_of_mem_keys rest x hx kvs0 hsub'
    · exact isFileFieldOf_keys_step key .undefined rest kvs0 x hk hin hx
        (fun h => isFileFieldOf_of_mem .undefined x h)
        (fun h => isFileFieldOf_of_mem_keys rest x h kvs0 hsub')
termination_by structural kvs
theorem isFileFieldOf_of_mem_items (i : Nat) (xs : List JsVal) (x : String × JsVal)
    (hx : x ∈ fileFieldsOfItems i xs) (schema : JsVal)
    (hsub : ∀ e ∈ entriesFrom i xs, e ∈ entriesOf schema) : IsFileFieldOf schema x.1 x.2 :=
  match xs, hx, hsub with
  | [], hx, _ => by simp [fileFieldsOfItems] at hx
  | value :: rest, hx, hsub =>
    isFileFieldOf_items_step i value rest schema x
      (hsub (toString i, value) (by simp [entriesFrom])) hx
      (fun h => isFileFieldOf_of_mem value x h)
      (fun h => isFileFieldOf_of_mem_items (i + 1) rest x h schema
        (fun e he => hsub e (by simp [entriesFrom, he])))
termination_by structural xs
theorem isFileFieldOf_of_mem_branches (schs : List JsVal) (x : String × JsVal)
    (hx : x ∈ fileFieldsOfBranches schs) : ∃ b ∈ schs, IsFileFieldOf b x.1 x.2 :=
  match schs, hx with
  | [], hx => by simp [fileFieldsOfBranches] at hx
  | sch :: rest, hx => by
    simp only [fileFieldsOfBranches, List.mem_append] at hx
    rcases hx with h | h
    · exact ⟨sch, by simp, isFileFieldOf_of_mem sch x h⟩
    · obtain ⟨b, hb, hfield⟩ := isFileFieldOf_of_mem_branches rest x h
      exact ⟨b, by simp [hb], hfield⟩
termination_by structural schs
end

theorem mem_fileFields_iff (schema : JsVal) (key : String) (value : JsVal) :
    (key, value) ∈ fileFields schema ↔ IsFileFieldOf schema key value :=
  ⟨fun h => isFileFieldOf_of_mem schema (key, value) h,
    mem_fileFields_of_isFileFieldOf schema key value⟩

/-- C15: `checkForFilesInSchema` appends to the given list exactly one single-entry pair
`{fieldName: constraintSchema}` for each field whose declared type is `file` that is reached
from the schema through `allOf` branches, `properties`, and sub-schemas whose declared type is
`object`, in traversal order; it appends nothing else and leaves the entries already in the
list unchanged.  On a schema document (no `null`, every `allOf` an array) it returns. -/
theorem checkForFilesInSchema_appends_file_fields (schema : JsVal) (toCheck : List JsVal) :
    (∀ r, checkForFilesInSchema schema toCheck = some r →
      r = toCheck ++ (fileFields schema).map (fun kv => JsVal.obj [kv])) ∧
    (isSchemaDocument schema = true →
      checkForFilesInSchema schema toCheck =
        some (toCheck ++ (fileFields schema).map (fun kv => JsVal.obj [kv]))) ∧
    (∀ key value, (key, value) ∈ fileFields schema ↔ IsFileFieldOf schema key value) ∧
    checkForFilesInSchema uploadSchema [] =
      some [.obj [("insuranceCertificate", .obj [("type", .str "file"), ("maxSize", .num 10)])],
        .obj [("goodStandingEvidence", .obj [("type", .str "file"), ("maxSize", .num 25)])]] := by
  refine ⟨fun r h => checkForFilesInSchema_eq schema toCheck r h, ?_,
    mem_fileFields_iff schema, by rfl⟩
  intro hdoc
  obtain ⟨r, hr⟩ := checkForFilesInSchema_total schema hdoc toCheck
  rw [hr, checkForFilesInSchema_eq schema toCheck r hr]
  rfl

/-! ### Records emitted by `processErrors` -/

theorem isPresent_deleteIfNull (v : JsVal) (h : v.isPresent = true) :
    (deleteIfNull v).isPresent = true := by
  cases v <;> simp [deleteIfNull, JsVal.isPresent] at h ⊢

theorem generateOne_of_messageFromPresentFields (errors : String → JsVal) (e : ErrorObj)
    (m : String) (h : messageFromPresentFields errors e = some m) (messages : List JsVal) :
    generateOne errors e messages = some (withMessage e m, messages ++ [.str m]) := by
  unfold messageFromPresentFields at h
  cases ht : e.errorType with
  | str t =>
    rw [ht] at h
    unfold generateOne withMessage
    rw [ht]
    by_cases h1 : t = "anyOf"
    · subst h1
      simp only [JsVal.is, decide_True, if_true] at h
      cases ha : e.anyOfFields with
      | none => rw [ha] at h; simp at h
      | some l =>
        cases l with
        | nil => rw [ha] at h; simp at h
        | cons first others =>
          rw [ha] at h
          simp only at h
          split at h
          · simp only [Option.some.injEq] at h
            subst h
            simp [JsVal.is]
          · simp at h
    · simp only [JsVal.is, h1, decide_False, Bool.false_eq_true, if_false] at h
      cases hf : e.field with
      | str field =>
        rw [hf] at h
        simp only at h
        rw [makePathReadable_str]
        by_cases h2 : t = "missing"
        · subst h2
          simp only [decide_True, if_true, Option.some.injEq] at h
          subst h
          simp [JsVal.is, JsVal.toStr]
        · simp only [h2, decide_False, Bool.false_eq_true, if_false] at h
          by_cases h3 : t = "type"
          · subst h3
            simp only [decide_True, if_true] at h
            split at h
            · simp only [Option.some.injEq] at h
              subst h
              simp [JsVal.is, JsVal.toStr]
            · simp at h
          · simp only [h3, decide_False, Bool.false_eq_true, if_false] at h
            by_cases h4 : t = "format" ∨ t = "pattern"
            · have h4' : (decide (t = "format") || decide (t = "pattern")) = true := by
                simpa using h4
              simp only [h4', if_true] at h
              simp [JsVal.is, h2, h3, h4, h, ← makePathReadable_str]
            · have h4' : (decide (t = "format") || decide (t = "pattern")) = false := by
                simpa using h4
              simp only [h4', Bool.false_eq_true, if_false] at h
              by_cases h5 : t = "enum"
              · subst h5
                simp only [decide_True, if_true] at h
                split at h
                · simp only [Option.some.injEq] at h
                  subst h
                  simp [JsVal.is, JsVal.toStr]
                · simp at h
              · simp only [h5, decide_False, Bool.false_eq_true, if_false] at h
                by_cases h6 : t = "dependencies"
                · subst h6
                  simp only [decide_True, if_true] at h
                  cases hd : e.dependency with
                  | str dependency =>
                    rw [hd] at h
                    simp only [Option.some.injEq] at h
                    subst h
                    simp [JsVal.is, JsVal.toStr, makePathReadable_str]
                  | _ => rw [hd] at h; simp at h
                · simp [h6] at h
      | _ => rw [hf] at h; simp at h
  | _ =>
    rw [ht] at h
    simp only [JsVal.is, Bool.false_eq_true, if_false, Bool.or_self] at h
    split at h <;> simp at h

theorem generateLoop_of_messageFromPresentFields (table : String → JsVal)
    (l done : List ErrorObj) (messages : List JsVal)
    (h : ∀ r ∈ l, (messageFromPresentFields table r).isSome = true) :
    ∃ sentences, l.map (messageFromPresentFields table) = sentences.map some ∧
      generateLoop table l done messages =
        some (done ++ List.zipWith withMessage l sentences,
          messages ++ sentences.map JsVal.str) := by
  induction l generalizing done messages with
  | nil => exact ⟨[], rfl, by simp [generateLoop]⟩
  | cons r rest ih =>
    obtain ⟨m, hm⟩ := Option.isSome_iff_exists.1 (h r (by simp))
    obtain ⟨sentences, hs, hloop⟩ := ih (done ++ [withMessage r m]) (messages ++ [.str m])
      (fun x hx => h x (by simp [hx]))
    refine ⟨m :: sentences, by simp [hm, hs], ?_⟩
    simp only [generateLoop, generateOne_of_messageFromPresentFields table r m hm messages]
    rw [hloop]
    simp

theorem handleMissingError_carries (table : String → JsVal) (errorArray : List ErrorObj)
    (prior : List JsVal) (result : List ValidationError) (counter : Nat) (schema : JsVal)
    (out : List ErrorObj) (after : List JsVal)
    (h : handleMissingError errorArray prior result counter schema = some (out, after)) :
    ∃ emitted, out = errorArray ++ emitted ∧
      ∀ r ∈ emitted, carriesTemplateFields r = true ∧
        (messageFromPresentFields table r).isSome = true := by
  unfold handleMissingError at h
  cases hget : result.get? counter with
  | none => rw [hget] at h; simp at h
  | some error =>
    rw [hget] at h
    simp only at h
    cases hfield : combinePropArgument (removeInstance error.property) error.argument with
    | str fieldText =>
      simp only [hfield] at h
      cases hfind : findField getAllRequired schema (splitDot fieldText) [] with
      | none => simp [hfind] at h
      | some names =>
        simp only [hfind, Option.some.injEq, Prod.mk.injEq] at h
        refine ⟨_, by rw [← h.1, List.append_assoc], ?_⟩
        intro r hr
        simp only [List.singleton_append, List.mem_cons, List.mem_map, qualifyRequired] at hr
        rcases hr with rfl | ⟨q, ⟨n, _, rfl⟩, rfl⟩ <;> exact ⟨rfl, rfl⟩
    | _ => simp [hfield] at h

theorem carries_of_append_singleton (table : String → JsVal) (errorArray out : List ErrorObj)
    (r : ErrorObj) (h : errorArray ++ [r] = out) (hr : carriesTemplateFields r = true)
    (hm : (messageFromPresentFields table r).isSome = true) :
    ∃ emitted, out = errorArray ++ emitted ∧
      ∀ x ∈ emitted, carriesTemplateFields x = true ∧
        (messageFromPresentFields table x).isSome = true :=
  ⟨[r], h.symm, fun x hx => by rw [List.mem_singleton.1 hx]; exact ⟨hr, hm⟩⟩

theorem handleTypeError_carries (table : String → JsVal) (errorArray : List ErrorObj)
    (result : List ValidationError) (counter : Nat) (error : ValidationError)
    (out : List ErrorObj) (hget : result.get? counter = some error)
    (harg : ∃ t, error.argument.getIndex 0 = some t ∧ t.isPresent = true)
    (h : handleTypeError errorArray result counter = some out) :
    ∃ emitted, out = errorArray ++ emitted ∧
      ∀ r ∈ emitted, carriesTemplateFields r = true ∧
        (messageFromPresentFields table r).isSome = true := by
  obtain ⟨t, ht, hp⟩ := harg
  unfold handleTypeError at h
  rw [hget] at h
  simp only [ht, Option.some.injEq] at h
  have hd := isPresent_deleteIfNull t hp
  refine carries_of_append_singleton table _ _ _ h hd ?_
  have hf : ∀ x, deleteIfNull (.str x) = .str x := fun _ => rfl
  simp [messageFromPresentFields, makeErrorObj, JsVal.is, hf, hd]

theorem handleFormatError_carries (table : String → JsVal) (errorArray : List ErrorObj)
    (result : List ValidationError) (counter : Nat) (out : List ErrorObj)
    (h : handleFormatError errorArray result counter = some out) :
    ∃ emitted, out = errorArray ++ emitted ∧
      ∀ r ∈ emitted, carriesTemplateFields r = true ∧
        (messageFromPresentFields table r).isSome = true := by
  unfold handleFormatError at h
  cases hget : result.get? counter with
  | none => rw [hget] at h; simp at h
  | some error =>
    rw [hget] at h
    simp only [Option.some.injEq] at h
    exact carries_of_append_singleton table _ _ _ h rfl rfl

theorem handleEnumError_carries (table : String → JsVal) (errorArray : List ErrorObj)
    (result : List ValidationError) (counter : Nat) (error : ValidationError)
    (out : List ErrorObj) (hget : result.get? counter = some error)
    (hmsg : error.message.isPresent = true)
    (h : handleEnumError errorArray result counter = some out) :
    ∃ emitted, out = errorArray ++ emitted ∧
      ∀ r ∈ emitted, carriesTemplateFields r = true ∧
        (messageFromPresentFields table r).isSome = true := by
  unfold handleEnumError at h
  rw [hget] at h
  simp only [Option.some.injEq] at h
  have hd := isPresent_deleteIfNull error.message hmsg
  refine carries_of_append_singleton table _ _ _ h hd ?_
  have hf : ∀ x, deleteIfNull (.str x) = .str x := fun _ => rfl
  simp [messageFromPresentFields, makeErrorObj, JsVal.is, hf, hd]

theorem handleDependencyError_carries (table : String → JsVal) (errorArray : List ErrorObj)
    (result : List ValidationError) (counter : Nat) (out : List ErrorObj)
    (h : handleDependencyError errorArray result counter = some out) :
    ∃ emitted, out = errorArray ++ emitted ∧
      ∀ r ∈ emitted, carriesTemplateFields r = true ∧
        (messageFromPresentFields table r).isSome = true := by
  unfold handleDependencyError at h
  cases hget : result.get? counter with
  | none => rw [hget] at h; simp at h
  | some error =>
    rw [hget] at h
    simp only at h
    cases harg : removeInstanceOf error.argument with
    | none => rw [harg] at h; simp at h
    | some dependentField =>
      rw [harg] at h
      simp only at h
      cases hdep : getDependency result counter with
      | none => rw [hdep] at h; simp at h
      | some found =>
        rw [hdep] at h
        simp only [Option.some.injEq] at h
        exact carries_of_append_singleton table _ _ _ h rfl rfl

theorem combinePropArgument_isPresent (property : String) (argument : JsVal)
    (h : argument.isPresent = true) :
    (combinePropArgument property argument).isPresent = true := by
  unfold combinePropArgument
  split
  · rfl
  · exact h

theorem anyOfOptions_present (property : String) (branches acc opts : List JsVal)
    (h : anyOfOptions property branches acc = some opts)
    (hb : ∀ b ∈ branches, ∀ req first, b.getNamed "required" = some req →
      req.getIndex 0 = some first → first.isPresent = true)
    (hacc : ∀ x ∈ acc, x.isPresent = true) :
    (∀ x ∈ opts, x.isPresent = true) ∧ opts.length = acc.length + branches.length := by
  induction branches generalizing acc with
  | nil =>
    simp only [anyOfOptions, Option.some.injEq] at h
    subst h
    exact ⟨hacc, by simp⟩
  | cons b rest ih =>
    simp only [anyOfOptions] at h
    cases hreq : b.getNamed "required" with
    | none => rw [hreq] at h; simp at h
    | some req =>
      rw [hreq] at h
      simp only at h
      cases hfirst : req.getIndex 0 with
      | none => rw [hfirst] at h; simp at h
      | some first =>
        rw [hfirst] at h
        simp only at h
        have hp := combinePropArgument_isPresent property first
          (hb b (by simp) req first hreq hfirst)
        obtain ⟨h1, h2⟩ := ih (acc ++ [combinePropArgument property first]) h
          (fun x hx => hb x (by simp [hx]))
          (by
            intro x hx
            rcases List.mem_append.1 hx with hm | hm
            · exact hacc x hm
            · rw [List.mem_singleton.1 hm]; exact hp)
        refine ⟨h1, ?_⟩
        rw [h2]
        simp
        omega

theorem handleAnyOfError_carries (table : String → JsVal) (errorArray : List ErrorObj)
    (result : List ValidationError) (counter : Nat) (error : ValidationError)
    (out : List ErrorObj) (hget : result.get? counter = some error)
    (hbranches : ∀ branches, error.schema.getNamed "anyOf" = some (.arr branches) →
      branches ≠ [] ∧ ∀ b ∈ branches, ∀ req first, b.getNamed "required" = some req →
        req.getIndex 0 = some first → first.isPresent = true)
    (h : handleAnyOfError errorArray result counter = some out) :
    ∃ emitted, out = errorArray ++ emitted ∧
      ∀ r ∈ emitted, carriesTemplateFields r = true ∧
        (messageFromPresentFields table r).isSome = true := by
  unfold handleAnyOfError at h
  rw [hget] at h
  simp only at h
  cases hs : error.schema.getNamed "anyOf" with
  | none => rw [hs] at h; simp at h
  | some v =>
    rw [hs] at h
    cases v with
    | arr branches =>
      simp only at h
      obtain ⟨hne, hb⟩ := hbranches branches hs
      cases ho : anyOfOptions (removeInstance error.property) branches [] with
      | none => rw [ho] at h; simp at h
      | some requiredOptions =>
        rw [ho] at h
        simp only [Option.some.injEq] at h
        obtain ⟨hall, hlen⟩ := anyOfOptions_present _ _ _ _ ho hb (by simp)
        cases requiredOptions with
        | nil =>
          simp only [List.length_nil, Nat.zero_add] at hlen
          exact absurd (List.length_eq_zero.1 hlen.symm) hne
        | cons first others =>
          have hall' : (first :: others).all JsVal.isPresent = true :=
            List.all_eq_true.2 hall
          refine carries_of_append_singleton table _ _ _ h ?_ ?_
          · simpa [carriesTemplateFields, makeErrorObj, JsVal.is, deleteIfNull] using hall'
          · simp only [messageFromPresentFields, makeErrorObj, JsVal.is, deleteIfNull,
              decide_True, if_true, hall']
            rfl
    | _ => simp at h

theorem processOne_carries (table : String → JsVal) (errors : List ValidationError)
    (schema : JsVal) (counter : Nat)
    (errorArray : List ErrorObj) (prior : List JsVal) (out : List ErrorObj)
    (after : List JsVal)
    (hwf : ∀ e ∈ errors,
      (e.name = "type" → ∃ t, e.argument.getIndex 0 = some t ∧ t.isPresent = true) ∧
      (e.name = "enum" → e.message.isPresent = true) ∧
      (e.name = "anyOf" → ∀ branches, e.schema.getNamed "anyOf" = some (.arr branches) →
        branches ≠ [] ∧ ∀ b ∈ branches, ∀ req first, b.getNamed "required" = some req →
          req.getIndex 0 = some first → first.isPresent = true))
    (h : processOne errors schema counter errorArray prior = some (out, after)) :
    ∃ emitted, out = errorArray ++ emitted ∧
      ∀ r ∈ emitted, carriesTemplateFields r = true ∧
        (messageFromPresentFields table r).isSome = true := by
  unfold processOne at h
  cases hget : errors.get? counter with
  | none => rw [hget] at h; simp at h
  | some error =>
    rw [hget] at h
    simp only at h
    have hmem : error ∈ errors := List.get?_mem hget
    split at h
    · exact handleMissingError_carries table _ _ _ _ _ _ _ h
    · split at h
      · rename_i hname
        obtain ⟨o, ho, heq⟩ := Option.map_eq_some'.1 h
        simp only [Prod.mk.injEq] at heq
        rw [← heq.1]
        exact handleTypeError_carries table _ _ _ error _ hget ((hwf error hmem).1 hname) ho
      · split at h
        · obtain ⟨o, ho, heq⟩ := Option.map_eq_some'.1 h
          simp only [Prod.mk.injEq] at heq
          rw [← heq.1]
          exact handleFormatError_carries table _ _ _ _ ho
        · split at h
          · rename_i hname
            obtain ⟨o, ho, heq⟩ := Option.map_eq_some'.1 h
            simp only [Prod.mk.injEq] at heq
            rw [← heq.1]
            exact handleEnumError_carries table _ _ _ error _ hget
              ((hwf error hmem).2.1 hname) ho
          · split at h
            · obtain ⟨o, ho, heq⟩ := Option.map_eq_some'.1 h
              simp only [Prod.mk.injEq] at heq
              rw [← heq.1]
              exact handleDependencyError_carries table _ _ _ _ ho
            · split at h
              · rename_i hname
                obtain ⟨o, ho, heq⟩ := Option.map_eq_some'.1 h
                simp only [Prod.mk.injEq] at heq
                rw [← heq.1]
                exact handleAnyOfError_carries table _ _ _ error _ hget
                  ((hwf error hmem).2.2 hname) ho
              · simp only [Option.some.injEq, Prod.mk.injEq] at h
                exact ⟨[], by simp [h.1], by simp⟩

theorem processLoop_carries (table : String → JsVal) (errors : List ValidationError)
    (schema : JsVal)
    (hwf : ∀ e ∈ errors,
      (e.name = "type" → ∃ t, e.argument.getIndex 0 = some t ∧ t.isPresent = true) ∧
      (e.name = "enum" → e.message.isPresent = true) ∧
      (e.name = "anyOf" → ∀ branches, e.schema.getNamed "anyOf" = some (.arr branches) →
        branches ≠ [] ∧ ∀ b ∈ branches, ∀ req first, b.getNamed "required" = some req →
          req.getIndex 0 = some first → first.isPresent = true))
    (remaining counter : Nat) (errorArray : List ErrorObj) (prior : List JsVal)
    (out : List ErrorObj) (after : List JsVal)
    (h : processLoop errors schema remaining counter errorArray prior = some (out, after)) :
    ∃ emitted, out = errorArray ++ emitted ∧
      ∀ r ∈ emitted, carriesTemplateFields r = true ∧
        (messageFromPresentFields table r).isSome = true := by
  induction remaining generalizing counter errorArray prior with
  | zero =>
    simp only [processLoop, Option.some.injEq, Prod.mk.injEq] at h
    exact ⟨[], by simp [h.1], by simp⟩
  | succ k ih =>
    simp only [processLoop] at h
    cases hone : processOne errors schema counter errorArray prior with
    | none => rw [hone] at h; simp at h
    | some step =>
      obtain ⟨mid, prior'⟩ := step
      rw [hone] at h
      simp only at h
      obtain ⟨e1, hmid, hc1⟩ := processOne_carries table errors schema counter errorArray
        prior mid prior' hwf hone
      obtain ⟨e2, hout, hc2⟩ := ih (counter + 1) mid prior' h
      refine ⟨e1 ++ e2, by rw [hout, hmid, List.append_assoc], ?_⟩
      intro r hr
      rcases List.mem_append.1 hr with hm | hm
      · exact hc1 r hm
      · exact hc2 r hm

/-- C11, as stated, fails.  For the `type` failure whose list of expected types is empty,
`processErrors` emits a `type` record without `expectedFieldType`, and the message rendered
for it is built from the absent key.  For the `anyOf` failure whose first branch has an empty
`required` list, the record has an absent first alternative, rendered as `false`. -/
theorem processErrors_type_record_counterexample :
    processErrors [emptyTypeFailure] [] [] (.obj []) =
      some ([makeErrorObj (.str "age") (.str "type") .undefined], []) ∧
    carriesTemplateFields (makeErrorObj (.str "age") (.str "type") .undefined) = false ∧
    (generateErrorMesage (fun _ => JsVal.undefined)
        [makeErrorObj (.str "age") (.str "type") .undefined]).map Prod.snd =
      some "Age is expected to be type 'undefined'." ∧
    processErrors [emptyRequiredAnyOfFailure] [] [] (.obj []) =
      some ([makeErrorObj .null (.str "anyOf") .null .null .null
        (some [.undefined, .str "phone"])], []) ∧
    carriesTemplateFields (makeErrorObj .null (.str "anyOf") .null .null .null
      (some [.undefined, .str "phone"])) = false ∧
    (generateErrorMesage (fun _ => JsVal.undefined)
        [makeErrorObj .null (.str "anyOf") .null .null .null
          (some [.undefined, .str "phone"])]).map Prod.snd =
      some "Either false or Phone is a required field." := by
  refine ⟨by rfl, by rfl, by rfl, by rfl, by rfl, by rfl⟩

/-- C11, amended: for every list of raw validation failures in which each `type` failure names
at least one expected type (its argument has a first element that is neither `null` nor
`undefined`), each `enum` failure has a message, and each `anyOf` failure has at least one
branch, every branch naming a first required field that is neither `null` nor `undefined`, and
for every schema, each record that `processErrors` emits carries every key that the
`generateErrorMesage` template of its error type reads (`field` for `missing`, `type`,
`format`, `enum` and `dependencies`, `expectedFieldType` for `type`, `enumMessage` for `enum`,
`dependency` for `dependencies`, `anyOfFields` and its elements for `anyOf`), so no rendered
message is built from an absent field: `generateErrorMesage` returns on the emitted records,
and the message it assigns to each of them is the one built from the values that are present
(`messageFromPresentFields`, with the table `table` of pattern messages). -/
theorem processErrors_records_carry_template_fields (table : String → JsVal)
    (errors : List ValidationError)
    (errorArray : List ErrorObj) (requiredFields : List JsVal) (schema : JsVal)
    (out : List ErrorObj) (after : List JsVal)
    (hwf : ∀ e ∈ errors,
      (e.name = "type" → ∃ t, e.argument.getIndex 0 = some t ∧ t.isPresent = true) ∧
      (e.name = "enum" → e.message.isPresent = true) ∧
      (e.name = "anyOf" → ∀ branches, e.schema.getNamed "anyOf" = some (.arr branches) →
        branches ≠ [] ∧ ∀ b ∈ branches, ∀ req first, b.getNamed "required" = some req →
          req.getIndex 0 = some first → first.isPresent = true))
    (h : processErrors errors errorArray requiredFields schema = some (out, after)) :
    ∃ emitted sentences, out = errorArray ++ emitted ∧
      (∀ r ∈ emitted, carriesTemplateFields r = true) ∧
      emitted.map (messageFromPresentFields table) = sentences.map some ∧
      generateErrorMesage table emitted =
        some (List.zipWith withMessage emitted sentences,
          concatErrors (sentences.map JsVal.str)) := by
  obtain ⟨emitted, hout, hc⟩ := processLoop_carries table errors schema hwf errors.length 0
    errorArray requiredFields out after h
  obtain ⟨sentences, hs, hloop⟩ := generateLoop_of_messageFromPresentFields table emitted [] []
    (fun r hr => (hc r hr).2)
  refine ⟨emitted, sentences, hout, fun r hr => (hc r hr).1, hs, ?_⟩
  unfold generateErrorMesage
  rw [hloop]
  simp

theorem processErrors_records_carry_template_fields_witness :
    ∃ emitted sentences,
      [makeErrorObj (.str "applicant.address") (.str "missing"),
        makeErrorObj (.str "applicant.address.zipCode") (.str "missing"),
        makeErrorObj (.str "applicant.address.street") (.str "missing"),
        makeErrorObj (.str "age") (.str "type") (.str "integer"),
        makeErrorObj (.str "email") (.str "dependencies") .null .null (.str ".phone"),
        anyOfRecord ["contact.email", "contact.phone"]] = [] ++ emitted ∧
      (∀ r ∈ emitted, carriesTemplateFields r = true) ∧
      emitted.map (messageFromPresentFields (fun _ => JsVal.undefined)) = sentences.map some ∧
      generateErrorMesage (fun _ => JsVal.undefined) emitted =
        some (List.zipWith withMessage emitted sentences,
          concatErrors (sentences.map JsVal.str)) :=
  processErrors_records_carry_template_fields (fun _ => JsVal.undefined)
    [addressFailure, integerTypeFailure, rootDependencyFailure, contactAnyOfFailure] [] []
    addressSchema _ _
    (by
      intro e he
      simp only [List.mem_cons, List.mem_singleton, List.not_mem_nil, or_false] at he
      rcases he with rfl | rfl | rfl | rfl
      · exact ⟨fun hn => absurd hn (by decide), fun hn => absurd hn (by decide),
          fun hn => absurd hn (by decide)⟩
      · exact ⟨fun _ => ⟨.str "integer", rfl, rfl⟩, fun hn => absurd hn (by decide),
          fun hn => absurd hn (by decide)⟩
      · exact ⟨fun hn => absurd hn (by decide), fun hn => absurd hn (by decide),
          fun hn => absurd hn (by decide)⟩
      · refine ⟨fun hn => absurd hn (by decide), fun hn => absurd hn (by decide),
          fun _ branches hb => ?_⟩
        have hb' : branches = [.obj [("required", .arr [.str "email"])],
            .obj [("required", .arr [.str "phone"])]] := by
          have : some (JsVal.arr [.obj [("required", .arr [.str "email"])],
              .obj [("required", .arr [.str "phone"])]]) = some (JsVal.arr branches) := hb
          injection this with this
          injection this with this
          exact this.symm
        subst hb'
        refine ⟨by simp, ?_⟩
        intro b hbm req first hreq hfirst
        simp only [List.mem_cons, List.mem_singleton, List.not_mem_nil, or_false] at hbm
        rcases hbm with rfl | rfl
        · have : req = .arr [.str "email"] := by
            have h1 : some (JsVal.arr [.str "email"]) = some req := hreq
            injection h1 with h1
            exact h1.symm
          subst this
          have : first = .str "email" := by
            have h1 : some (JsVal.str "email") = some first := hfirst
            injection h1 with h1
            exact h1.symm
          subst this
          rfl
        · have : req = .arr [.str "phone"] := by
            have h1 : some (JsVal.arr [.str "phone"]) = some req := hreq
            injection h1 with h1
            exact h1.symm
          subst this
          have : first = .str "phone" := by
            have h1 : some (JsVal.str "phone") = some first := hfirst
            injection h1 with h1
            exact h1.symm
          subst this
          rfl)
    (by rfl)

end Validation
